import Mathlib

/-!
# Cedana: job/state index and engine transport

A shallow embedding of `api/db.go` (the job/state index kept in a bbolt file) and of
`api/criu.go` (the request/response loop that drives the checkpoint/restore engine).

Conventions of the embedding:

* a Go byte string is the list of its byte values (`Bytes`);
* a Go `error` is its message, `nil` is `none`;
* a bbolt bucket is the list of its key/value pairs in cursor order, which bbolt keeps
  ascending in `bytes.Compare`; the root bucket `default` holds one sub-bucket per job;
* `bolt.Open` outcomes are passed in as `conn` (`none`: the store opened);
* bbolt size limits (`MaxKeySize`, `MaxValueSize`) and disk failures at commit are outside
  the model;
* `encoding/json` applied to `task.ProcessState` is a parameter (`JSON`).
-/

set_option maxRecDepth 100000

namespace Cedana

/-! ## Byte strings -/

/-- A Go byte string, as the list of its byte values. -/
abbrev Bytes := List Nat

/-- A Go error value, identified by its message. -/
abbrev Error := String

/-- The bytes of an ASCII literal. -/
def ascii (s : String) : Bytes := s.toList.map Char.toNat

/-- The strict order of `bytes.Compare`: lexicographic on byte values, a proper prefix first. -/
def bytesLt : Bytes → Bytes → Bool
  | [], [] => false
  | [], _ :: _ => true
  | _ :: _, [] => false
  | a :: as, b :: bs => if a < b then true else if b < a then false else bytesLt as bs

/-! ## strconv -/

/-- Decimal digits of `n`, most significant first; `fuel` bounds the number of digits. -/
def formatDigits : Nat → Nat → Bytes
  | 0, _ => []
  | fuel + 1, n => if n < 10 then [48 + n] else formatDigits fuel (n / 10) ++ [48 + n % 10]

/-- The decimal form of a natural number (`strconv.FormatUint(n, 10)`). -/
def formatUint (n : Nat) : Bytes := formatDigits (n + 1) n

/-- The function `strconv.Itoa`: a minus sign for negative numbers, then the decimal digits. -/
def Itoa (n : Int) : Bytes :=
  if n < 0 then 45 :: formatUint n.natAbs else formatUint n.natAbs

/-- Whether a byte is an ASCII decimal digit. -/
def isDigit (c : Nat) : Bool := decide (48 ≤ c) && decide (c ≤ 57)

/-- Value of a run of decimal digits, continuing from `acc`; `none` at a byte that is no digit. -/
def parseDigits : Nat → Bytes → Option Nat
  | acc, [] => some acc
  | acc, c :: cs => if isDigit c then parseDigits (10 * acc + (c - 48)) cs else none

/-- The function `strconv.ParseInt(s, 10, bitSize)`: an optional sign, at least one digit, only
digits, and the value within the signed range of `bitSize` bits. -/
def ParseInt (s : Bytes) (bitSize : Nat) : Except Error Int :=
  match s with
  | [] => .error "invalid syntax"
  | c :: rest =>
    let neg : Bool := decide (c = 45)
    let body : Bytes := if c = 43 ∨ c = 45 then rest else c :: rest
    match body with
    | [] => .error "invalid syntax"
    | _ :: _ =>
      match parseDigits 0 body with
      | none => .error "invalid syntax"
      | some un =>
        if neg then
          if un ≤ 2 ^ (bitSize - 1) then .ok (-(un : Int)) else .error "value out of range"
        else
          if un < 2 ^ (bitSize - 1) then .ok (un : Int) else .error "value out of range"

/-- The function `strconv.Atoi`: `ParseInt` at the width of `int`, 64 bits. -/
def Atoi (s : Bytes) : Except Error Int := ParseInt s 64

/-! ## The persisted record -/

/-- Modelled from the spec: one entry of `open_fds` of `task.ProcessInfo` (the generated
`task` package is not part of the sources); `{fd, path, flags}`. -/
structure OpenFd where
  Fd : Nat
  Path : Bytes
  Flags : Bytes
deriving DecidableEq, Repr

/-- Modelled from the spec: `task.ProcessInfo`, the descriptor of the process at capture
time, with `open_fds` and `open_write_only_file_paths`. -/
structure ProcessInfo where
  OpenFds : List OpenFd
  OpenWriteOnlyFilePaths : List Bytes
deriving DecidableEq, Repr

/-- Modelled from the spec: `task.ProcessState`, with the attributes the sources read:
`PID` (a signed 32-bit integer in Go), `ProcessInfo`, `CheckpointPath`, `GPUCheckpointed`. -/
structure ProcessState where
  PID : Int
  ProcessInfo : ProcessInfo
  CheckpointPath : Bytes
  GPUCheckpointed : Bool
deriving DecidableEq, Repr

/-- The Go zero value of `task.ProcessState` (`var state task.ProcessState`). -/
def ProcessState.zero : ProcessState := ⟨0, ⟨[], []⟩, [], false⟩

/-- The functions `json.Marshal` and `json.Unmarshal` at type `task.ProcessState`.
`Unmarshal data st` decodes into the existing value `st` and returns the value afterwards
together with the error. -/
structure JSON where
  Marshal : ProcessState → Except Error Bytes
  Unmarshal : Bytes → ProcessState → ProcessState × Option Error

/-- The spec's round-trip law: decoding an encoding into a zero value gives the state back. -/
def JSON.RoundTrip (J : JSON) : Prop :=
  ∀ s v, J.Marshal s = .ok v → J.Unmarshal v ProcessState.zero = (s, none)

/-- Empty input is rejected by `json.Unmarshal` before the target is touched. -/
def JSON.RejectsEmpty (J : JSON) : Prop :=
  ∀ st, J.Unmarshal [] st = (st, some "unexpected end of JSON input")

/-! ## A reference JSON codec

A concrete inhabitant of `JSON`, used to evaluate the index on explicit inputs: a compact
JSON text for `ProcessState` and a decoder for exactly that text. Strings escape the quote
and the backslash; every other byte is written as it is. -/

namespace RefJSON

/-- Strip the literal `lit` from the front of the input. -/
def expect : Bytes → Bytes → Option Bytes
  | [], l => some l
  | _ :: _, [] => none
  | c :: cs, d :: ds => if c = d then expect cs ds else none

/-- The body of a JSON string: quote and backslash are preceded by a backslash. -/
def escape : Bytes → Bytes
  | [] => []
  | c :: cs => if c = 34 ∨ c = 92 then 92 :: c :: escape cs else c :: escape cs

/-- A JSON string. -/
def printString (s : Bytes) : Bytes := 34 :: (escape s ++ [34])

/-- Read a string body up to its closing quote; returns the string and the remaining input.
The flag tells whether the previous byte was an escaping backslash. -/
def parseStringBody : Bool → Bytes → Option (Bytes × Bytes)
  | _, [] => none
  | true, c :: rest =>
    if c = 34 ∨ c = 92 then (parseStringBody false rest).map fun r => (c :: r.1, r.2) else none
  | false, c :: rest =>
    if c = 34 then some ([], rest)
    else if c = 92 then parseStringBody true rest
    else (parseStringBody false rest).map fun r => (c :: r.1, r.2)

/-- Read a JSON string. -/
def parseString : Bytes → Option (Bytes × Bytes)
  | [] => none
  | c :: rest => if c = 34 then parseStringBody false rest else none

/-- Read decimal digits while there are some, continuing from `acc`. -/
def parseNatAux : Nat → Bytes → Nat × Bytes
  | acc, [] => (acc, [])
  | acc, c :: cs => if isDigit c then parseNatAux (10 * acc + (c - 48)) cs else (acc, c :: cs)

/-- Read a natural number: at least one digit. -/
def parseNat : Bytes → Option (Nat × Bytes)
  | [] => none
  | c :: cs => if isDigit c then some (parseNatAux 0 (c :: cs)) else none

/-- Whether the input is empty or starts with a byte that is no digit. -/
def startsNonDigit : Bytes → Bool
  | [] => true
  | d :: _ => !isDigit d

/-- Read an integer: an optional minus sign and a natural number. -/
def parseInt : Bytes → Option (Int × Bytes)
  | [] => none
  | c :: cs =>
    if c = 45 then (parseNat cs).map fun r => (-(r.1 : Int), r.2)
    else (parseNat (c :: cs)).map fun r => ((r.1 : Int), r.2)

/-- A JSON boolean. -/
def printBool (b : Bool) : Bytes := if b then ascii "true" else ascii "false"

/-- Read a JSON boolean. -/
def parseBool (l : Bytes) : Option (Bool × Bytes) :=
  match expect (ascii "true") l with
  | some rest => some (true, rest)
  | none => (expect (ascii "false") l).map fun rest => (false, rest)

/-- The items of a non-empty JSON array, comma separated, with the closing bracket. -/
def printItems {α : Type} (p : α → Bytes) : List α → Bytes
  | [] => []
  | a :: rest =>
    match rest with
    | [] => p a ++ [93]
    | _ :: _ => p a ++ 44 :: printItems p rest

/-- A JSON array. -/
def printList {α : Type} (p : α → Bytes) (l : List α) : Bytes :=
  match l with
  | [] => [91, 93]
  | _ :: _ => 91 :: printItems p l

/-- Read the items of a non-empty array and its closing bracket; `fuel` bounds their number. -/
def parseItems {α : Type} (item : Bytes → Option (α × Bytes)) :
    Nat → Bytes → Option (List α × Bytes)
  | 0, _ => none
  | fuel + 1, l =>
    match item l with
    | none => none
    | some (a, rest) =>
      match rest with
      | [] => none
      | c :: rest' =>
        if c = 93 then some ([a], rest')
        else if c = 44 then (parseItems item fuel rest').map fun r => (a :: r.1, r.2)
        else none

/-- Read a JSON array. -/
def parseList {α : Type} (item : Bytes → Option (α × Bytes)) (l : Bytes) :
    Option (List α × Bytes) :=
  match expect [91, 93] l with
  | some rest => some ([], rest)
  | none => (expect [91] l).bind fun rest => parseItems item rest.length rest

/-- The JSON object of an `OpenFd`. -/
def printOpenFd (f : OpenFd) : Bytes :=
  ascii "\x7b\"fd\":" ++ (formatUint f.Fd ++ (ascii ",\"path\":" ++ (printString f.Path ++
    (ascii ",\"flags\":" ++ (printString f.Flags ++ [125])))))

/-- Read the JSON object of an `OpenFd`. -/
def parseOpenFd (l : Bytes) : Option (OpenFd × Bytes) :=
  (expect (ascii "\x7b\"fd\":") l).bind fun l =>
  (parseNat l).bind fun fd =>
  (expect (ascii ",\"path\":") fd.2).bind fun l =>
  (parseString l).bind fun path =>
  (expect (ascii ",\"flags\":") path.2).bind fun l =>
  (parseString l).bind fun flags =>
  (expect [125] flags.2).bind fun l =>
  some (⟨fd.1, path.1, flags.1⟩, l)

/-- The JSON object of a `ProcessState`. -/
def printState (s : ProcessState) : Bytes :=
  ascii "\x7b\"pid\":" ++ (Itoa s.PID ++
  (ascii ",\"process_info\":\x7b\"open_fds\":" ++ (printList printOpenFd s.ProcessInfo.OpenFds ++
  (ascii ",\"open_write_only_file_paths\":" ++
    (printList printString s.ProcessInfo.OpenWriteOnlyFilePaths ++
  (ascii "\x7d,\"checkpoint_path\":" ++ (printString s.CheckpointPath ++
  (ascii ",\"gpu_checkpointed\":" ++ (printBool s.GPUCheckpointed ++ [125])))))))))

/-- Read the JSON object of a `ProcessState`. -/
def parseState (l : Bytes) : Option (ProcessState × Bytes) :=
  (expect (ascii "\x7b\"pid\":") l).bind fun l =>
  (parseInt l).bind fun pid =>
  (expect (ascii ",\"process_info\":\x7b\"open_fds\":") pid.2).bind fun l =>
  (parseList parseOpenFd l).bind fun fds =>
  (expect (ascii ",\"open_write_only_file_paths\":") fds.2).bind fun l =>
  (parseList parseString l).bind fun paths =>
  (expect (ascii "\x7d,\"checkpoint_path\":") paths.2).bind fun l =>
  (parseString l).bind fun cp =>
  (expect (ascii ",\"gpu_checkpointed\":") cp.2).bind fun l =>
  (parseBool l).bind fun gpu =>
  (expect [125] gpu.2).bind fun l =>
  some (⟨pid.1, ⟨fds.1, paths.1⟩, cp.1, gpu.1⟩, l)

/-- Decode into `st`: the target is replaced on success and left as it was on an error. -/
def Unmarshal (data : Bytes) (st : ProcessState) : ProcessState × Option Error :=
  match data with
  | [] => (st, some "unexpected end of JSON input")
  | _ :: _ =>
    match parseState data with
    | some (s, []) => (s, none)
    | _ => (st, some "invalid character")

end RefJSON

/-- The reference codec. -/
def refJSON : JSON where
  Marshal := fun s => .ok (RefJSON.printState s)
  Unmarshal := RefJSON.Unmarshal

/-! ## bbolt -/

/-- Insert or overwrite in a list of pairs kept ascending by key (bbolt `node.put`). -/
def kvInsert {β : Type} (k : Bytes) (v : β) : List (Bytes × β) → List (Bytes × β)
  | [] => [(k, v)]
  | (k', v') :: rest =>
    if k = k' then (k, v) :: rest
    else if bytesLt k k' then (k, v) :: (k', v') :: rest
    else (k', v') :: kvInsert k v rest

/-- The value at a key, if the key is present. -/
def kvLookup {β : Type} (k : Bytes) : List (Bytes × β) → Option β
  | [] => none
  | (k', v') :: rest => if k = k' then some v' else kvLookup k rest

/-- A job bucket: decimal-PID keys to stored values, in cursor order. -/
abbrev JobBucket := List (Bytes × Bytes)

/-- The root bucket `default`: job ids to job buckets, in cursor order. -/
abbrev RootBucket := List (Bytes × JobBucket)

/-- The committed content of the store: the root bucket `default`, when it exists. -/
structure Index where
  root : Option RootBucket
deriving DecidableEq, Repr

/-- The store of a fresh database file. -/
def Index.empty : Index := ⟨none⟩

/-- The call `tx.CreateBucketIfNotExists([]byte("default"))`. The name is not blank, so it
returns the bucket, created empty when absent. -/
def Index.CreateBucketIfNotExists (tx : Index) : Except Error RootBucket :=
  .ok (tx.root.getD [])

/-- The call `root.Bucket(name)`: `none` is Go's `nil`. -/
def RootBucket.Bucket (root : RootBucket) (name : Bytes) : Option JobBucket :=
  kvLookup name root

/-- The call `root.CreateBucketIfNotExists(name)`: a blank name is `ErrBucketNameRequired`;
otherwise the root with the bucket present, and the bucket. -/
def RootBucket.CreateBucketIfNotExists (root : RootBucket) (name : Bytes) :
    Except Error (RootBucket × JobBucket) :=
  if name = [] then .error "bucket name required"
  else match kvLookup name root with
    | some job => .ok (root, job)
    | none => .ok (kvInsert name [] root, [])

/-- The call `job.Put(key, value)`: a blank key is `ErrKeyRequired`. -/
def JobBucket.Put (job : JobBucket) (key value : Bytes) : Except Error JobBucket :=
  if key = [] then .error "key required" else .ok (kvInsert key value job)

/-- The call `job.Cursor().Last()`: the last pair in cursor order, `none` standing for
`(nil, nil)` on an empty bucket. -/
def JobBucket.Last (job : JobBucket) : Option (Bytes × Bytes) := job.getLast?

/-- The call `job.ForEach(fn)`: runs `fn` over the pairs in cursor order and stops at the
first error, which it returns. `σ` is what the callback mutates. -/
def JobBucket.ForEach {σ : Type} (fn : Bytes → Bytes → σ → σ × Option Error) :
    JobBucket → σ → σ × Option Error
  | [], s => (s, none)
  | (k, v) :: rest, s =>
    match fn k v s with
    | (s', some err) => (s', some err)
    | (s', none) => JobBucket.ForEach fn rest s'

/-- The call `root.ForEachBucket(fn)`: runs `fn` over the names of the sub-buckets in cursor
order and stops at the first error, which it returns. -/
def RootBucket.ForEachBucket {σ : Type} (fn : Bytes → σ → σ × Option Error) :
    RootBucket → σ → σ × Option Error
  | [], s => (s, none)
  | (k, _) :: rest, s =>
    match fn k s with
    | (s', some err) => (s', some err)
    | (s', none) => RootBucket.ForEachBucket fn rest s'

/-- Writing through a bucket handle: `job` replaces the sub-bucket stored under `name`. -/
def RootBucket.store : RootBucket → Bytes → JobBucket → RootBucket
  | [], _, _ => []
  | (k, b) :: rest, name, job =>
    if k = name then (k, job) :: rest else (k, b) :: RootBucket.store rest name job

/-- The call `conn.Update(fn)`: commits what `fn` built when it returns `nil`, rolls back to
the committed store when it returns an error. -/
def Update (db : Index) (fn : Index → Except Error Index) : Index × Option Error :=
  match fn db with
  | .ok db' => (db', none)
  | .error err => (db, some err)

/-- The call `conn.View(fn)`: runs `fn` on the committed store. -/
def View {α : Type} (db : Index) (fn : Index → α) : α := fn db

/-! ## api/db.go -/

/-- The method `DB.CreateOrUpdateCedanaProcess`. -/
def CreateOrUpdateCedanaProcess (J : JSON) (conn : Option Error) (db : Index) (id : Bytes)
    (state : ProcessState) : Index × Option Error :=
  match conn with
  | some err => (db, some err)
  | none =>
    Update db fun tx => do
      let root ← tx.CreateBucketIfNotExists
      let (root, job) ← root.CreateBucketIfNotExists id
      let marshaledState ← J.Marshal state
      let pid := state.PID
      if pid = 0 then
        throw "pid 0 returned from state - is process running?"
      let job ← job.Put (Itoa pid) marshaledState
      pure ⟨some (root.store id job)⟩

/-- The method `DB.GetStateFromID`: the pointer it returns (`none` is `nil`) and the error. -/
def GetStateFromID (J : JSON) (conn : Option Error) (db : Index) (id : Bytes) :
    Option ProcessState × Option Error :=
  match conn with
  | some err => (none, some err)
  | none =>
    let (state, err) := View db fun tx =>
      match tx.root with
      | none => (ProcessState.zero, some "could not find bucket")
      | some root =>
        match root.Bucket id with
        | none => (ProcessState.zero, some "could not find job")
        | some job =>
          let marshaledState : Bytes := match job.Last with
            | some (_, v) => v
            | none => []
          J.Unmarshal marshaledState ProcessState.zero
    (some state, err)

/-- The method `DB.GetStateFromPID`. The results of both `ForEach` calls are dropped. -/
def GetStateFromPID (J : JSON) (conn : Option Error) (db : Index) (pid : Int) :
    Option ProcessState × Option Error :=
  match conn with
  | some err => (none, some err)
  | none =>
    let (state, err) := View db fun tx =>
      match tx.root with
      | none => (ProcessState.zero, some "could not find bucket")
      | some root =>
        let (state, _) := root.ForEachBucket (fun k state =>
          let job := (root.Bucket k).getD []
          let (state, _) := job.ForEach (fun k v state =>
            if k = Itoa pid then J.Unmarshal v state else (state, none)) state
          (state, none)) ProcessState.zero
        (state, none)
    (some state, err)

/-- The method `DB.UpdateProcessStateWithID`. The result of `ForEach` is dropped. -/
def UpdateProcessStateWithID (J : JSON) (conn : Option Error) (db : Index) (id : Bytes)
    (state : ProcessState) : Index × Option Error :=
  match conn with
  | some err => (db, some err)
  | none =>
    Update db fun tx => do
      let root ← tx.CreateBucketIfNotExists
      let marshaledState ← J.Marshal state
      match root.Bucket id with
      | none => throw "could not find job"
      | some job =>
        let (job, _) := JobBucket.ForEach (fun k _ (job : JobBucket) =>
          match Atoi k with
          | .error err => (job, some err)
          | .ok pid =>
            if pid = state.PID then
              match job.Put k marshaledState with
              | .ok job' => (job', none)
              | .error err => (job, some err)
            else (job, none)) job job
        pure ⟨some (root.store id job)⟩

/-- The method `DB.UpdateProcessStateWithPID`. The results of both `ForEach` calls are
dropped. -/
def UpdateProcessStateWithPID (J : JSON) (conn : Option Error) (db : Index) (pid : Int)
    (state : ProcessState) : Index × Option Error :=
  match conn with
  | some err => (db, some err)
  | none =>
    Update db fun tx =>
      match tx.root with
      | none => .error "could not find bucket"
      | some root =>
        let (root, _) := RootBucket.ForEachBucket (fun k (root : RootBucket) =>
          match root.Bucket k with
          | none => (root, some "could not find job")
          | some job =>
            let (job, _) := JobBucket.ForEach (fun k _ (job : JobBucket) =>
              if k = Itoa pid then
                match J.Marshal state with
                | .error err => (job, some err)
                | .ok marshaledState =>
                  match job.Put k marshaledState with
                  | .ok job' => (job', none)
                  | .error err => (job, some err)
              else (job, none)) job job
            (root.store k job, none)) root root
        .ok ⟨some root⟩

/-- The method `DB.GetPID`. -/
def GetPID (conn : Option Error) (db : Index) (id : Bytes) : Int × Option Error :=
  match conn with
  | some err => (0, some err)
  | none =>
    View db fun tx =>
      match tx.root with
      | none => (0, some "could not find bucket")
      | some root =>
        match root.Bucket id with
        | none => (0, some "could not find job")
        | some job =>
          match job.Last with
          | none => (0, some "could not find pid")
          | some (pidBytes, _) =>
            match ParseInt pidBytes 32 with
            | .error err => (0, some err)
            | .ok pid64 => (pid64, none)

/-- The method `DB.GetLatestLocalCheckpoints`. The result of `ForEach` is dropped. -/
def GetLatestLocalCheckpoints (J : JSON) (conn : Option Error) (db : Index) (id : Bytes) :
    List Bytes × Option Error :=
  match conn with
  | some err => ([], some err)
  | none =>
    View db fun tx =>
      match tx.root with
      | none => ([], some "could not find bucket")
      | some root =>
        match root.Bucket id with
        | none => ([], some "could not find job")
        | some job =>
          let (checkpoints, _) := job.ForEach (fun _ v (checkpoints : List Bytes) =>
            match J.Unmarshal v ProcessState.zero with
            | (_, some err) => (checkpoints, some err)
            | (state, none) => (checkpoints ++ [state.CheckpointPath], none)) []
          (checkpoints, none)

/-- One call of a writing method of `DB`, with its arguments. -/
inductive DBCall where
  | createOrUpdate (id : Bytes) (state : ProcessState)
  | updateWithID (id : Bytes) (state : ProcessState)
  | updateWithPID (pid : Int) (state : ProcessState)
deriving DecidableEq, Repr

/-- The store after one call, whether the call succeeded or failed. -/
def DBCall.run (J : JSON) (db : Index) : DBCall → Index
  | .createOrUpdate id state => (CreateOrUpdateCedanaProcess J none db id state).1
  | .updateWithID id state => (UpdateProcessStateWithID J none db id state).1
  | .updateWithPID pid state => (UpdateProcessStateWithPID J none db pid state).1

/-- The store after a sequence of calls, starting from `db`. -/
def runCalls (J : JSON) (db : Index) (calls : List DBCall) : Index :=
  calls.foldl (DBCall.run J) db

/-! ## The engine RPC (go-criu `rpc` package) -/

/-- The type tag of a request or response (`rpc.CriuReqType`). -/
inductive CriuReqType where
  | EMPTY | DUMP | RESTORE | CHECK | PRE_DUMP | PAGE_SERVER | NOTIFY | CPUINFO_DUMP
  | CPUINFO_CHECK | FEATURE_CHECK | VERSION | WAIT_PID | PAGE_SERVER_CHLD | SINGLE_PRE_DUMP
deriving DecidableEq, Repr

/-- The options record (`rpc.CriuOpts`), with the fields the sources set. -/
structure CriuOpts where
  ImagesDirFd : Option Int
  LogLevel : Option Int
  LogFile : Option String
  TcpEstablished : Option Bool
  ShellJob : Option Bool
  NotifyScripts : Option Bool
deriving DecidableEq, Repr

/-- The features record (`rpc.CriuFeatures`). -/
structure CriuFeatures where
  MemTrack : Option Bool
  LazyPages : Option Bool
deriving DecidableEq, Repr

/-- The payload of a notification (`rpc.CriuNotify`). -/
structure CriuNotify where
  Script : String
  Pid : Int
deriving DecidableEq, Repr

/-- The restore result (`rpc.CriuRestoreResp`). -/
structure CriuRestoreResp where
  Pid : Int
deriving DecidableEq, Repr

/-- The version record (`rpc.CriuVersion`). -/
structure CriuVersion where
  MajorNumber : Int
  MinorNumber : Int
  Gitid : Option String
  Sublevel : Option Int
deriving DecidableEq, Repr

/-- A request to the engine (`rpc.CriuReq`); `Typ` is its field `Type`. -/
structure CriuReq where
  Typ : CriuReqType
  Opts : Option CriuOpts
  NotifySuccess : Option Bool
  Features : Option CriuFeatures
deriving DecidableEq, Repr

/-- A response of the engine (`rpc.CriuResp`); `Typ` is its field `Type`. -/
structure CriuResp where
  Typ : CriuReqType
  Success : Bool
  Restore : Option CriuRestoreResp
  Notify : Option CriuNotify
  CrErrno : Int
  CrErrmsg : String
  Version : Option CriuVersion
deriving DecidableEq, Repr

/-- The getter `resp.GetType()`, `EMPTY` on a nil response. -/
def GetType : Option CriuResp → CriuReqType
  | some resp => resp.Typ
  | none => .EMPTY

/-- The getter `notify.GetScript()`, the empty string on a nil payload. -/
def GetScript : Option CriuNotify → String
  | some notify => notify.Script
  | none => ""

/-- The getter `notify.GetPid()`, 0 on a nil payload. -/
def GetPid : Option CriuNotify → Int
  | some notify => notify.Pid
  | none => 0

/-! ## api/criu.go -/

/-- Modelled from the spec: the handler type `Notify` of the `api` package (its source file
is not part of the sources), one hook per callback name of the dispatcher table. A hook acts
on the caller's state `σ` and returns an error or `nil`. -/
structure Notify (σ : Type) where
  PreDump : σ → σ × Option Error
  PostDump : σ → σ × Option Error
  PreRestore : σ → σ × Option Error
  PostRestore : Int → σ → σ × Option Error
  NetworkLock : σ → σ × Option Error
  NetworkUnlock : σ → σ × Option Error
  SetupNamespaces : Int → σ → σ × Option Error
  PostSetupNamespaces : σ → σ × Option Error
  PostResume : σ → σ × Option Error
  PreResume : σ → σ × Option Error

/-- One round of `sendAndRecv` followed by `proto.Unmarshal`, as the engine side decides it. -/
inductive Exchange where
  /-- The call `sk.Write` fails: the request does not reach the engine. -/
  | writeError (err : Error)
  /-- The request is written; `sk.Read` or `proto.Unmarshal` fails. -/
  | readError (err : Error)
  /-- The request is written and a response is read and decoded. -/
  | response (resp : CriuResp)
deriving DecidableEq, Repr

/-- The world around one call of `doSwrkWithResp`: the outcomes of `syscall.Socketpair` and
`cmd.Start`, what the engine does at each round, and the outcome of `cmd.Wait` (an error for a
non-zero exit status). When the rounds are used up the engine has closed its end and the
read fails with `EOF`. -/
structure Engine where
  socketpairErr : Option Error
  startErr : Option Error
  exchanges : List Exchange
  waitErr : Option Error
deriving DecidableEq, Repr

/-- What one call leaves behind: the returned response and error, the requests written to
the socket in order, the handler's state, and whether `cmd.Wait` was reached. -/
structure SwrkResult (σ : Type) where
  resp : Option CriuResp
  err : Option Error
  sent : List CriuReq
  hooks : σ
  waited : Bool

/-- A Go call either returns or panics. -/
inductive Run (α : Type) where
  | ret (a : α)
  | panic (msg : String)

/-- The `switch notify.GetScript()` of `doSwrkWithResp`: an unknown name is ignored. -/
def dispatch {σ : Type} (nfy : Notify σ) (notify : Option CriuNotify) (st : σ) :
    σ × Option Error :=
  let script := GetScript notify
  if script = "pre-dump" then nfy.PreDump st
  else if script = "post-dump" then nfy.PostDump st
  else if script = "pre-restore" then nfy.PreRestore st
  else if script = "post-restore" then nfy.PostRestore (GetPid notify) st
  else if script = "network-lock" then nfy.NetworkLock st
  else if script = "network-unlock" then nfy.NetworkUnlock st
  else if script = "setup-namespaces" then nfy.SetupNamespaces (GetPid notify) st
  else if script = "post-setup-namespaces" then nfy.PostSetupNamespaces st
  else if script = "post-resume" then nfy.PostResume st
  else if script = "pre-resume" then nfy.PreResume st
  else (st, none)

/-- The acknowledgement of a notification: `CriuReq{Type: &respType, NotifySuccess: true}`. -/
def ackReq (respType : CriuReqType) : CriuReq :=
  ⟨respType, none, some true, none⟩

/-- The message of `fmt.Errorf("operation failed (msg:%s err:%d)", ...)`. -/
def operationFailed (resp : CriuResp) : Error :=
  "operation failed (msg:" ++ resp.CrErrmsg ++ " err:" ++ toString resp.CrErrno ++ ")"

/-- The `for` loop of `doSwrkWithResp`, one iteration per round of the engine. `req` is the
request to write next, `sent` the requests written so far. The result has `waited = false`;
its `err` is `none` exactly when the loop was left by `break`. -/
def swrkLoop {σ : Type} (nfy : Option (Notify σ)) :
    List Exchange → CriuReq → σ → List CriuReq → SwrkResult σ
  | [], req, st, sent => ⟨none, some "EOF", sent ++ [req], st, false⟩
  | .writeError err :: _, _, st, sent => ⟨none, some err, sent, st, false⟩
  | .readError err :: _, req, st, sent => ⟨none, some err, sent ++ [req], st, false⟩
  | .response resp :: rest, req, st, sent =>
    if !resp.Success then
      ⟨some resp, some (operationFailed resp), sent ++ [req], st, false⟩
    else if resp.Typ ≠ .NOTIFY then
      ⟨some resp, none, sent ++ [req], st, false⟩
    else
      match nfy with
      | none => ⟨some resp, some "unexpected notify", sent ++ [req], st, false⟩
      | some h =>
        match dispatch h resp.Notify st with
        | (st', some err) => ⟨some resp, some err, sent ++ [req], st', false⟩
        | (st', none) => swrkLoop nfy rest (ackReq resp.Typ) st' (sent ++ [req])

/-- The method `Criu.doSwrkWithResp`. With a handler and nil options the assignment
`opts.NotifyScripts = ...` dereferences nil. `extraFiles` only reaches the child process. -/
def Criu.doSwrkWithResp {σ : Type} (eng : Engine) (st : σ) (reqType : CriuReqType)
    (opts : Option CriuOpts) (nfy : Option (Notify σ)) (extraFiles : List Nat)
    (features : Option CriuFeatures) : Run (SwrkResult σ) :=
  match nfy, opts with
  | some _, none => .panic "invalid memory address or nil pointer dereference"
  | _, _ =>
    let opts : Option CriuOpts := match nfy with
      | some _ => opts.map fun o => { o with NotifyScripts := some true }
      | none => opts
    let req : CriuReq := ⟨reqType, opts, none, features⟩
    match eng.socketpairErr with
    | some err => .ret ⟨none, some err, [], st, false⟩
    | none =>
      let _childFiles := extraFiles
      match eng.startErr with
      | some err => .ret ⟨none, some err, [], st, false⟩
      | none =>
        let r := swrkLoop nfy eng.exchanges req st []
        match r.err with
        | some _ => .ret r
        | none =>
          match eng.waitErr with
          | some err => .ret { r with resp := none, err := some err, waited := true }
          | none => .ret { r with waited := true }

/-- The method `Criu.doSwrk`. -/
def Criu.doSwrk {σ : Type} (eng : Engine) (st : σ) (reqType : CriuReqType)
    (opts : Option CriuOpts) (nfy : Option (Notify σ)) (extraFiles : List Nat) :
    Run (SwrkResult σ) :=
  match Criu.doSwrkWithResp eng st reqType opts nfy extraFiles none with
  | .panic msg => .panic msg
  | .ret r =>
    match r.err with
    | some err => .ret { r with resp := none, err := some err }
    | none =>
      let respType := GetType r.resp
      if respType ≠ reqType then
        .ret { r with resp := none, err := some "unexpected CRIU RPC response" }
      else .ret r

/-- The method `Criu.Dump`. -/
def Criu.Dump {σ : Type} (eng : Engine) (st : σ) (opts : Option CriuOpts)
    (nfy : Option (Notify σ)) : Run (SwrkResult σ) :=
  Criu.doSwrk eng st .DUMP opts nfy []

/-- The method `Criu.Restore`. -/
def Criu.Restore {σ : Type} (eng : Engine) (st : σ) (opts : Option CriuOpts)
    (nfy : Option (Notify σ)) (extraFiles : List Nat) : Run (SwrkResult σ) :=
  Criu.doSwrk eng st .RESTORE opts nfy extraFiles

/-- The handler state after a run of notifications whose hooks all succeed; `none` when one
of the hooks returns an error. -/
def hooksSucceed {σ : Type} (nfy : Notify σ) : List CriuResp → σ → Option σ
  | [], st => some st
  | r :: rs, st =>
    match dispatch nfy r.Notify st with
    | (st', none) => hooksSucceed nfy rs st'
    | (_, some _) => none

/-- A handler whose hooks count their calls and succeed, except `PreResume`, which fails
with the given error (scenario S4: the GPU agent replies `success = false`). -/
def gpuFailingNotify (err : Error) : Notify Nat where
  PreDump := fun n => (n + 1, none)
  PostDump := fun n => (n + 1, none)
  PreRestore := fun n => (n + 1, none)
  PostRestore := fun _ n => (n + 1, none)
  NetworkLock := fun n => (n + 1, none)
  NetworkUnlock := fun n => (n + 1, none)
  SetupNamespaces := fun _ n => (n + 1, none)
  PostSetupNamespaces := fun n => (n + 1, none)
  PostResume := fun n => (n + 1, none)
  PreResume := fun n => (n + 1, some err)

/-- A successful notification response with the given callback name and PID. -/
def notifyResp (script : String) (pid : Int) : CriuResp :=
  ⟨.NOTIFY, true, none, some ⟨script, pid⟩, 0, "", none⟩

/-- A successful response of type `t` carrying a restore result. -/
def terminalResp (t : CriuReqType) (pid : Int) : CriuResp :=
  ⟨t, true, some ⟨pid⟩, none, 0, "", none⟩

/-- The options of `prepareRestoreOpts`. -/
def restoreOpts : CriuOpts :=
  ⟨none, some 4, some "cedana-restore.log", some true, none, none⟩

/-! ## The dispatcher table -/

/-- One invocation of a hook of the handler, with its argument. -/
inductive HookCall where
  | PreDump | PostDump | PreRestore | PostRestore (pid : Int) | NetworkLock | NetworkUnlock
  | SetupNamespaces (pid : Int) | PostSetupNamespaces | PostResume | PreResume
deriving DecidableEq, Repr

/-- A handler that records every invocation of a hook, in order, and returns for it the error
that `result` gives. -/
def recordingNotify (result : HookCall → Option Error) : Notify (List HookCall) where
  PreDump := fun log => (log ++ [.PreDump], result .PreDump)
  PostDump := fun log => (log ++ [.PostDump], result .PostDump)
  PreRestore := fun log => (log ++ [.PreRestore], result .PreRestore)
  PostRestore := fun pid log => (log ++ [.PostRestore pid], result (.PostRestore pid))
  NetworkLock := fun log => (log ++ [.NetworkLock], result .NetworkLock)
  NetworkUnlock := fun log => (log ++ [.NetworkUnlock], result .NetworkUnlock)
  SetupNamespaces := fun pid log =>
    (log ++ [.SetupNamespaces pid], result (.SetupNamespaces pid))
  PostSetupNamespaces := fun log => (log ++ [.PostSetupNamespaces], result .PostSetupNamespaces)
  PostResume := fun log => (log ++ [.PostResume], result .PostResume)
  PreResume := fun log => (log ++ [.PreResume], result .PreResume)

/-- The table of the specification (section 4.B): callback name to hook, the hooks of
`post-restore` and `setup-namespaces` taking the notification's PID. -/
def hookTable : List (String × (Int → HookCall)) :=
  [("pre-dump", fun _ => .PreDump), ("post-dump", fun _ => .PostDump),
   ("pre-restore", fun _ => .PreRestore), ("post-restore", fun pid => .PostRestore pid),
   ("network-lock", fun _ => .NetworkLock), ("network-unlock", fun _ => .NetworkUnlock),
   ("setup-namespaces", fun pid => .SetupNamespaces pid),
   ("post-setup-namespaces", fun _ => .PostSetupNamespaces),
   ("pre-resume", fun _ => .PreResume), ("post-resume", fun _ => .PostResume)]

/-- The hook the table gives for a callback name, `none` for a name that is not in it. -/
def expectedCall (script : String) (pid : Int) : Option HookCall :=
  (hookTable.lookup script).map fun hook => hook pid

/-! ## Sending a descriptor (api/criu.go) -/

/-- An open file (`*os.File`): its name and its descriptor. -/
structure File where
  Name : Bytes
  Fd : Nat
deriving DecidableEq, Repr

/-- The constant `MaxNameLen`. -/
def MaxNameLen : Nat := 4096

/-- The text of a byte string, for error messages. -/
def bytesToString (b : Bytes) : String := String.mk (b.map Char.ofNat)

/-- What a send leaves behind: the returned error and the calls of `unix.Sendmsg` made, each
with the socket's descriptor, the data and the descriptors passed as rights. -/
structure SendResult where
  err : Option Error
  sendmsgCalls : List (Nat × Bytes × List Nat)
deriving DecidableEq, Repr

/-- The function `SendRawFd`; `sendmsg` is the outcome of the system call. -/
def SendRawFd (sendmsg : Nat → Bytes → List Nat → Option Error) (socket : File) (msg : Bytes)
    (fd : Nat) : SendResult :=
  let oob := [fd]
  ⟨sendmsg socket.Fd msg oob, [(socket.Fd, msg, oob)]⟩

/-- The function `SendFile`. -/
def SendFile (sendmsg : Nat → Bytes → List Nat → Option Error) (socket file : File) :
    SendResult :=
  let name := file.Name
  if name.length ≥ MaxNameLen then
    ⟨some ("sendfd: filename too long: " ++ bytesToString name), []⟩
  else
    SendRawFd sendmsg socket name file.Fd

/-! ## The engine version (api/criu.go) -/

/-- The method `Criu.GetCriuVersion`. Go's `%` truncates toward zero (`Int.tmod`). A response
without a version record makes `*resp.GetVersion().MajorNumber` dereference nil. -/
def Criu.GetCriuVersion (eng : Engine) : Run (Int × Option Error) :=
  match Criu.doSwrkWithResp eng () .VERSION none (none : Option (Notify Unit)) [] none with
  | .panic msg => .panic msg
  | .ret r =>
    match r.err with
    | some err => .ret (0, some err)
    | none =>
      if GetType r.resp ≠ .VERSION then
        .ret (0, some "unexpected CRIU RPC response")
      else
        match r.resp.bind fun resp => resp.Version with
        | none => .panic "invalid memory address or nil pointer dereference"
        | some v =>
          let version := v.MajorNumber * 10000
          let version := version + v.MinorNumber * 100
          let version := match v.Sublevel with
            | some sublevel => version + sublevel
            | none => version
          let version := match v.Gitid with
            | some _ => (version - version.tmod 100) + 100
            | none => version
          .ret (version, none)

/-- The method `Criu.IsCriuAtLeast`. -/
def Criu.IsCriuAtLeast (eng : Engine) (version : Int) : Run (Bool × Option Error) :=
  match Criu.GetCriuVersion eng with
  | .panic msg => .panic msg
  | .ret (criuVersion, err) =>
    match err with
    | some err => .ret (false, some err)
    | none => if criuVersion ≥ version then .ret (true, none) else .ret (false, none)

/-- A successful `VERSION` response carrying the version record `v`. -/
def versionResp (v : CriuVersion) : CriuResp :=
  ⟨.VERSION, true, none, none, 0, "", some v⟩

/-! ## The gRPC handler (services/server/server.go) -/

/-- The response message `task.RestoreResp`. -/
structure RestoreResp where
  Error : String
  NewPID : Int
deriving DecidableEq, Repr

/-- The method `service.Restore`, given what `client.Restore` returned: the pointer `pid`
(`none` is nil) and the error. The response literal evaluates `err.Error()` and then `*pid`. -/
def service.Restore (pid : Option Int) (err : Option Error) :
    Run (Option RestoreResp × Option Error) :=
  match err with
  | none => .panic "invalid memory address or nil pointer dereference"
  | some msg =>
    match pid with
    | none => .panic "invalid memory address or nil pointer dereference"
    | some newPID => .ret (some ⟨msg, newPID⟩, err)

/-! ## Paths and the filesystem

The filesystem is a finite map from absolute paths (lists of components, the root being the
empty list) to nodes. Symbolic links, permissions checks, the umask and file modes are outside
the model; the mode of a directory is kept. -/

/-- An absolute path without `.` and `..`: its components from the root. -/
abbrev AbsPath := List Bytes

/-- The components of a path string between its separators `/`. -/
def splitPath : Bytes → List Bytes
  | [] => [[]]
  | c :: cs =>
    if c = 47 then [] :: splitPath cs
    else
      match splitPath cs with
      | [] => [[c]]
      | x :: xs => (c :: x) :: xs

/-- One step of `filepath.Clean` over the components, `acc` holding the kept components with
the last one first: empty components and `.` are dropped, `..` removes the component before
it, is dropped at the root and is kept at the start of a relative path. -/
def cleanStep (rooted : Bool) (acc : List Bytes) (c : Bytes) : List Bytes :=
  if c = [] ∨ c = [46] then acc
  else if c = [46, 46] then
    match acc with
    | [] => if rooted then [] else [c]
    | top :: rest => if top = [46, 46] then c :: acc else rest
  else c :: acc

/-- The components joined with `/`. -/
def joinPath : List Bytes → Bytes
  | [] => []
  | [c] => c
  | c :: d :: rest => c ++ 47 :: joinPath (d :: rest)

/-- The function `filepath.Clean` on Unix. -/
def Clean (path : Bytes) : Bytes :=
  let rooted : Bool := path.head? = some 47
  let body := joinPath ((splitPath path).foldl (cleanStep rooted) []).reverse
  if rooted then 47 :: body else if body = [] then [46] else body

/-- The function `filepath.Base` on Unix: `.` for the empty path, trailing separators
stripped, the last element, `/` for a path of separators only. -/
def filepathBase (path : Bytes) : Bytes :=
  if path = [] then [46]
  else
    let stripped := (path.reverse.dropWhile fun c => c = 47).reverse
    let last := (stripped.reverse.takeWhile fun c => c ≠ 47).reverse
    if last = [] then [47] else last

/-- The function `filepath.Dir` on Unix: everything up to the last separator, cleaned. -/
def filepathDir (path : Bytes) : Bytes :=
  Clean (path.reverse.dropWhile fun c => c ≠ 47).reverse

/-- The path a path string names for a process whose working directory is `cwd`. -/
def resolve (cwd : AbsPath) (path : Bytes) : AbsPath :=
  (splitPath path).foldl
    (fun acc c =>
      if c = [] ∨ c = [46] then acc else if c = [46, 46] then acc.dropLast else acc ++ [c])
    (if path.head? = some 47 then [] else cwd)

/-- A file with its bytes or a directory with its mode. -/
inductive FileNode where
  | file (content : Bytes)
  | dir (mode : Nat)
deriving DecidableEq, Repr

/-- The filesystem: the first entry of a path is its node. -/
structure FS where
  entries : List (AbsPath × FileNode)
deriving DecidableEq, Repr

/-- The first entry of `p` in a list of entries. -/
def findEntry (p : AbsPath) : List (AbsPath × FileNode) → Option FileNode
  | [] => none
  | (q, n) :: rest => if q = p then some n else findEntry p rest

/-- The node at a path (`os.Stat`), `none` when nothing is there; the root is a directory. -/
def FS.get (fs : FS) (p : AbsPath) : Option FileNode :=
  if p = [] then some (.dir 0o755) else findEntry p fs.entries

/-- Create or replace the node at a path. -/
def FS.put (fs : FS) (p : AbsPath) (n : FileNode) : FS := ⟨(p, n) :: fs.entries⟩

/-- The function `os.Mkdir`: fails when the path exists or its parent is not a directory. -/
def Mkdir (cwd : AbsPath) (path : Bytes) (mode : Nat) (fs : FS) : Except Error FS :=
  let p := resolve cwd path
  match fs.get p with
  | some _ => .error "file exists"
  | none =>
    match fs.get p.dropLast with
    | some (.dir _) => .ok (fs.put p (.dir mode))
    | some (.file _) => .error "not a directory"
    | none => .error "no such file or directory"

/-- The directories of `os.MkdirAll` from the root down: `done` exists, `todo` is what is
left of the path. A directory that exists is kept, a missing one is created with `mode`, a
file in the way is an error. -/
def mkdirAllFrom (mode : Nat) : AbsPath → List Bytes → FS → Except Error FS
  | _, [], fs => .ok fs
  | done, c :: todo, fs =>
    match fs.get (done ++ [c]) with
    | some (.dir _) => mkdirAllFrom mode (done ++ [c]) todo fs
    | some (.file _) => .error "not a directory"
    | none => mkdirAllFrom mode (done ++ [c]) todo (fs.put (done ++ [c]) (.dir mode))

/-- The function `os.MkdirAll`. -/
def MkdirAll (cwd : AbsPath) (path : Bytes) (mode : Nat) (fs : FS) : Except Error FS :=
  mkdirAllFrom mode [] (resolve cwd path) fs

/-- The function `os.RemoveAll`: the path and everything below it is gone; nothing is an
error. -/
def RemoveAll (cwd : AbsPath) (path : Bytes) (fs : FS) : FS :=
  ⟨fs.entries.filter fun e => !(resolve cwd path).isPrefixOf e.1⟩

/-- The order of `filepath.Walk`: a directory before what it holds, the names within a
directory in byte order. -/
def pathLt : AbsPath → AbsPath → Bool
  | [], [] => false
  | [], _ :: _ => true
  | _ :: _, [] => false
  | a :: as, b :: bs => if bytesLt a b then true else if bytesLt b a then false else pathLt as bs

/-- The paths `filepath.Walk(root, ...)` visits, in order: `root` and everything below it, as
the tree is when the walk starts. -/
def Walk (fs : FS) (root : AbsPath) : List AbsPath :=
  List.insertionSort (fun a b => pathLt a b = true)
    ((fs.entries.map Prod.fst).filter fun p => root.isPrefixOf p).dedup

/-- Modelled from the spec: `utils.CopyFile(src, dstFolder)` of the package `utils`, which is
not part of the sources. It copies the regular file `src` into the folder `dstFolder` under
its own base name (`copyFile copies to folder`, as the caller's comment has it), replacing a
file that is there; it fails when `src` is not a regular file, when the folder is not a
directory and when the destination is a directory. -/
def CopyFile (cwd : AbsPath) (src : AbsPath) (dstFolder : Bytes) (fs : FS) : Except Error FS :=
  match fs.get src, src.getLast? with
  | some (.file content), some name =>
    let folder := resolve cwd dstFolder
    match fs.get folder with
    | some (.dir _) =>
      match fs.get (folder ++ [name]) with
      | some (.dir _) => .error "is a directory"
      | _ => .ok (fs.put (folder ++ [name]) (.file content))
    | _ => .error "no such file or directory"
  | some (.dir _), _ => .error "is a directory"
  | _, _ => .error "no such file or directory"

/-- The function `strings.Contains`. -/
def Contains : Bytes → Bytes → Bool
  | [], substr => substr.isEmpty
  | c :: cs, substr => substr.isPrefixOf (c :: cs) || Contains cs substr

/-- A Go call returns, ends the process through `logger.Fatal()`, or panics. -/
inductive Exec (α : Type) where
  | ret (a : α)
  | fatal (msg : String)
  | panic (msg : String)

/-! ## api/restore.go -/

/-- The inner loop of the walk function of `restoreFiles`: for each recorded path `f`, in
order, whose base name is the name of the visited entry, create the directory of `f` and copy
the entry there. There is no `break`. -/
def restoreFilesVisit (cwd : AbsPath) (src : AbsPath) : List Bytes → FS → Except Error FS
  | [], fs => .ok fs
  | f :: rest, fs =>
    if src.getLast? = some (filepathBase f) then
      match MkdirAll cwd (filepathDir f) 0o755 fs with
      | .error err => .error err
      | .ok fs =>
        match CopyFile cwd src (filepathDir f) fs with
        | .error err => .error err
        | .ok fs => restoreFilesVisit cwd src rest fs
    else restoreFilesVisit cwd src rest fs

/-- The walk of `restoreFiles` over the visited paths: it stops at the first error. -/
def restoreFilesWalk (cwd : AbsPath) (paths : List Bytes) : List AbsPath → FS → Except Error FS
  | [], fs => .ok fs
  | src :: rest, fs =>
    match restoreFilesVisit cwd src paths fs with
    | .error err => .error err
    | .ok fs => restoreFilesWalk cwd paths rest fs

/-- The method `Client.restoreFiles`: the filesystem afterwards; an error of the walk ends
the process through `logger.Fatal()`. -/
def Client.restoreFiles (cwd : AbsPath) (ps : ProcessState) (dir : Bytes) (fs : FS) :
    Exec FS :=
  match fs.get (resolve cwd dir) with
  | none => .ret fs
  | some _ =>
    match restoreFilesWalk cwd ps.ProcessInfo.OpenWriteOnlyFilePaths
        (Walk fs (resolve cwd dir)) fs with
    | .error _ => .fatal "error copying files"
    | .ok fs => .ret fs

/-- The function `chmodRecursive`: every directory the walk visits gets the mode. -/
def chmodRecursive (cwd : AbsPath) (path : Bytes) (mode : Nat) (fs : FS) : FS :=
  (Walk fs (resolve cwd path)).foldl
    (fun fs p =>
      match fs.get p with
      | some (.dir _) => fs.put p (.dir mode)
      | _ => fs)
    fs

/-- The method `Client.prepareRestoreOpts`. -/
def Client.prepareRestoreOpts : CriuOpts :=
  { ImagesDirFd := none, LogLevel := some 4, LogFile := some "cedana-restore.log",
    TcpEstablished := some true, ShellJob := none, NotifyScripts := none }

/-- The loop of `prepareRestore` over `open_fds`: true at the first path that contains
`pts`. -/
def isShellJob : List OpenFd → Bool
  | [] => false
  | f :: rest => if Contains f.Path (ascii "pts") then true else isShellJob rest

/-- What `prepareRestore` returns (the staging directory, the state, the error) and leaves
behind (the options it wrote to, the filesystem). -/
structure PrepareResult where
  dir : Option Bytes
  state : Option ProcessState
  err : Option Error
  opts : CriuOpts
  fs : FS

/-- The method `Client.prepareRestore`. `untar` is `utils.UntarFolder(checkpointPath, tmpdir)`,
which is not part of the sources: its effect on the filesystem and its error. Every failure
after `os.Mkdir` ends the process through `logger.Fatal()`. -/
def Client.prepareRestore (J : JSON) (cwd : AbsPath)
    (untar : Bytes → Bytes → FS → FS × Option Error) (opts : CriuOpts)
    (checkpointPath : Bytes) (fs : FS) : Exec PrepareResult :=
  let tmpdir := ascii "cedana_restore"
  match Mkdir cwd tmpdir 0o755 fs with
  | .error err => .ret ⟨none, none, some err, opts, fs⟩
  | .ok fs =>
    match untar checkpointPath tmpdir fs with
    | (_, some _) => .fatal "error decompressing checkpoint"
    | (fs, none) =>
      match fs.get (resolve cwd tmpdir ++ [ascii "checkpoint_state.json"]) with
      | none => .fatal "checkpoint_state.json not found, likely error in creating checkpoint"
      | some (.dir _) => .fatal "error reading checkpoint_state.json"
      | some (.file data) =>
        match J.Unmarshal data ProcessState.zero with
        | (_, some _) => .fatal "error unmarshaling checkpoint_state.json"
        | (checkpointState, none) =>
          let open_fds := checkpointState.ProcessInfo.OpenFds
          let opts := { opts with ShellJob := some (isShellJob open_fds) }
          match Client.restoreFiles cwd checkpointState tmpdir fs with
          | .fatal msg => .fatal msg
          | .panic msg => .panic msg
          | .ret fs =>
            let fs := chmodRecursive cwd tmpdir 0o755 fs
            .ret ⟨some tmpdir, some checkpointState, none, opts, fs⟩

/-- What a restore returns (the pointer to the new PID, the error) and leaves behind. -/
structure RestoreResult where
  pid : Option Int
  err : Option Error
  fs : FS

/-- The method `Client.criuRestore`. `imagesDirFd` is the descriptor `os.Open(dir)` gives. -/
def Client.criuRestore {σ : Type} (eng : Engine) (st : σ) (cwd : AbsPath) (imagesDirFd : Int)
    (opts : CriuOpts) (nfy : Notify σ) (dir : Bytes) (fs : FS) : Exec RestoreResult :=
  match fs.get (resolve cwd dir) with
  | none => .fatal "could not open directory"
  | some _ =>
    let opts := { opts with ImagesDirFd := some imagesDirFd }
    match Criu.Restore eng st (some opts) (some nfy) [] with
    | .panic msg => .panic msg
    | .ret r =>
      match r.err with
      | some err => .ret ⟨none, some err, RemoveAll cwd dir fs⟩
      | none =>
        let fs := RemoveAll cwd dir fs
        match r.resp.bind fun resp => resp.Restore with
        | none => .panic "invalid memory address or nil pointer dereference"
        | some restore => .ret ⟨some restore.Pid, none, fs⟩

/-- The method `Client.Restore`. `nfy` is the handler `Notify{Logger: c.logger}` and
`gpuRestore` the callback installed as its pre-resume hook when the state says
`GPUCheckpointed`. The goroutine that watches the restored process is not part of the
result. -/
def Client.Restore {σ : Type} (J : JSON) (eng : Engine) (st : σ) (cwd : AbsPath)
    (untar : Bytes → Bytes → FS → FS × Option Error) (imagesDirFd : Int) (nfy : Notify σ)
    (gpuRestore : σ → σ × Option Error) (checkpointPath : Bytes) (fs : FS) :
    Exec RestoreResult :=
  let opts := Client.prepareRestoreOpts
  match Client.prepareRestore J cwd untar opts checkpointPath fs with
  | .fatal msg => .fatal msg
  | .panic msg => .panic msg
  | .ret prep =>
    match prep.err, prep.dir, prep.state with
    | some err, _, _ => .ret ⟨none, some err, prep.fs⟩
    | none, some dir, some state =>
      let nfy := if state.GPUCheckpointed then { nfy with PreResume := gpuRestore } else nfy
      match Client.criuRestore eng st cwd imagesDirFd prep.opts nfy dir prep.fs with
      | .fatal msg => .fatal msg
      | .panic msg => .panic msg
      | .ret r =>
        match r.err with
        | some err => .ret ⟨none, some err, r.fs⟩
        | none => .ret ⟨r.pid, none, r.fs⟩
    | none, _, _ => .panic "invalid memory address or nil pointer dereference"

/-! ## Predicates on the filesystem -/

/-- Where `restoreFiles` writes for the recorded path `f`: the base name of `f` inside the
directory of `f`, as `utils.CopyFile(path, filepath.Dir(f))` is called when
`info.Name() == filepath.Base(f)`. -/
def restoreTarget (cwd : AbsPath) (f : Bytes) : AbsPath :=
  resolve cwd (filepathDir f) ++ [filepathBase f]

/-- How the node at one path may change over `restoreFiles`: it is as before, or it was
missing and is a directory of mode 0755, or it is a regular file where no directory was. -/
def nodeStep (a b : Option FileNode) : Prop :=
  a = b ∨ (a = none ∧ b = some (.dir 0o755)) ∨ ((∃ c, b = some (.file c)) ∧ ∀ m, a ≠ some (.dir m))

/-! ## Predicates on the store -/

/-- What every write keeps true of a job bucket: each key is the decimal form of a non-zero
PID, and each value is the encoding of a state whose PID is not 0. -/
def GoodBucket (J : JSON) (job : JobBucket) : Prop :=
  ∀ k v, (k, v) ∈ job →
    (∃ p : Int, p ≠ 0 ∧ k = Itoa p) ∧ (∃ s, J.Marshal s = .ok v ∧ s.PID ≠ 0)

/-- Every job bucket of the root is a `GoodBucket`. -/
def GoodRoot (J : JSON) (root : RootBucket) : Prop :=
  ∀ id job, (id, job) ∈ root → GoodBucket J job

/-- Every job bucket of the store is a `GoodBucket`. -/
def GoodIndex (J : JSON) (db : Index) : Prop :=
  ∀ root, db.root = some root → GoodRoot J root

/-- The calls of the amended C2: `UpdateProcessStateWithPID` is given a state whose PID is
not 0; the other two methods take any arguments. -/
def DBCall.Admissible : DBCall → Prop
  | .createOrUpdate _ _ => True
  | .updateWithID _ _ => True
  | .updateWithPID _ state => state.PID ≠ 0

/-- Keys strictly ascending in `bytes.Compare`: the order bbolt keeps within a bucket. -/
def keysSorted {β : Type} (l : List (Bytes × β)) : Prop :=
  List.Pairwise (fun a b => bytesLt a.1 b.1 = true) l

/-- A well-formed store: sub-bucket names ascending in the root, keys ascending in every job
bucket. Every store bbolt holds is of this form. -/
def Index.WF (db : Index) : Prop :=
  ∀ root, db.root = some root →
    keysSorted root ∧ ∀ id job, (id, job) ∈ root → keysSorted job

/-- Overwrite the value at key `k`, when the key is present. -/
def setValue (k m : Bytes) : JobBucket → JobBucket
  | [] => []
  | (k', v') :: rest =>
    if k' = k then (k', m) :: setValue k m rest else (k', v') :: setValue k m rest

/-- Overwrite the value at key `k` in every job bucket that holds the key. -/
def setValueAll (k m : Bytes) : RootBucket → RootBucket
  | [] => []
  | (id, job) :: rest => (id, setValue k m job) :: setValueAll k m rest

/-! ## The state used in the examples -/

/-- The state of scenario S1 of the specification: PID 4242 with one open descriptor. -/
def exampleState : ProcessState :=
  ⟨4242, ⟨[⟨1, ascii "/dev/pts/0", ascii "rw"⟩], []⟩, ascii "/tmp/dump.tar", false⟩

/-- A state with the given PID and nothing else set. -/
def stateOfPID (pid : Int) : ProcessState := ⟨pid, ⟨[], []⟩, [], false⟩

/-! ## The filesystem used in the examples -/

/-- The working directory of the examples. -/
def exampleCwd : AbsPath := [ascii "srv"]

/-- The filesystem of the examples before a restore: the working directory and nothing else. -/
def exampleFS : FS := ⟨[([ascii "srv"], .dir 0o755)]⟩

/-- An archive that unpacks without error: its members, by their paths inside the archive,
are created below the target directory of the process at `cwd`. -/
def unpack (cwd : AbsPath) (members : List (AbsPath × FileNode)) :
    Bytes → Bytes → FS → FS × Option Error :=
  fun _ dir fs => (members.foldl (fun fs e => fs.put (resolve cwd dir ++ e.1) e.2) fs, none)

/-- The archive of scenario S1: the state and nothing else. -/
def exampleArchive : List (AbsPath × FileNode) :=
  [([ascii "checkpoint_state.json"], .file (RefJSON.printState exampleState))]

/-- What `prepareRestore` returns on the archive of scenario S1. -/
def examplePrepared : PrepareResult :=
  ⟨some (ascii "cedana_restore"), some exampleState, none,
    { Client.prepareRestoreOpts with ShellJob := some true },
    ⟨[([ascii "srv", ascii "cedana_restore"], .dir 0o755),
      ([ascii "srv", ascii "cedana_restore", ascii "checkpoint_state.json"],
        .file (RefJSON.printState exampleState)),
      ([ascii "srv", ascii "cedana_restore"], .dir 0o755),
      ([ascii "srv"], .dir 0o755)]⟩⟩

/-- A filesystem in which an earlier run has left its staging directory behind. -/
def staleFS : FS :=
  ⟨[([ascii "srv", ascii "cedana_restore"], .dir 0o755), ([ascii "srv"], .dir 0o755)]⟩

/-- The engine of scenario S2: two notifications, then the restore result with PID 5151, and
exit status 0. -/
def exampleEngine : Engine :=
  ⟨none, none,
    [.response (notifyResp "pre-restore" 0), .response (notifyResp "post-restore" 5151),
     .response (terminalResp .RESTORE 5151)],
    none⟩

/-- The state of scenario S3: the process was writing to `/var/log/app.log`. -/
def writableState : ProcessState :=
  ⟨4242, ⟨[⟨1, ascii "/dev/pts/0", ascii "rw"⟩], [ascii "/var/log/app.log"]⟩,
    ascii "/tmp/dump.tar", false⟩

/-- The staging tree of scenario S3 below `/srv`: the copy `app.log` with the bytes
`HELLO`. -/
def stagedFS : FS :=
  ⟨[([ascii "srv", ascii "cedana_restore", ascii "app.log"], .file (ascii "HELLO")),
    ([ascii "srv", ascii "cedana_restore"], .dir 0o755),
    ([ascii "srv"], .dir 0o755)]⟩

/-- A state with the given recorded write-only paths and nothing else set. -/
def stateOfPaths (paths : List Bytes) : ProcessState := ⟨4242, ⟨[], paths⟩, [], false⟩

/-- A staging tree below `/srv` with two files named `x.log`: `a/x.log` with the bytes `A`
and `b/x.log` with the bytes `B`. -/
def twoFilesFS : FS :=
  ⟨[([ascii "srv", ascii "cedana_restore", ascii "a", ascii "x.log"], .file (ascii "A")),
    ([ascii "srv", ascii "cedana_restore", ascii "a"], .dir 0o755),
    ([ascii "srv", ascii "cedana_restore", ascii "b", ascii "x.log"], .file (ascii "B")),
    ([ascii "srv", ascii "cedana_restore", ascii "b"], .dir 0o755),
    ([ascii "srv", ascii "cedana_restore"], .dir 0o755),
    ([ascii "srv"], .dir 0o755)]⟩

/-! ## Lemmas on strconv -/

theorem isDigit_add (n : Nat) (h : n < 10) : isDigit (48 + n) = true := by
  simp [isDigit]; omega

theorem parseDigits_append_digit (l : Bytes) (d acc : Nat) (hd : isDigit d = true) :
    parseDigits acc (l ++ [d]) = (parseDigits acc l).map fun a => 10 * a + (d - 48) := by
  induction l generalizing acc with
  | nil => simp [parseDigits, hd]
  | cons c cs ih =>
    by_cases hc : isDigit c = true
    · simp [parseDigits, hc, ih]
    · simp [parseDigits, hc]

theorem parseDigits_formatDigits (fuel n : Nat) (h : n < fuel) :
    parseDigits 0 (formatDigits fuel n) = some n := by
  induction fuel generalizing n with
  | zero => omega
  | succ f ih =>
    unfold formatDigits
    by_cases hn : n < 10
    · simp [hn, parseDigits, isDigit_add n hn]
    · have hlt : n / 10 < f := by omega
      have hd : isDigit (48 + n % 10) = true := isDigit_add _ (Nat.mod_lt _ (by omega))
      rw [if_neg hn, parseDigits_append_digit _ _ _ hd, ih _ hlt]
      simp
      omega

theorem parseDigits_formatUint (n : Nat) : parseDigits 0 (formatUint n) = some n :=
  parseDigits_formatDigits (n + 1) n (by omega)

theorem formatUint_ne_nil (n : Nat) : formatUint n ≠ [] := by
  unfold formatUint formatDigits
  split <;> simp

theorem formatUint_eq_cons (n : Nat) :
    ∃ d ds, formatUint n = d :: ds ∧ isDigit d = true := by
  have h := parseDigits_formatUint n
  cases hf : formatUint n with
  | nil => exact absurd hf (formatUint_ne_nil n)
  | cons d ds =>
    refine ⟨d, ds, rfl, ?_⟩
    rw [hf] at h
    by_cases hd : isDigit d = true
    · exact hd
    · simp [parseDigits, hd] at h

theorem Itoa_ne_nil (n : Int) : Itoa n ≠ [] := by
  unfold Itoa
  split
  · simp
  · exact formatUint_ne_nil _

theorem ParseInt_Itoa (p q : Int) (bitSize : Nat) (h : ParseInt (Itoa p) bitSize = .ok q) :
    q = p := by
  obtain ⟨d, ds, hf, hd⟩ := formatUint_eq_cons p.natAbs
  have hpd := parseDigits_formatUint p.natAbs
  have hd43 : d ≠ 43 := by rintro rfl; simp [isDigit] at hd
  have hd45 : d ≠ 45 := by rintro rfl; simp [isDigit] at hd
  unfold Itoa at h
  by_cases hneg : p < 0
  · rw [if_pos hneg] at h
    simp only [ParseInt, hf, hpd, true_or, or_true, if_true, decide_True] at h
    rw [← hf, hpd] at h
    simp only at h
    split at h
    · injection h with h; omega
    · simp at h
  · rw [if_neg hneg, hf] at h
    simp only [ParseInt, hd43, hd45, or_self, if_false, decide_False] at h
    rw [← hf, hpd] at h
    simp only [Bool.false_eq_true, if_false] at h
    split at h
    · injection h with h; omega
    · simp at h
/-! ## Lemmas on the reference codec -/

namespace RefJSON

theorem expect_append (lit rest : Bytes) : expect lit (lit ++ rest) = some rest := by
  induction lit with
  | nil => cases rest <;> rfl
  | cons c cs ih => simp [expect, ih]

theorem parseStringBody_escape (s rest : Bytes) :
    parseStringBody false (escape s ++ 34 :: rest) = some (s, rest) := by
  induction s with
  | nil => simp [escape, parseStringBody]
  | cons c cs ih =>
    by_cases h : c = 34 ∨ c = 92
    · rcases h with h | h <;> subst h <;> simp [escape, parseStringBody, ih]
    · have h1 : c ≠ 34 := fun e => h (Or.inl e)
      have h2 : c ≠ 92 := fun e => h (Or.inr e)
      simp [escape, parseStringBody, h1, h2, ih]

theorem parseString_print (s rest : Bytes) :
    parseString (printString s ++ rest) = some (s, rest) := by
  simp [printString, parseString, parseStringBody_escape]

theorem parseNatAux_digits (ds : Bytes) (acc v : Nat) (tail : Bytes)
    (h : parseDigits acc ds = some v) (ht : startsNonDigit tail = true) :
    parseNatAux acc (ds ++ tail) = (v, tail) := by
  induction ds generalizing acc with
  | nil =>
    simp only [parseDigits] at h
    injection h with h
    subst h
    cases tail with
    | nil => rfl
    | cons d rest =>
      have hd : isDigit d = false := by simpa [startsNonDigit] using ht
      simp [parseNatAux, hd]
  | cons c cs ih =>
    by_cases hc : isDigit c = true
    · simp only [parseDigits, hc, if_true] at h
      simp [parseNatAux, hc, ih _ h]
    · simp [parseDigits, hc] at h

theorem parseNat_formatUint (n : Nat) (tail : Bytes) (ht : startsNonDigit tail = true) :
    parseNat (formatUint n ++ tail) = some (n, tail) := by
  obtain ⟨d, ds, hf, hd⟩ := formatUint_eq_cons n
  have h := parseNatAux_digits (formatUint n) 0 n tail (parseDigits_formatUint n) ht
  rw [hf] at h ⊢
  simp only [List.cons_append] at h ⊢
  simp [parseNat, hd, h]

theorem parseInt_Itoa (p : Int) (tail : Bytes) (ht : startsNonDigit tail = true) :
    parseInt (Itoa p ++ tail) = some (p, tail) := by
  unfold Itoa
  by_cases hneg : p < 0
  · rw [if_pos hneg]
    simp only [List.cons_append, parseInt, if_true, parseNat_formatUint _ _ ht, Option.map_some']
    congr 2
    omega
  · obtain ⟨d, ds, hf, hd⟩ := formatUint_eq_cons p.natAbs
    have hd45 : d ≠ 45 := by rintro rfl; simp [isDigit] at hd
    have h := parseNat_formatUint p.natAbs tail ht
    rw [if_neg hneg]
    rw [hf] at h ⊢
    simp only [List.cons_append] at h ⊢
    simp only [parseInt, hd45, if_false, h, Option.map_some']
    congr 2
    omega

theorem parseBool_print (b : Bool) (rest : Bytes) :
    parseBool (printBool b ++ rest) = some (b, rest) := by
  cases b with
  | true => simp [parseBool, printBool, expect_append]
  | false =>
    have h : expect (ascii "true") (ascii "false" ++ rest) = none := rfl
    simp [parseBool, printBool, expect_append, h]

theorem length_printItems {α : Type} (p : α → Bytes) (l : List α) :
    l.length ≤ (printItems p l).length := by
  induction l with
  | nil => simp
  | cons a rest ih =>
    cases rest with
    | nil => simp [printItems]
    | cons b rest' =>
      simp only [printItems, List.length_append, List.length_cons] at ih ⊢
      omega

theorem printItems_cons_cons {α : Type} (p : α → Bytes) (a b : α) (l : List α) :
    printItems p (a :: b :: l) = p a ++ 44 :: printItems p (b :: l) := rfl

theorem printItems_single {α : Type} (p : α → Bytes) (a : α) :
    printItems p [a] = p a ++ [93] := rfl

theorem parseItems_print {α : Type} (p : α → Bytes) (item : Bytes → Option (α × Bytes))
    (hitem : ∀ a rest, item (p a ++ rest) = some (a, rest)) (a : α) (l : List α) (fuel : Nat)
    (rest : Bytes) (hfuel : (a :: l).length ≤ fuel) :
    parseItems item fuel (printItems p (a :: l) ++ rest) = some (a :: l, rest) := by
  induction l generalizing a fuel with
  | nil =>
    cases fuel with
    | zero => simp at hfuel
    | succ f => simp [printItems_single, parseItems, hitem]
  | cons b l' ih =>
    cases fuel with
    | zero => simp at hfuel
    | succ f =>
      have hf : (b :: l').length ≤ f := by simp only [List.length_cons] at hfuel ⊢; omega
      simp [printItems_cons_cons, parseItems, hitem, ih b f hf]

theorem parseList_print {α : Type} (p : α → Bytes) (item : Bytes → Option (α × Bytes))
    (hitem : ∀ a rest, item (p a ++ rest) = some (a, rest))
    (hhead : ∀ a, ∃ c cs, p a = c :: cs ∧ c ≠ 93) (l : List α) (rest : Bytes) :
    parseList item (printList p l ++ rest) = some (l, rest) := by
  cases l with
  | nil => simp [printList, parseList, expect]
  | cons a l' =>
    have hlen : (a :: l').length ≤ (printItems p (a :: l') ++ rest).length := by
      rw [List.length_append]
      exact Nat.le_trans (length_printItems p (a :: l')) (Nat.le_add_right _ _)
    obtain ⟨c, cs, hc, hne⟩ := hhead a
    have hnone : expect [91, 93] (printList p (a :: l') ++ rest) = none := by
      cases l' with
      | nil => simp [printList, printItems, hc, expect, hne.symm]
      | cons b l'' => simp [printList, printItems, hc, expect, hne.symm]
    have hsome : expect [91] (printList p (a :: l') ++ rest) =
        some (printItems p (a :: l') ++ rest) := by
      simp [printList, expect]
    rw [parseList, hnone, hsome]
    simp only [Option.some_bind]
    exact parseItems_print p item hitem a l' _ rest hlen

theorem parseOpenFd_print (f : OpenFd) (rest : Bytes) :
    parseOpenFd (printOpenFd f ++ rest) = some (f, rest) := by
  have hnat : ∀ tail, parseNat (formatUint f.Fd ++ (ascii ",\"path\":" ++ tail)) =
      some (f.Fd, ascii ",\"path\":" ++ tail) := fun tail => parseNat_formatUint _ _ rfl
  simp only [printOpenFd, parseOpenFd, List.append_assoc, expect_append, Option.some_bind,
    hnat, parseString_print]

theorem printString_head (s : Bytes) : ∃ c cs, printString s = c :: cs ∧ c ≠ 93 :=
  ⟨34, _, rfl, by decide⟩

theorem printOpenFd_head (f : OpenFd) : ∃ c cs, printOpenFd f = c :: cs ∧ c ≠ 93 :=
  ⟨123, _, rfl, by decide⟩

theorem parseState_print (s : ProcessState) (rest : Bytes) :
    parseState (printState s ++ rest) = some (s, rest) := by
  have hint : ∀ tail, parseInt (Itoa s.PID ++
      (ascii ",\"process_info\":\x7b\"open_fds\":" ++ tail)) =
      some (s.PID, ascii ",\"process_info\":\x7b\"open_fds\":" ++ tail) :=
    fun tail => parseInt_Itoa _ _ rfl
  have hfds := parseList_print printOpenFd parseOpenFd parseOpenFd_print printOpenFd_head
  have hpaths := parseList_print printString parseString parseString_print printString_head
  simp only [printState, parseState, List.append_assoc, expect_append, Option.some_bind,
    hint, hfds, hpaths, parseString_print, parseBool_print]

theorem Unmarshal_print (s st : ProcessState) : Unmarshal (printState s) st = (s, none) := by
  have h := parseState_print s []
  rw [List.append_nil] at h
  cases hp : printState s with
  | nil =>
    have hnone : parseState [] = none := rfl
    rw [hp, hnone] at h
    cases h
  | cons c cs =>
    rw [hp] at h
    simp [Unmarshal, h]

end RefJSON

theorem refJSON_roundTrip : refJSON.RoundTrip := by
  intro s v h
  injection h with h
  subst h
  exact RefJSON.Unmarshal_print s _

theorem refJSON_rejectsEmpty : refJSON.RejectsEmpty := fun _ => rfl

/-! ## Lemmas on the store -/

theorem kvLookup_kvInsert_self {β : Type} (k : Bytes) (v : β) (l : List (Bytes × β)) :
    kvLookup k (kvInsert k v l) = some v := by
  induction l with
  | nil => simp [kvInsert, kvLookup]
  | cons p rest ih =>
    obtain ⟨k', v'⟩ := p
    by_cases h : k = k'
    · simp [kvInsert, kvLookup, h]
    · by_cases h2 : bytesLt k k' = true
      · simp [kvInsert, kvLookup, h, h2]
      · simp [kvInsert, kvLookup, h, h2, ih]

theorem kvLookup_store_self (root : RootBucket) (id : Bytes) (job job' : JobBucket)
    (h : kvLookup id root = some job') : kvLookup id (root.store id job) = some job := by
  induction root with
  | nil => simp [kvLookup] at h
  | cons p rest ih =>
    obtain ⟨k', v'⟩ := p
    by_cases hk : id = k'
    · subst hk
      simp [RootBucket.store, kvLookup]
    · have hk' : ¬ k' = id := fun e => hk e.symm
      simp only [kvLookup, hk, if_false] at h
      simp [RootBucket.store, kvLookup, hk, hk', ih h]

theorem mem_kvInsert {β : Type} (k : Bytes) (v : β) (l : List (Bytes × β)) (x : Bytes × β)
    (h : x ∈ kvInsert k v l) : x = (k, v) ∨ x ∈ l := by
  induction l with
  | nil => simpa [kvInsert] using h
  | cons p rest ih =>
    obtain ⟨k', v'⟩ := p
    unfold kvInsert at h
    split at h
    · rcases List.mem_cons.1 h with h | h
      · exact Or.inl h
      · exact Or.inr (List.mem_cons_of_mem _ h)
    · split at h
      · rcases List.mem_cons.1 h with h | h
        · exact Or.inl h
        · exact Or.inr h
      · rcases List.mem_cons.1 h with h | h
        · exact Or.inr (h ▸ List.mem_cons_self _ _)
        · rcases ih h with h | h
          · exact Or.inl h
          · exact Or.inr (List.mem_cons_of_mem _ h)

theorem mem_store (root : RootBucket) (id : Bytes) (job : JobBucket) (x : Bytes × JobBucket)
    (h : x ∈ root.store id job) : x ∈ root ∨ x.2 = job := by
  induction root with
  | nil => simp [RootBucket.store] at h
  | cons p rest ih =>
    obtain ⟨k', v'⟩ := p
    unfold RootBucket.store at h
    split at h
    · rcases List.mem_cons.1 h with h | h
      · exact Or.inr (by rw [h])
      · exact Or.inl (List.mem_cons_of_mem _ h)
    · rcases List.mem_cons.1 h with h | h
      · exact Or.inl (h ▸ List.mem_cons_self _ _)
      · rcases ih h with h | h
        · exact Or.inl (List.mem_cons_of_mem _ h)
        · exact Or.inr h

theorem mem_of_kvLookup {β : Type} (k : Bytes) (v : β) (l : List (Bytes × β))
    (h : kvLookup k l = some v) : (k, v) ∈ l := by
  induction l with
  | nil => simp [kvLookup] at h
  | cons p rest ih =>
    obtain ⟨k', v'⟩ := p
    unfold kvLookup at h
    split at h
    · rename_i hk
      injection h with h
      rw [hk, h]
      exact List.mem_cons_self _ _
    · exact List.mem_cons_of_mem _ (ih h)

theorem JobBucket.ForEach_induct {σ : Type} (fn : Bytes → Bytes → σ → σ × Option Error)
    (P : σ → Prop) (l : JobBucket) (s : σ) (h0 : P s)
    (hstep : ∀ k v s, (k, v) ∈ l → P s → P (fn k v s).1) :
    P (JobBucket.ForEach fn l s).1 := by
  induction l generalizing s with
  | nil => simpa [JobBucket.ForEach] using h0
  | cons p rest ih =>
    obtain ⟨k, v⟩ := p
    have h1 := hstep k v s (List.mem_cons_self _ _) h0
    unfold JobBucket.ForEach
    split
    · rename_i s' err heq
      rw [heq] at h1
      exact h1
    · rename_i s' heq
      rw [heq] at h1
      exact ih s' h1 fun k v s hm hs => hstep k v s (List.mem_cons_of_mem _ hm) hs

theorem RootBucket.ForEachBucket_induct {σ : Type} (fn : Bytes → σ → σ × Option Error)
    (P : σ → Prop) (l : RootBucket) (s : σ) (h0 : P s)
    (hstep : ∀ k s, P s → P (fn k s).1) :
    P (RootBucket.ForEachBucket fn l s).1 := by
  induction l generalizing s with
  | nil => simpa [RootBucket.ForEachBucket] using h0
  | cons p rest ih =>
    obtain ⟨k, v⟩ := p
    have h1 := hstep k s h0
    unfold RootBucket.ForEachBucket
    split
    · rename_i s' err heq
      rw [heq] at h1
      exact h1
    · rename_i s' heq
      rw [heq] at h1
      exact ih s' h1

theorem createOrUpdate_eq (J : JSON) (db : Index) (id : Bytes) (state : ProcessState)
    (v : Bytes) (hid : id ≠ []) (hm : J.Marshal state = .ok v) :
    CreateOrUpdateCedanaProcess J none db id state =
      if state.PID = 0 then (db, some "pid 0 returned from state - is process running?")
      else
        match kvLookup id (db.root.getD []) with
        | some job => (⟨some (RootBucket.store (db.root.getD []) id
            (kvInsert (Itoa state.PID) v job))⟩, none)
        | none => (⟨some (RootBucket.store (kvInsert id [] (db.root.getD [])) id
            (kvInsert (Itoa state.PID) v []))⟩, none) := by
  unfold CreateOrUpdateCedanaProcess Update
  by_cases hp : state.PID = 0
  · cases hl : kvLookup id (db.root.getD []) <;>
      simp [Index.CreateBucketIfNotExists, RootBucket.CreateBucketIfNotExists, hid, hm, hp, hl,
        bind, Except.bind, pure, Except.pure, throw, throwThe, MonadExcept.throw]
  · have hne := Itoa_ne_nil state.PID
    cases hl : kvLookup id (db.root.getD []) <;>
      simp [Index.CreateBucketIfNotExists, RootBucket.CreateBucketIfNotExists, hid, hm, hp, hl,
        JobBucket.Put, hne, bind, Except.bind, pure, Except.pure]

theorem createOrUpdate_rollback (J : JSON) (conn : Option Error) (db : Index) (id : Bytes)
    (state : ProcessState) (h : (CreateOrUpdateCedanaProcess J conn db id state).2 ≠ none) :
    (CreateOrUpdateCedanaProcess J conn db id state).1 = db := by
  unfold CreateOrUpdateCedanaProcess Update at *
  cases conn with
  | some err => rfl
  | none =>
    simp only at h ⊢
    split
    · rename_i heq; rw [heq] at h; simp at h
    · rfl

/-! ## C1: upsert -/

/-- C1, as stated, fails: with the blank job id and PID 5 the upsert returns an error
(bbolt refuses to create a bucket without a name) although the PID is not 0. -/
theorem C1_counterexample_blank_job_id :
    ¬ ((CreateOrUpdateCedanaProcess refJSON none Index.empty [] (stateOfPID 5)).2 ≠ none ↔
        (stateOfPID 5).PID = 0) := by
  decide

/-- C1 (amended): a failed upsert leaves the committed index unchanged; a blank job id fails
with the error of bucket creation; and for every non-blank job id and every state that
marshals, the upsert returns an error if and only if the PID is 0, and when it succeeds the
job bucket maps the decimal string of the PID to the JSON encoding of the state. -/
theorem C1_upsert_fails_iff_pid_zero (J : JSON) (db : Index) (id : Bytes)
    (state : ProcessState) :
    ((CreateOrUpdateCedanaProcess J none db id state).2 ≠ none →
      (CreateOrUpdateCedanaProcess J none db id state).1 = db) ∧
    (id = [] → (CreateOrUpdateCedanaProcess J none db id state).2 =
      some "bucket name required") ∧
    (∀ v, id ≠ [] → J.Marshal state = .ok v →
      ((CreateOrUpdateCedanaProcess J none db id state).2 ≠ none ↔ state.PID = 0) ∧
      ((CreateOrUpdateCedanaProcess J none db id state).2 = none →
        ∃ root job, (CreateOrUpdateCedanaProcess J none db id state).1.root = some root ∧
          root.Bucket id = some job ∧ kvLookup (Itoa state.PID) job = some v)) := by
  refine ⟨createOrUpdate_rollback J none db id state, ?_, ?_⟩
  · intro hid
    simp [CreateOrUpdateCedanaProcess, Update, Index.CreateBucketIfNotExists,
      RootBucket.CreateBucketIfNotExists, hid, bind, Except.bind]
  · intro v hid hm
    rw [createOrUpdate_eq J db id state v hid hm]
    by_cases hp : state.PID = 0
    · simp [hp]
    · simp only [hp, if_false]
      cases hl : kvLookup id (db.root.getD []) with
      | some job =>
        exact ⟨by simp, fun _ => ⟨_, kvInsert (Itoa state.PID) v job, rfl,
          kvLookup_store_self _ _ _ _ hl, kvLookup_kvInsert_self _ _ _⟩⟩
      | none =>
        exact ⟨by simp, fun _ => ⟨_, kvInsert (Itoa state.PID) v [], rfl,
          kvLookup_store_self _ _ _ [] (kvLookup_kvInsert_self _ _ _),
          kvLookup_kvInsert_self _ _ _⟩⟩

/-- C1 at scenario S1: job `j1`, PID 4242, on a fresh store. -/
theorem C1_upsert_witness :
    ((CreateOrUpdateCedanaProcess refJSON none Index.empty (ascii "j1") exampleState).2 ≠ none ↔
      exampleState.PID = 0) ∧
    ((CreateOrUpdateCedanaProcess refJSON none Index.empty (ascii "j1") exampleState).2 = none →
      ∃ root job,
        (CreateOrUpdateCedanaProcess refJSON none Index.empty (ascii "j1") exampleState).1.root
          = some root ∧
        root.Bucket (ascii "j1") = some job ∧
        kvLookup (Itoa exampleState.PID) job = some (RefJSON.printState exampleState)) :=
  (C1_upsert_fails_iff_pid_zero refJSON Index.empty (ascii "j1") exampleState).2.2
    (RefJSON.printState exampleState) (by decide) rfl

/-! ## C2: what is persisted -/

theorem GoodBucket_kvInsert (J : JSON) (job : JobBucket) (p : Int) (state : ProcessState)
    (v : Bytes) (hjob : GoodBucket J job) (hp : p ≠ 0) (hm : J.Marshal state = .ok v)
    (hs : state.PID ≠ 0) : GoodBucket J (kvInsert (Itoa p) v job) := by
  intro k' v' hmem
  rcases mem_kvInsert _ _ _ _ hmem with h | h
  · injection h with h1 h2
    subst h1 h2
    exact ⟨⟨p, hp, rfl⟩, ⟨state, hm, hs⟩⟩
  · exact hjob k' v' h

theorem GoodRoot_store (J : JSON) (root : RootBucket) (id : Bytes) (job : JobBucket)
    (hroot : GoodRoot J root) (hjob : GoodBucket J job) : GoodRoot J (root.store id job) := by
  intro id' job' hmem
  rcases mem_store _ _ _ _ hmem with h | h
  · exact hroot id' job' h
  · simp only at h
    rw [h]
    exact hjob

theorem GoodRoot_getD (J : JSON) (db : Index) (h : GoodIndex J db) :
    GoodRoot J (db.root.getD []) := by
  cases hr : db.root with
  | none => intro id job hmem; simp at hmem
  | some root => exact h root hr

theorem createOrUpdate_good (J : JSON) (db : Index) (id : Bytes) (state : ProcessState)
    (h : GoodIndex J db) : GoodIndex J (CreateOrUpdateCedanaProcess J none db id state).1 := by
  by_cases herr : (CreateOrUpdateCedanaProcess J none db id state).2 ≠ none
  · rw [createOrUpdate_rollback J none db id state herr]
    exact h
  · by_cases hid : id = []
    · exact absurd (by
        simp [CreateOrUpdateCedanaProcess, Update, Index.CreateBucketIfNotExists,
          RootBucket.CreateBucketIfNotExists, hid, bind, Except.bind]) herr
    · cases hm : J.Marshal state with
      | error e =>
        refine absurd ?_ herr
        cases hl : kvLookup id (db.root.getD []) <;>
          simp [CreateOrUpdateCedanaProcess, Update, Index.CreateBucketIfNotExists,
            RootBucket.CreateBucketIfNotExists, hid, hm, hl, bind, Except.bind]
      | ok v =>
        have hroot := GoodRoot_getD J db h
        rw [createOrUpdate_eq J db id state v hid hm] at herr ⊢
        by_cases hp : state.PID = 0
        · simp [hp] at herr
        · simp only [hp, if_false]
          cases hl : kvLookup id (db.root.getD []) with
          | some job =>
            intro root hr
            injection hr with hr
            subst hr
            exact GoodRoot_store J _ _ _ hroot
              (GoodBucket_kvInsert J job _ state v (hroot id job (mem_of_kvLookup _ _ _ hl))
                hp hm hp)
          | none =>
            intro root hr
            injection hr with hr
            subst hr
            refine GoodRoot_store J _ _ _ ?_
              (GoodBucket_kvInsert J [] _ state v (fun _ _ hmem => by simp at hmem) hp hm hp)
            intro id' job' hmem
            rcases mem_kvInsert _ _ _ _ hmem with h1 | h1
            · injection h1 with _ h2
              subst h2
              intro _ _ hmem
              simp at hmem
            · exact hroot id' job' h1

theorem updateWithID_good (J : JSON) (db : Index) (id : Bytes) (state : ProcessState)
    (h : GoodIndex J db) : GoodIndex J (UpdateProcessStateWithID J none db id state).1 := by
  have hroot := GoodRoot_getD J db h
  unfold UpdateProcessStateWithID Update
  simp only [Index.CreateBucketIfNotExists, bind, Except.bind, pure, Except.pure]
  cases hm : J.Marshal state with
  | error e => exact h
  | ok m =>
    simp only [RootBucket.Bucket]
    cases hl : kvLookup id (db.root.getD []) with
    | none => exact h
    | some job =>
      have hjob : GoodBucket J job := hroot id job (mem_of_kvLookup _ _ _ hl)
      intro root hr
      injection hr with hr
      subst hr
      refine GoodRoot_store J _ _ _ hroot ?_
      refine JobBucket.ForEach_induct _ (GoodBucket J) job job hjob ?_
      intro k v cur hmem hcur
      obtain ⟨⟨p, hp, hk⟩, _⟩ := hjob k v hmem
      cases ha : Atoi k with
      | error e => exact hcur
      | ok pid =>
        simp only
        have hpid : pid = p := ParseInt_Itoa p pid 64 (by rw [← hk]; exact ha)
        by_cases heq : pid = state.PID
        · have hne : k ≠ [] := by rw [hk]; exact Itoa_ne_nil p
          simp only [heq, if_true, JobBucket.Put, hne, if_false]
          rw [hk]
          exact GoodBucket_kvInsert J cur p state m hcur hp hm (by rw [← heq, hpid]; exact hp)
        · simp only [heq, if_false]
          exact hcur

theorem updateWithPID_good (J : JSON) (db : Index) (pid : Int) (state : ProcessState)
    (h : GoodIndex J db) (hs : state.PID ≠ 0) :
    GoodIndex J (UpdateProcessStateWithPID J none db pid state).1 := by
  unfold UpdateProcessStateWithPID Update
  cases hr : db.root with
  | none => simp only [hr]; exact h
  | some root0 =>
    have hroot : GoodRoot J root0 := h root0 hr
    simp only [hr]
    intro root hr'
    injection hr' with hr'
    subst hr'
    refine RootBucket.ForEachBucket_induct _ (GoodRoot J) root0 root0 hroot ?_
    intro name cur hcur
    simp only [RootBucket.Bucket]
    cases hl : kvLookup name cur with
    | none => exact hcur
    | some job =>
      have hjob : GoodBucket J job := hcur name job (mem_of_kvLookup _ _ _ hl)
      refine GoodRoot_store J _ _ _ hcur ?_
      refine JobBucket.ForEach_induct _ (GoodBucket J) job job hjob ?_
      intro k v curJob hmem hcurJob
      obtain ⟨⟨p, hp, hk⟩, _⟩ := hjob k v hmem
      by_cases heq : k = Itoa pid
      · cases hm : J.Marshal state with
        | error e => simpa [heq, hm] using hcurJob
        | ok m =>
          have hne : Itoa pid ≠ [] := Itoa_ne_nil pid
          simp only [heq, if_true, hm, JobBucket.Put, hne, if_false]
          rw [← heq, hk]
          exact GoodBucket_kvInsert J curJob p state m hcurJob hp hm hs
      · simpa [heq] using hcurJob

theorem runCalls_good (J : JSON) (calls : List DBCall) (db : Index) (h : GoodIndex J db)
    (hadm : ∀ c ∈ calls, c.Admissible) : GoodIndex J (runCalls J db calls) := by
  induction calls generalizing db with
  | nil => exact h
  | cons c rest ih =>
    have hc : c.Admissible := hadm c (List.mem_cons_self _ _)
    have hrest : ∀ c' ∈ rest, c'.Admissible := fun c' hm => hadm c' (List.mem_cons_of_mem _ hm)
    simp only [runCalls, List.foldl_cons]
    refine ih _ ?_ hrest
    cases c with
    | createOrUpdate id state => exact createOrUpdate_good J db id state h
    | updateWithID id state => exact updateWithID_good J db id state h
    | updateWithPID pid state => exact updateWithPID_good J db pid state h hc

/-- C2, as stated, fails in two ways. An upsert of a state with PID -5 succeeds (the guard of
`CreateOrUpdateCedanaProcess` is `pid == 0` only), so a state whose PID is not greater than 0
is persisted. And `UpdateProcessStateWithPID(5, state)` with `state.PID == 0` overwrites the
entry of PID 5 with a state whose PID is 0: that method has no guard. -/
theorem C2_counterexample_nonpositive_pid :
    (∃ root id job k v,
      (runCalls refJSON Index.empty
        [.createOrUpdate (ascii "j1") (stateOfPID (-5))]).root = some root ∧
      (id, job) ∈ root ∧ (k, v) ∈ job ∧
      refJSON.Unmarshal v ProcessState.zero = (stateOfPID (-5), none) ∧
      ¬ 0 < (stateOfPID (-5)).PID) ∧
    (∃ root id job k v,
      (runCalls refJSON Index.empty
        [.createOrUpdate (ascii "j1") (stateOfPID 5),
         .updateWithPID 5 (stateOfPID 0)]).root = some root ∧
      (id, job) ∈ root ∧ (k, v) ∈ job ∧
      refJSON.Unmarshal v ProcessState.zero = (stateOfPID 0, none) ∧
      ¬ 0 < (stateOfPID 0).PID) :=
  ⟨⟨[(ascii "j1", [(Itoa (-5), RefJSON.printState (stateOfPID (-5)))])], ascii "j1",
      [(Itoa (-5), RefJSON.printState (stateOfPID (-5)))], Itoa (-5),
      RefJSON.printState (stateOfPID (-5)),
      by decide, by decide, by decide, by decide, by decide⟩,
   ⟨[(ascii "j1", [(Itoa 5, RefJSON.printState (stateOfPID 0))])], ascii "j1",
      [(Itoa 5, RefJSON.printState (stateOfPID 0))], Itoa 5,
      RefJSON.printState (stateOfPID 0),
      by decide, by decide, by decide, by decide, by decide⟩⟩

/-- C2 (amended): starting from an empty index, after any finite sequence of successful or
failed calls to `CreateOrUpdateCedanaProcess`, `UpdateProcessStateWithID` (arbitrary
arguments) and `UpdateProcessStateWithPID` (any PID, a state whose PID is not 0), every key
of every job bucket is the decimal form of a non-zero PID and every stored value decodes to a
`ProcessState` whose PID is not 0. The JSON codec is any codec with the round-trip law. -/
theorem C2_persisted_pid_nonzero (J : JSON) (hrt : J.RoundTrip) (calls : List DBCall)
    (hadm : ∀ c ∈ calls, c.Admissible) (root : RootBucket) (id : Bytes) (job : JobBucket)
    (k v : Bytes) (hroot : (runCalls J Index.empty calls).root = some root)
    (hjob : (id, job) ∈ root) (hkv : (k, v) ∈ job) :
    (∃ p : Int, p ≠ 0 ∧ k = Itoa p) ∧
    (∃ s, J.Unmarshal v ProcessState.zero = (s, none) ∧ s.PID ≠ 0) := by
  have hempty : GoodIndex J Index.empty := by
    intro root hr
    simp [Index.empty] at hr
  obtain ⟨hkey, s, hm, hs⟩ := runCalls_good J calls Index.empty hempty hadm root hroot id job hjob
    k v hkv
  exact ⟨hkey, s, hrt s v hm, hs⟩

/-- C2 at a sequence with a failed upsert (PID 0), a successful one, and both updates. -/
theorem C2_persisted_witness :
    (∃ p : Int, p ≠ 0 ∧ Itoa 4242 = Itoa p) ∧
    (∃ s, refJSON.Unmarshal
      (RefJSON.printState ⟨4242, ⟨[], []⟩, ascii "/tmp/dump.tar", true⟩) ProcessState.zero
        = (s, none) ∧ s.PID ≠ 0) :=
  C2_persisted_pid_nonzero refJSON refJSON_roundTrip
    [.createOrUpdate (ascii "j1") (stateOfPID 0),
     .createOrUpdate (ascii "j1") exampleState,
     .updateWithID (ascii "j1") ⟨4242, ⟨[], []⟩, ascii "/tmp/dump.tar", false⟩,
     .updateWithPID 4242 ⟨4242, ⟨[], []⟩, ascii "/tmp/dump.tar", true⟩]
    (by
      intro c hc
      simp only [List.mem_cons, List.mem_singleton, List.not_mem_nil, or_false] at hc
      rcases hc with rfl | rfl | rfl | rfl <;> simp [DBCall.Admissible])
    [(ascii "j1", [(Itoa 4242, RefJSON.printState ⟨4242, ⟨[], []⟩, ascii "/tmp/dump.tar", true⟩)])]
    (ascii "j1")
    [(Itoa 4242, RefJSON.printState ⟨4242, ⟨[], []⟩, ascii "/tmp/dump.tar", true⟩)]
    (Itoa 4242) (RefJSON.printState ⟨4242, ⟨[], []⟩, ascii "/tmp/dump.tar", true⟩)
    (by decide) (by decide) (by decide)

/-! ## C3: the latest entry of a job -/

/-- C3 at its own example: after upserting PID 9 and then PID 10 into job `j1`, the cursor's
last position is key `9` (`"10" < "9"` in byte order), so `GetPID` returns 9 and
`GetStateFromID` returns the state of the first upsert, not of the most recent one. -/
theorem C3_latest_is_last_in_byte_order :
    GetPID none (runCalls refJSON Index.empty
      [.createOrUpdate (ascii "j1") (stateOfPID 9),
       .createOrUpdate (ascii "j1") (stateOfPID 10)]) (ascii "j1") = (9, none) ∧
    GetStateFromID refJSON none (runCalls refJSON Index.empty
      [.createOrUpdate (ascii "j1") (stateOfPID 9),
       .createOrUpdate (ascii "j1") (stateOfPID 10)]) (ascii "j1")
      = (some (stateOfPID 9), none) ∧
    (CreateOrUpdateCedanaProcess refJSON none Index.empty (ascii "j1") (stateOfPID 9)).2 = none ∧
    (CreateOrUpdateCedanaProcess refJSON none
      (CreateOrUpdateCedanaProcess refJSON none Index.empty (ascii "j1") (stateOfPID 9)).1
      (ascii "j1") (stateOfPID 10)).2 = none := by
  decide

/-! ## C4: the latest state of an empty job -/

/-- C4: when the job bucket is absent or holds no entries, `GetStateFromID` returns a non-nil
error: `could not find bucket` when the root bucket is missing, `could not find job` when
the job bucket is missing, and the decoder's `unexpected end of JSON input` when the job
bucket is empty. It never returns a nil error for such a job. -/
theorem C4_latest_state_of_empty_job_fails (J : JSON) (hempty : J.RejectsEmpty) (db : Index)
    (id : Bytes)
    (h : ∀ root job, db.root = some root → root.Bucket id = some job → job = []) :
    (GetStateFromID J none db id).2 ≠ none ∧
    (db.root = none → (GetStateFromID J none db id).2 = some "could not find bucket") ∧
    (∀ root, db.root = some root → root.Bucket id = none →
      (GetStateFromID J none db id).2 = some "could not find job") ∧
    (∀ root, db.root = some root → root.Bucket id = some [] →
      (GetStateFromID J none db id).2 = some "unexpected end of JSON input") := by
  unfold GetStateFromID View
  cases hr : db.root with
  | none => simp [hr]
  | some root =>
    cases hb : root.Bucket id with
    | none => simp [hr, hb]
    | some job =>
      have hj : job = [] := h root job hr hb
      subst hj
      simp [hr, hb, JobBucket.Last, hempty ProcessState.zero]

/-- C4 on a store whose job bucket `j1` exists and is empty. -/
theorem C4_empty_job_witness :
    (GetStateFromID refJSON none ⟨some [(ascii "j1", [])]⟩ (ascii "j1")).2 ≠ none :=
  (C4_latest_state_of_empty_job_fails refJSON refJSON_rejectsEmpty
    ⟨some [(ascii "j1", [])]⟩ (ascii "j1")
    (by
      intro root job hr hb
      injection hr with hr
      subst hr
      have : RootBucket.Bucket [(ascii "j1", [])] (ascii "j1") = some [] := by decide
      rw [this] at hb
      injection hb with hb
      exact hb.symm)).1

/-! ## Sorted buckets -/

theorem bytesLt_irrefl (a : Bytes) : bytesLt a a = false := by
  induction a with
  | nil => rfl
  | cons x xs ih => simp [bytesLt, ih]

theorem bytesLt_trans (a b c : Bytes) (hab : bytesLt a b = true) (hbc : bytesLt b c = true) :
    bytesLt a c = true := by
  induction a generalizing b c with
  | nil =>
    cases b with
    | nil => simp [bytesLt] at hab
    | cons y ys =>
      cases c with
      | nil => simp [bytesLt] at hbc
      | cons z zs => rfl
  | cons x xs ih =>
    cases b with
    | nil => simp [bytesLt] at hab
    | cons y ys =>
      cases c with
      | nil => simp [bytesLt] at hbc
      | cons z zs =>
        simp only [bytesLt] at hab hbc ⊢
        by_cases hxy : x < y
        · by_cases hyz : y < z
          · have : x < z := Nat.lt_trans hxy hyz
            simp [this]
          · by_cases hzy : z < y
            · simp [hyz, hzy] at hbc
            · have : y = z := by omega
              subst this
              simp [hxy]
        · by_cases hyx : y < x
          · simp [hxy, hyx] at hab
          · have hxy' : x = y := by omega
            subst hxy'
            simp only [hxy, if_false] at hab
            by_cases hxz : x < z
            · simp [hxz]
            · by_cases hzx : z < x
              · simp [hxz, hzx] at hbc
              · simp only [hxz, hzx, if_false] at hbc ⊢
                exact ih ys zs hab hbc

theorem ne_of_bytesLt (a b : Bytes) (h : bytesLt a b = true) : a ≠ b := by
  rintro rfl
  rw [bytesLt_irrefl] at h
  cases h

theorem keysSorted_tail {β : Type} (p : Bytes × β) (l : List (Bytes × β))
    (h : keysSorted (p :: l)) : keysSorted l :=
  (List.pairwise_cons.1 h).2

theorem keysSorted_head_ne {β : Type} (p : Bytes × β) (l : List (Bytes × β))
    (h : keysSorted (p :: l)) : ∀ x ∈ l, x.1 ≠ p.1 :=
  fun x hx => (ne_of_bytesLt _ _ ((List.pairwise_cons.1 h).1 x hx)).symm

theorem kvInsert_split {β : Type} (k : Bytes) (v : β) (l : List (Bytes × β))
    (h : keysSorted l) :
    ∃ pre post, kvInsert k v l = pre ++ (k, v) :: post ∧
      (∀ x ∈ pre, x.1 ≠ k) ∧ (∀ x ∈ post, x.1 ≠ k) ∧
      (∀ x ∈ pre, x ∈ l) ∧ (∀ x ∈ post, x ∈ l) := by
  induction l with
  | nil => exact ⟨[], [], rfl, by simp, by simp, by simp, by simp⟩
  | cons p rest ih =>
    obtain ⟨k', v'⟩ := p
    by_cases hk : k = k'
    · subst hk
      refine ⟨[], rest, by simp [kvInsert], by simp, ?_, by simp, ?_⟩
      · exact keysSorted_head_ne (k, v') rest h
      · exact fun x hx => List.mem_cons_of_mem _ hx
    · by_cases hlt : bytesLt k k' = true
      · refine ⟨[], (k', v') :: rest, by simp [kvInsert, hk, hlt], by simp, ?_, by simp, ?_⟩
        · intro x hx
          rcases List.mem_cons.1 hx with hx | hx
          · rw [hx]; exact fun e => hk e.symm
          · have h1 : bytesLt k' x.1 = true := (List.pairwise_cons.1 h).1 x hx
            exact (ne_of_bytesLt _ _ (bytesLt_trans _ _ _ hlt h1)).symm
        · exact fun x hx => hx
      · obtain ⟨pre, post, heq, hpre, hpost, hpl, hpol⟩ := ih (keysSorted_tail _ _ h)
        refine ⟨(k', v') :: pre, post, by simp [kvInsert, hk, hlt, heq], ?_, hpost, ?_, ?_⟩
        · intro x hx
          rcases List.mem_cons.1 hx with hx | hx
          · rw [hx]; exact fun e => hk e.symm
          · exact hpre x hx
        · intro x hx
          rcases List.mem_cons.1 hx with hx | hx
          · rw [hx]; exact List.mem_cons_self _ _
          · exact List.mem_cons_of_mem _ (hpl x hx)
        · exact fun x hx => List.mem_cons_of_mem _ (hpol x hx)

theorem kvLookup_split {β : Type} (k : Bytes) (v : β) (l : List (Bytes × β))
    (h : keysSorted l) (hl : kvLookup k l = some v) :
    ∃ pre post, l = pre ++ (k, v) :: post ∧
      (∀ x ∈ pre, x.1 ≠ k) ∧ (∀ x ∈ post, x.1 ≠ k) := by
  induction l with
  | nil => simp [kvLookup] at hl
  | cons p rest ih =>
    obtain ⟨k', v'⟩ := p
    by_cases hk : k = k'
    · subst hk
      simp only [kvLookup, if_true] at hl
      injection hl with hl
      subst hl
      exact ⟨[], rest, rfl, by simp, keysSorted_head_ne (k, v') rest h⟩
    · simp only [kvLookup, hk, if_false] at hl
      obtain ⟨pre, post, heq, hpre, hpost⟩ := ih (keysSorted_tail _ _ h) hl
      refine ⟨(k', v') :: pre, post, by simp [heq], ?_, hpost⟩
      intro x hx
      rcases List.mem_cons.1 hx with hx | hx
      · rw [hx]; exact fun e => hk e.symm
      · exact hpre x hx

theorem kvLookup_none_of_forall_ne {β : Type} (k : Bytes) (l : List (Bytes × β))
    (h : ∀ x ∈ l, x.1 ≠ k) : kvLookup k l = none := by
  induction l with
  | nil => rfl
  | cons p rest ih =>
    obtain ⟨k', v'⟩ := p
    have hk : ¬ k = k' := fun e => h (k', v') (List.mem_cons_self _ _) e.symm
    simp only [kvLookup, hk, if_false]
    exact ih fun x hx => h x (List.mem_cons_of_mem _ hx)

theorem forall_ne_of_kvLookup_none {β : Type} (k : Bytes) (l : List (Bytes × β))
    (h : kvLookup k l = none) : ∀ x ∈ l, x.1 ≠ k := by
  induction l with
  | nil => simp
  | cons p rest ih =>
    obtain ⟨k', v'⟩ := p
    by_cases hk : k = k'
    · simp [kvLookup, hk] at h
    · simp only [kvLookup, hk, if_false] at h
      intro x hx
      rcases List.mem_cons.1 hx with hx | hx
      · rw [hx]; exact fun e => hk e.symm
      · exact ih h x hx

theorem kvLookup_append_of_forall_ne {β : Type} (k : Bytes) (pre l : List (Bytes × β))
    (h : ∀ x ∈ pre, x.1 ≠ k) : kvLookup k (pre ++ l) = kvLookup k l := by
  induction pre with
  | nil => rfl
  | cons p rest ih =>
    obtain ⟨k', v'⟩ := p
    have hk : ¬ k = k' := fun e => h (k', v') (List.mem_cons_self _ _) e.symm
    simp only [List.cons_append, kvLookup, hk, if_false]
    exact ih fun x hx => h x (List.mem_cons_of_mem _ hx)

theorem store_split (pre post : RootBucket) (id : Bytes) (b job : JobBucket)
    (h : ∀ x ∈ pre, x.1 ≠ id) :
    RootBucket.store (pre ++ (id, b) :: post) id job = pre ++ (id, job) :: post := by
  induction pre with
  | nil => simp [RootBucket.store]
  | cons p rest ih =>
    obtain ⟨k', v'⟩ := p
    have hk : ¬ k' = id := h (k', v') (List.mem_cons_self _ _)
    have ih' := ih fun x hx => h x (List.mem_cons_of_mem _ hx)
    simp only [List.cons_append, RootBucket.store, hk, if_false]
    exact congrArg _ ih'

/-! ## C5: reading a state back by PID -/

theorem scan_no_match (J : JSON) (key : Bytes) (l : JobBucket) (st : ProcessState)
    (h : ∀ x ∈ l, x.1 ≠ key) :
    JobBucket.ForEach (fun k v state => if k = key then J.Unmarshal v state else (state, none))
      l st = (st, none) := by
  induction l with
  | nil => rfl
  | cons p rest ih =>
    obtain ⟨k', v'⟩ := p
    have hk : ¬ k' = key := h (k', v') (List.mem_cons_self _ _)
    simp only [JobBucket.ForEach, hk, if_false]
    exact ih fun x hx => h x (List.mem_cons_of_mem _ hx)

theorem scan_one_match (J : JSON) (key v : Bytes) (pre post : JobBucket) (st : ProcessState)
    (hpre : ∀ x ∈ pre, x.1 ≠ key) (hpost : ∀ x ∈ post, x.1 ≠ key) :
    (JobBucket.ForEach (fun k v state => if k = key then J.Unmarshal v state else (state, none))
      (pre ++ (key, v) :: post) st).1 = (J.Unmarshal v st).1 := by
  induction pre with
  | nil =>
    simp only [List.nil_append, JobBucket.ForEach, if_true]
    split
    · rename_i s' err heq
      rw [heq]
    · rename_i s' heq
      rw [heq, scan_no_match J key post s' hpost]
  | cons p rest ih =>
    obtain ⟨k', v'⟩ := p
    have hk : ¬ k' = key := hpre (k', v') (List.mem_cons_self _ _)
    simp only [List.cons_append, JobBucket.ForEach, hk, if_false]
    exact ih fun x hx => hpre x (List.mem_cons_of_mem _ hx)

theorem ForEachBucket_no_effect {σ : Type} (fn : Bytes → σ → σ × Option Error)
    (l : RootBucket) (s : σ) (h : ∀ x ∈ l, ∀ s, fn x.1 s = (s, none)) :
    RootBucket.ForEachBucket fn l s = (s, none) := by
  induction l with
  | nil => rfl
  | cons p rest ih =>
    obtain ⟨k', v'⟩ := p
    have hk := h (k', v') (List.mem_cons_self _ _) s
    simp only at hk
    simp only [RootBucket.ForEachBucket, hk]
    exact ih fun x hx => h x (List.mem_cons_of_mem _ hx)

theorem ForEachBucket_one_effect {σ : Type} (fn : Bytes → σ → σ × Option Error)
    (pre post : RootBucket) (id : Bytes) (b : JobBucket) (s : σ)
    (hnone : ∀ s, (fn id s).2 = none)
    (hpre : ∀ x ∈ pre, ∀ s, fn x.1 s = (s, none))
    (hpost : ∀ x ∈ post, ∀ s, fn x.1 s = (s, none)) :
    RootBucket.ForEachBucket fn (pre ++ (id, b) :: post) s = ((fn id s).1, none) := by
  induction pre with
  | nil =>
    simp only [List.nil_append, RootBucket.ForEachBucket]
    have h2 := hnone s
    split
    · rename_i s' err heq
      rw [heq] at h2
      cases h2
    · rename_i s' heq
      rw [heq]
      exact ForEachBucket_no_effect fn post s' hpost
  | cons p rest ih =>
    obtain ⟨k', v'⟩ := p
    have hk := hpre (k', v') (List.mem_cons_self _ _) s
    simp only at hk
    simp only [List.cons_append, RootBucket.ForEachBucket, hk]
    exact ih fun x hx => hpre x (List.mem_cons_of_mem _ hx)

theorem kvLookup_mem_split (pre post : RootBucket) (id : Bytes) (b job : JobBucket) (k : Bytes)
    (hk : k ≠ id) (h : kvLookup k (pre ++ (id, b) :: post) = some job) :
    (k, job) ∈ pre ∨ (k, job) ∈ post := by
  have hm := mem_of_kvLookup _ _ _ h
  rcases List.mem_append.1 hm with hm | hm
  · exact Or.inl hm
  · rcases List.mem_cons.1 hm with hm | hm
    · injection hm with h1 _
      exact absurd h1 hk
    · exact Or.inr hm

/-- What `GetStateFromPID` returns on a root where exactly the bucket `id` holds the key of
`pid`, once, with value `v`. -/
theorem getStateFromPID_unique (J : JSON) (pid : Int) (pre post : RootBucket) (id : Bytes)
    (preJ postJ : JobBucket) (v : Bytes)
    (hpre : ∀ x ∈ pre, x.1 ≠ id) (hpost : ∀ x ∈ post, x.1 ≠ id)
    (hpreJ : ∀ x ∈ preJ, x.1 ≠ Itoa pid) (hpostJ : ∀ x ∈ postJ, x.1 ≠ Itoa pid)
    (hother : ∀ x ∈ pre ++ post, kvLookup (Itoa pid) x.2 = none) :
    GetStateFromPID J none ⟨some (pre ++ (id, preJ ++ (Itoa pid, v) :: postJ) :: post)⟩ pid =
      (some (J.Unmarshal v ProcessState.zero).1, none) := by
  have hlook : kvLookup id (pre ++ (id, preJ ++ (Itoa pid, v) :: postJ) :: post) =
      some (preJ ++ (Itoa pid, v) :: postJ) := by
    rw [kvLookup_append_of_forall_ne id pre _ hpre]
    simp [kvLookup]
  have hrest : ∀ x ∈ pre ++ post, ∀ s : ProcessState,
      (match JobBucket.ForEach
          (fun k v state => if k = Itoa pid then J.Unmarshal v state else (state, none))
          ((RootBucket.Bucket (pre ++ (id, preJ ++ (Itoa pid, v) :: postJ) :: post) x.1).getD [])
          s with
        | (state, _) => ((state, none) : ProcessState × Option Error)) = (s, none) := by
    intro x hx s
    have hxid : x.1 ≠ id := by
      rcases List.mem_append.1 hx with hx | hx
      · exact hpre x hx
      · exact hpost x hx
    cases hl : kvLookup x.1 (pre ++ (id, preJ ++ (Itoa pid, v) :: postJ) :: post) with
    | none => simp [RootBucket.Bucket, hl, JobBucket.ForEach]
    | some job =>
      have hmem : (x.1, job) ∈ pre ++ post :=
        List.mem_append.2 (kvLookup_mem_split pre post id _ job x.1 hxid hl)
      have hno := forall_ne_of_kvLookup_none _ _ (hother (x.1, job) hmem)
      simp only at hno
      simp [RootBucket.Bucket, hl, scan_no_match J (Itoa pid) job s hno]
  unfold GetStateFromPID View
  simp only
  rw [ForEachBucket_one_effect _ pre post id _ ProcessState.zero (fun s => rfl)
    (fun x hx s => hrest x (List.mem_append_left _ hx) s)
    (fun x hx s => hrest x (List.mem_append_right _ hx) s)]
  simp only [RootBucket.Bucket, hlook, Option.getD_some]
  rw [scan_one_match J (Itoa pid) v preJ postJ ProcessState.zero hpreJ hpostJ]

theorem createOrUpdate_ok_inv (J : JSON) (db : Index) (id : Bytes) (state : ProcessState)
    (hok : (CreateOrUpdateCedanaProcess J none db id state).2 = none) :
    id ≠ [] ∧ state.PID ≠ 0 ∧ ∃ v, J.Marshal state = .ok v := by
  have hid : id ≠ [] := by
    intro hid
    simp [CreateOrUpdateCedanaProcess, Update, Index.CreateBucketIfNotExists,
      RootBucket.CreateBucketIfNotExists, hid, bind, Except.bind] at hok
  cases hm : J.Marshal state with
  | error e =>
    exfalso
    cases hl : kvLookup id (db.root.getD []) <;>
      simp [CreateOrUpdateCedanaProcess, Update, Index.CreateBucketIfNotExists,
        RootBucket.CreateBucketIfNotExists, hid, hm, hl, bind, Except.bind] at hok
  | ok v =>
    refine ⟨hid, ?_, v, rfl⟩
    intro hp
    rw [createOrUpdate_eq J db id state v hid hm] at hok
    simp [hp] at hok

theorem WF_getD (db : Index) (h : db.WF) :
    keysSorted (db.root.getD []) ∧ ∀ id job, (id, job) ∈ db.root.getD [] → keysSorted job := by
  cases hr : db.root with
  | none => exact ⟨List.Pairwise.nil, fun id job hmem => by simp at hmem⟩
  | some root => exact h root hr

/-- C5: on a well-formed index, after a successful `CreateOrUpdateCedanaProcess(id, s)` such
that the decimal key of `s.PID` occurs in no other job bucket, `GetStateFromPID(s.PID)`
returns a nil error and a state equal to `s`. The JSON codec is any codec with the
round-trip law. -/
theorem C5_state_by_pid_after_upsert (J : JSON) (hrt : J.RoundTrip) (db : Index) (id : Bytes)
    (s : ProcessState) (hwf : db.WF)
    (hok : (CreateOrUpdateCedanaProcess J none db id s).2 = none)
    (hother : ∀ root id' job, db.root = some root → (id', job) ∈ root → id' ≠ id →
      kvLookup (Itoa s.PID) job = none) :
    GetStateFromPID J none (CreateOrUpdateCedanaProcess J none db id s).1 s.PID =
      (some s, none) := by
  obtain ⟨hid, hp, v, hm⟩ := createOrUpdate_ok_inv J db id s hok
  obtain ⟨hsorted, hjobs⟩ := WF_getD db hwf
  have hother' : ∀ x ∈ db.root.getD [], x.1 ≠ id → kvLookup (Itoa s.PID) x.2 = none := by
    intro x hx hne
    cases hr : db.root with
    | none => rw [hr] at hx; simp at hx
    | some root =>
      rw [hr] at hx
      exact hother root x.1 x.2 hr hx hne
  have hdec : (J.Unmarshal v ProcessState.zero).1 = s := by rw [hrt s v hm]
  rw [createOrUpdate_eq J db id s v hid hm]
  simp only [hp, if_false]
  cases hl : kvLookup id (db.root.getD []) with
  | some job =>
    obtain ⟨pre, post, heq, hpre, hpost⟩ := kvLookup_split id job _ hsorted hl
    have hjob : keysSorted job := hjobs id job (mem_of_kvLookup _ _ _ hl)
    obtain ⟨preJ, postJ, heqJ, hpreJ, hpostJ, _, _⟩ := kvInsert_split (Itoa s.PID) v job hjob
    simp only
    rw [heq, store_split pre post id job _ hpre, heqJ,
      getStateFromPID_unique J s.PID pre post id preJ postJ v hpre hpost hpreJ hpostJ ?_, hdec]
    intro x hx
    refine hother' x ?_ ?_
    · rw [heq]
      rcases List.mem_append.1 hx with hx | hx
      · exact List.mem_append_left _ hx
      · exact List.mem_append_right _ (List.mem_cons_of_mem _ hx)
    · rcases List.mem_append.1 hx with hx | hx
      · exact hpre x hx
      · exact hpost x hx
  | none =>
    obtain ⟨pre, post, heq, hpre, hpost, hprel, hpostl⟩ :=
      kvInsert_split id ([] : JobBucket) (db.root.getD []) hsorted
    have heqJ : kvInsert (Itoa s.PID) v ([] : JobBucket) = [] ++ (Itoa s.PID, v) :: [] := rfl
    simp only
    rw [heq, store_split pre post id [] _ hpre, heqJ,
      getStateFromPID_unique J s.PID pre post id [] [] v hpre hpost (by simp) (by simp) ?_, hdec]
    intro x hx
    rcases List.mem_append.1 hx with hx | hx
    · exact hother' x (hprel x hx) (hpre x hx)
    · exact hother' x (hpostl x hx) (hpost x hx)

/-- C5 on a store that already holds job `j0` with PID 7: upsert of scenario S1 into `j1`. -/
theorem C5_state_by_pid_witness :
    GetStateFromPID refJSON none
      (CreateOrUpdateCedanaProcess refJSON none
        ⟨some [(ascii "j0", [(Itoa 7, RefJSON.printState (stateOfPID 7))])]⟩
        (ascii "j1") exampleState).1 exampleState.PID = (some exampleState, none) :=
  C5_state_by_pid_after_upsert refJSON refJSON_roundTrip
    ⟨some [(ascii "j0", [(Itoa 7, RefJSON.printState (stateOfPID 7))])]⟩
    (ascii "j1") exampleState
    (by
      intro root hr
      injection hr with hr
      subst hr
      refine ⟨by simp [keysSorted], ?_⟩
      intro id job hmem
      simp only [List.mem_singleton, Prod.mk.injEq] at hmem
      rw [hmem.2]
      simp [keysSorted])
    (by decide)
    (by
      intro root id' job hr hmem _
      injection hr with hr
      subst hr
      simp only [List.mem_singleton, Prod.mk.injEq] at hmem
      rw [hmem.2]
      decide)

/-! ## C6: reading by PID when nothing matches -/

theorem getStateFromPID_nil_error (J : JSON) (db : Index) (pid : Int) (root : RootBucket)
    (h : db.root = some root) : (GetStateFromPID J none db pid).2 = none := by
  simp [GetStateFromPID, View, h]

/-- C6 at two inputs. With job `j1` holding only PID 5, `GetStateFromPID(7)` returns the zero
state and a nil error, not "not found". With the value under key `5` not parseable,
`GetStateFromPID(5)` again returns the zero state and a nil error: the decoder's error is
returned to `ForEach`, whose result is dropped. -/
theorem C6_state_by_pid_returns_nil_error :
    GetStateFromPID refJSON none
      ⟨some [(ascii "j1", [(Itoa 5, RefJSON.printState (stateOfPID 5))])]⟩ 7
      = (some ProcessState.zero, none) ∧
    refJSON.Unmarshal (ascii "not json") ProcessState.zero
      = (ProcessState.zero, some "invalid character") ∧
    GetStateFromPID refJSON none ⟨some [(ascii "j1", [(Itoa 5, ascii "not json")])]⟩ 5
      = (some ProcessState.zero, none) := by
  decide

/-! ## C7: update by PID -/

theorem setValue_of_forall_ne (k m : Bytes) (l : JobBucket) (h : ∀ x ∈ l, x.1 ≠ k) :
    setValue k m l = l := by
  induction l with
  | nil => rfl
  | cons p rest ih =>
    obtain ⟨k', v'⟩ := p
    have hp : ¬ k' = k := h (k', v') (List.mem_cons_self _ _)
    have ih' := ih fun x hx => h x (List.mem_cons_of_mem _ hx)
    simp only [setValue, hp, if_false, ih']

theorem setValue_append (k m : Bytes) (l1 l2 : JobBucket) :
    setValue k m (l1 ++ l2) = setValue k m l1 ++ setValue k m l2 := by
  induction l1 with
  | nil => rfl
  | cons p rest ih =>
    obtain ⟨k', v'⟩ := p
    by_cases hp : k' = k
    · simp only [List.cons_append, setValue, hp, if_true]
      exact congrArg (List.cons (k, m)) ih
    · simp only [List.cons_append, setValue, hp, if_false]
      exact congrArg (List.cons (k', v')) ih

theorem setValue_split (k m v0 : Bytes) (pre post : JobBucket)
    (hpre : ∀ x ∈ pre, x.1 ≠ k) (hpost : ∀ x ∈ post, x.1 ≠ k) :
    setValue k m (pre ++ (k, v0) :: post) = pre ++ (k, m) :: post := by
  rw [setValue_append, setValue_of_forall_ne k m pre hpre]
  simp only [setValue, if_true, setValue_of_forall_ne k m post hpost]

theorem setValue_keys (k m : Bytes) (l : JobBucket) :
    (setValue k m l).map Prod.fst = l.map Prod.fst := by
  induction l with
  | nil => rfl
  | cons p rest ih =>
    obtain ⟨k', v'⟩ := p
    by_cases hp : k' = k
    · simp only [setValue, hp, if_true, List.map_cons, ih]
    · simp only [setValue, hp, if_false, List.map_cons, ih]

theorem kvLookup_setValue_self (k m v : Bytes) (l : JobBucket) (h : kvLookup k l = some v) :
    kvLookup k (setValue k m l) = some m := by
  induction l with
  | nil => simp [kvLookup] at h
  | cons p rest ih =>
    obtain ⟨k', v'⟩ := p
    by_cases hk : k = k'
    · subst hk
      simp [setValue, kvLookup]
    · have hk' : ¬ k' = k := fun e => hk e.symm
      simp only [kvLookup, hk, if_false] at h
      simp only [setValue, hk', if_false, kvLookup, hk, ih h]

theorem kvLookup_setValue_ne (k m k2 : Bytes) (l : JobBucket) (h : k2 ≠ k) :
    kvLookup k2 (setValue k m l) = kvLookup k2 l := by
  induction l with
  | nil => rfl
  | cons p rest ih =>
    obtain ⟨k', v'⟩ := p
    by_cases hk : k' = k
    · subst hk
      simp only [setValue, if_true, kvLookup, h, if_false, ih]
    · simp only [setValue, hk, if_false, kvLookup, ih]

theorem kvInsert_replace (k m v0 : Bytes) (pre post : JobBucket)
    (hpre : ∀ x ∈ pre, bytesLt x.1 k = true) :
    kvInsert k m (pre ++ (k, v0) :: post) = pre ++ (k, m) :: post := by
  induction pre with
  | nil => simp [kvInsert]
  | cons p rest ih =>
    obtain ⟨k', v'⟩ := p
    have hlt : bytesLt k' k = true := hpre (k', v') (List.mem_cons_self _ _)
    have hne : ¬ k = k' := fun e => ne_of_bytesLt _ _ hlt e.symm
    have hnlt : ¬ bytesLt k k' = true := by
      intro h2
      have := bytesLt_trans _ _ _ hlt h2
      rw [bytesLt_irrefl] at this
      cases this
    have ih' := ih fun x hx => hpre x (List.mem_cons_of_mem _ hx)
    rw [List.cons_append, List.cons_append]
    unfold kvInsert
    rw [if_neg hne, if_neg hnlt, ih']

theorem ForEach_no_effect {σ : Type} (fn : Bytes → Bytes → σ → σ × Option Error)
    (l : JobBucket) (cur : σ) (h : ∀ x ∈ l, ∀ s, fn x.1 x.2 s = (s, none)) :
    JobBucket.ForEach fn l cur = (cur, none) := by
  induction l with
  | nil => rfl
  | cons p rest ih =>
    obtain ⟨k', v'⟩ := p
    have hk := h (k', v') (List.mem_cons_self _ _) cur
    simp only at hk
    simp only [JobBucket.ForEach, hk]
    exact ih fun x hx => h x (List.mem_cons_of_mem _ hx)

theorem ForEach_skip {σ : Type} (fn : Bytes → Bytes → σ → σ × Option Error)
    (pre l : JobBucket) (cur : σ) (h : ∀ x ∈ pre, ∀ s, fn x.1 x.2 s = (s, none)) :
    JobBucket.ForEach fn (pre ++ l) cur = JobBucket.ForEach fn l cur := by
  induction pre with
  | nil => rfl
  | cons p rest ih =>
    obtain ⟨k', v'⟩ := p
    have hk := h (k', v') (List.mem_cons_self _ _) cur
    simp only at hk
    simp only [List.cons_append, JobBucket.ForEach, hk]
    exact ih fun x hx => h x (List.mem_cons_of_mem _ hx)

theorem updateScan_eq (J : JSON) (state : ProcessState) (key m : Bytes) (job : JobBucket)
    (hm : J.Marshal state = .ok m) (hkey : key ≠ []) (hjob : keysSorted job) :
    JobBucket.ForEach (fun k _ (job : JobBucket) =>
        if k = key then
          match J.Marshal state with
          | .error err => (job, some err)
          | .ok marshaledState =>
            match job.Put k marshaledState with
            | .ok job' => (job', none)
            | .error err => (job, some err)
        else (job, none)) job job = (setValue key m job, none) := by
  generalize hfn : (fun k (_ : Bytes) (job : JobBucket) =>
        if k = key then
          match J.Marshal state with
          | .error err => (job, some err)
          | .ok marshaledState =>
            match job.Put k marshaledState with
            | .ok job' => (job', none)
            | .error err => (job, some err)
        else (job, none)) = fn
  have hmatch : ∀ v cur, fn key v cur = (kvInsert key m cur, none) := by
    intro v cur
    subst hfn
    simp [hm, JobBucket.Put, hkey]
  have hskip : ∀ l : JobBucket, (∀ x ∈ l, x.1 ≠ key) → ∀ x ∈ l, ∀ s, fn x.1 x.2 s = (s, none) := by
    intro l hl x hx s
    subst hfn
    simp [hl x hx]
  cases hl : kvLookup key job with
  | none =>
    have hno := forall_ne_of_kvLookup_none _ _ hl
    rw [ForEach_no_effect fn job job (hskip job hno), setValue_of_forall_ne key m job hno]
  | some v0 =>
    obtain ⟨pre, post, heq, hpre, hpost⟩ := kvLookup_split key v0 job hjob hl
    have hlt : ∀ x ∈ pre, bytesLt x.1 key = true := by
      intro x hx
      rw [heq] at hjob
      exact (List.pairwise_append.1 hjob).2.2 x hx (key, v0) (List.mem_cons_self _ _)
    rw [heq, setValue_split key m v0 pre post hpre hpost, ForEach_skip fn pre _ _ (hskip pre hpre)]
    simp only [JobBucket.ForEach, hmatch, kvInsert_replace key m v0 pre post hlt]
    exact ForEach_no_effect fn post _ (hskip post hpost)

theorem ForEachBucket_store_all (key m : Bytes)
    (fn : Bytes → RootBucket → RootBucket × Option Error)
    (hfn : ∀ (k : Bytes) (job : JobBucket) (root : RootBucket),
      kvLookup k root = some job → keysSorted job →
      fn k root = (RootBucket.store root k (setValue key m job), none))
    (todo done' : RootBucket) (hsorted : keysSorted todo)
    (hdone : ∀ y ∈ done', ∀ x ∈ todo, y.1 ≠ x.1) (hjobs : ∀ x ∈ todo, keysSorted x.2) :
    RootBucket.ForEachBucket fn todo (done' ++ todo) =
      (done' ++ setValueAll key m todo, none) := by
  induction todo generalizing done' with
  | nil => rfl
  | cons p rest ih =>
    obtain ⟨k, job⟩ := p
    have hlook : kvLookup k (done' ++ (k, job) :: rest) = some job := by
      rw [kvLookup_append_of_forall_ne k done' _
        (fun y hy => hdone y hy (k, job) (List.mem_cons_self _ _))]
      simp [kvLookup]
    have hstep := hfn k job _ hlook (hjobs (k, job) (List.mem_cons_self _ _))
    rw [store_split done' rest k job _
      (fun y hy => hdone y hy (k, job) (List.mem_cons_self _ _))] at hstep
    simp only [RootBucket.ForEachBucket, hstep, setValueAll]
    have happ : done' ++ (k, setValue key m job) :: rest =
        (done' ++ [(k, setValue key m job)]) ++ rest := by simp
    have happ2 : done' ++ (k, setValue key m job) :: setValueAll key m rest =
        (done' ++ [(k, setValue key m job)]) ++ setValueAll key m rest := by simp
    rw [happ, happ2]
    refine ih _ (keysSorted_tail _ _ hsorted) ?_
      (fun x hx => hjobs x (List.mem_cons_of_mem _ hx))
    intro y hy x hx
    rcases List.mem_append.1 hy with hy | hy
    · exact hdone y hy x (List.mem_cons_of_mem _ hx)
    · simp only [List.mem_singleton] at hy
      rw [hy]
      exact (keysSorted_head_ne (k, job) rest hsorted x hx).symm

theorem setValueAll_names (k m : Bytes) (root : RootBucket) :
    (setValueAll k m root).map Prod.fst = root.map Prod.fst := by
  induction root with
  | nil => rfl
  | cons p rest ih =>
    obtain ⟨id, job⟩ := p
    simp only [setValueAll, List.map_cons, ih]

theorem kvLookup_setValueAll (k m : Bytes) (root : RootBucket) (id : Bytes) (job : JobBucket)
    (hsorted : keysSorted root) (hmem : (id, job) ∈ root) :
    kvLookup id (setValueAll k m root) = some (setValue k m job) := by
  induction root with
  | nil => simp at hmem
  | cons p rest ih =>
    obtain ⟨id', job'⟩ := p
    rcases List.mem_cons.1 hmem with h | h
    · injection h with h1 h2
      subst h1 h2
      simp [setValueAll, kvLookup]
    · have hne : ¬ id = id' := keysSorted_head_ne (id', job') rest hsorted (id, job) h
      simp only [setValueAll, kvLookup, hne, if_false]
      exact ih (keysSorted_tail _ _ hsorted) h

theorem setValueAll_of_absent (k m : Bytes) (root : RootBucket)
    (h : ∀ x ∈ root, kvLookup k x.2 = none) : setValueAll k m root = root := by
  induction root with
  | nil => rfl
  | cons p rest ih =>
    obtain ⟨id, job⟩ := p
    have h1 : setValue k m job = job :=
      setValue_of_forall_ne k m job
        (forall_ne_of_kvLookup_none _ _ (h (id, job) (List.mem_cons_self _ _)))
    simp only [setValueAll, h1, ih fun x hx => h x (List.mem_cons_of_mem _ hx)]

theorem updateWithPID_eq (J : JSON) (db : Index) (pid : Int) (s : ProcessState) (m : Bytes)
    (root : RootBucket) (hwf : db.WF) (hm : J.Marshal s = .ok m) (hr : db.root = some root) :
    UpdateProcessStateWithPID J none db pid s = (⟨some (setValueAll (Itoa pid) m root)⟩, none) := by
  obtain ⟨hsorted, hjobs⟩ := hwf root hr
  have hfn : ∀ (k : Bytes) (job : JobBucket) (cur : RootBucket),
      kvLookup k cur = some job → keysSorted job →
      (match cur.Bucket k with
        | none => (cur, some "could not find job")
        | some job =>
          match JobBucket.ForEach (fun k _ (job : JobBucket) =>
              if k = Itoa pid then
                match J.Marshal s with
                | .error err => (job, some err)
                | .ok marshaledState =>
                  match job.Put k marshaledState with
                  | .ok job' => (job', none)
                  | .error err => (job, some err)
              else (job, none)) job job with
          | (job, _) => ((cur.store k job, none) : RootBucket × Option Error)) =
        (cur.store k (setValue (Itoa pid) m job), none) := by
    intro k job cur hl hj
    simp only [RootBucket.Bucket, hl, updateScan_eq J s (Itoa pid) m job hm (Itoa_ne_nil pid) hj]
  have hall := ForEachBucket_store_all (Itoa pid) m _ hfn root [] hsorted
    (fun y hy => by simp at hy) (fun x hx => hjobs x.1 x.2 hx)
  simp only [List.nil_append] at hall
  unfold UpdateProcessStateWithPID Update
  simp only [hr, hall]

/-- C7: on a well-formed index and for a state that marshals, after
`UpdateProcessStateWithPID(pid, s)` the names of the job buckets are unchanged, every job
bucket keeps its keys, every job bucket that contained the key `decimal(pid)` maps it to the
JSON encoding of `s`, and the value of every other key is unchanged; if no bucket contained
the key, the whole index is unchanged. -/
theorem C7_update_by_pid_frame (J : JSON) (db : Index) (pid : Int) (s : ProcessState)
    (m : Bytes) (hwf : db.WF) (hm : J.Marshal s = .ok m) :
    (∀ root, db.root = some root →
      ∃ root', (UpdateProcessStateWithPID J none db pid s).1.root = some root' ∧
        root'.map Prod.fst = root.map Prod.fst ∧
        ∀ id job, (id, job) ∈ root →
          ∃ job', root'.Bucket id = some job' ∧
            job'.map Prod.fst = job.map Prod.fst ∧
            (∀ v, kvLookup (Itoa pid) job = some v → kvLookup (Itoa pid) job' = some m) ∧
            (∀ k, k ≠ Itoa pid → kvLookup k job' = kvLookup k job)) ∧
    ((∀ root id job, db.root = some root → (id, job) ∈ root →
        kvLookup (Itoa pid) job = none) →
      (UpdateProcessStateWithPID J none db pid s).1 = db) := by
  constructor
  · intro root hr
    rw [updateWithPID_eq J db pid s m root hwf hm hr]
    refine ⟨_, rfl, setValueAll_names _ _ _, ?_⟩
    intro id job hmem
    exact ⟨_, kvLookup_setValueAll _ _ root id job (hwf root hr).1 hmem, setValue_keys _ _ _,
      fun v hv => kvLookup_setValue_self _ _ v job hv,
      fun k hk => kvLookup_setValue_ne _ _ k job hk⟩
  · intro habsent
    cases hr : db.root with
    | none =>
      simp [UpdateProcessStateWithPID, Update, hr]
    | some root =>
      rw [updateWithPID_eq J db pid s m root hwf hm hr,
        setValueAll_of_absent _ _ root fun x hx => habsent root x.1 x.2 hr hx]
      cases db
      simp only at hr
      rw [hr]

/-- C7 on a store with jobs `j0` (PIDs 7 and 4242) and `j1` (PID 4242): update of PID 4242. -/
theorem C7_update_by_pid_witness :
    ∃ root', (UpdateProcessStateWithPID refJSON none
        ⟨some [(ascii "j0", [(Itoa 4242, RefJSON.printState (stateOfPID 4242)),
                             (Itoa 7, RefJSON.printState (stateOfPID 7))]),
               (ascii "j1", [(Itoa 4242, RefJSON.printState (stateOfPID 4242))])]⟩
        4242 exampleState).1.root = some root' ∧
      root'.map Prod.fst = [ascii "j0", ascii "j1"] ∧
      ∀ id job, (id, job) ∈
          [(ascii "j0", [(Itoa 4242, RefJSON.printState (stateOfPID 4242)),
                         (Itoa 7, RefJSON.printState (stateOfPID 7))]),
           (ascii "j1", [(Itoa 4242, RefJSON.printState (stateOfPID 4242))])] →
        ∃ job', root'.Bucket id = some job' ∧
          job'.map Prod.fst = job.map Prod.fst ∧
          (∀ v, kvLookup (Itoa 4242) job = some v →
            kvLookup (Itoa 4242) job' = some (RefJSON.printState exampleState)) ∧
          (∀ k, k ≠ Itoa 4242 → kvLookup k job' = kvLookup k job) :=
  (C7_update_by_pid_frame refJSON
    ⟨some [(ascii "j0", [(Itoa 4242, RefJSON.printState (stateOfPID 4242)),
                         (Itoa 7, RefJSON.printState (stateOfPID 7))]),
           (ascii "j1", [(Itoa 4242, RefJSON.printState (stateOfPID 4242))])]⟩
    4242 exampleState (RefJSON.printState exampleState)
    (by
      intro root hr
      injection hr with hr
      subst hr
      refine ⟨by unfold keysSorted; decide, ?_⟩
      intro id job hmem
      simp only [List.mem_cons, List.mem_singleton, Prod.mk.injEq, List.not_mem_nil,
        or_false] at hmem
      rcases hmem with ⟨_, h⟩ | ⟨_, h⟩ <;> rw [h] <;> unfold keysSorted <;> decide)
    rfl).1 _ rfl

/-! ## C8: the checkpoints of a job -/

theorem collect_all_decoded (J : JSON) (l : JobBucket) (acc : List Bytes)
    (hdec : ∀ x ∈ l, (J.Unmarshal x.2 ProcessState.zero).2 = none) :
    JobBucket.ForEach (fun _ v (checkpoints : List Bytes) =>
        match J.Unmarshal v ProcessState.zero with
        | (_, some err) => (checkpoints, some err)
        | (state, none) => (checkpoints ++ [state.CheckpointPath], none)) l acc =
      (acc ++ l.map (fun x => (J.Unmarshal x.2 ProcessState.zero).1.CheckpointPath), none) := by
  induction l generalizing acc with
  | nil => simp [JobBucket.ForEach]
  | cons p rest ih =>
    obtain ⟨k, v⟩ := p
    have h1 := hdec (k, v) (List.mem_cons_self _ _)
    simp only at h1
    cases hu : J.Unmarshal v ProcessState.zero with
    | mk st err =>
      rw [hu] at h1
      simp only at h1
      subst h1
      simp only [JobBucket.ForEach, hu, List.map_cons]
      rw [ih _ fun x hx => hdec x (List.mem_cons_of_mem _ hx)]
      simp

/-- Where every stored value decodes, `GetLatestLocalCheckpoints` returns one path per entry,
in cursor order, and a nil error. -/
theorem getLatestLocalCheckpoints_all_decoded (J : JSON) (db : Index) (id : Bytes)
    (root : RootBucket) (job : JobBucket) (hr : db.root = some root)
    (hj : root.Bucket id = some job)
    (hdec : ∀ x ∈ job, (J.Unmarshal x.2 ProcessState.zero).2 = none) :
    GetLatestLocalCheckpoints J none db id =
      (job.map (fun x => (J.Unmarshal x.2 ProcessState.zero).1.CheckpointPath), none) := by
  unfold GetLatestLocalCheckpoints View
  simp only [hr, hj, collect_all_decoded J job [] hdec, List.nil_append]

/-- C8 at a job with three entries of which the second cannot be decoded:
`GetLatestLocalCheckpoints` returns the one path read before it and a nil error, a shortened
list instead of the decoder's error, which `ForEach` returned and the method dropped. -/
theorem C8_list_checkpoints_shortened_without_error :
    refJSON.Unmarshal (ascii "not json") ProcessState.zero
      = (ProcessState.zero, some "invalid character") ∧
    GetLatestLocalCheckpoints refJSON none
      ⟨some [(ascii "j1",
        [(Itoa 1, RefJSON.printState ⟨1, ⟨[], []⟩, ascii "/tmp/a.tar", false⟩),
         (Itoa 2, ascii "not json"),
         (Itoa 3, RefJSON.printState ⟨3, ⟨[], []⟩, ascii "/tmp/c.tar", false⟩)])]⟩
      (ascii "j1") = ([ascii "/tmp/a.tar"], none) := by
  decide

/-! ## C9 and C10: the request/response loop -/

theorem swrkLoop_hook_error {σ : Type} (nfy : Notify σ) (pre : List CriuResp) (r : CriuResp)
    (rest : List Exchange) (req : CriuReq) (st st1 st2 : σ) (sent : List CriuReq) (e : Error)
    (hpre : ∀ x ∈ pre, x.Success = true ∧ x.Typ = .NOTIFY)
    (hhooks : hooksSucceed nfy pre st = some st1)
    (hr : r.Success = true ∧ r.Typ = .NOTIFY)
    (hfail : dispatch nfy r.Notify st1 = (st2, some e)) :
    swrkLoop (some nfy) (pre.map .response ++ .response r :: rest) req st sent =
      ⟨some r, some e, sent ++ req :: List.replicate pre.length (ackReq .NOTIFY), st2, false⟩ := by
  induction pre generalizing req st sent with
  | nil =>
    simp only [hooksSucceed] at hhooks
    injection hhooks with hhooks
    subst hhooks
    simp [swrkLoop, hr.1, hr.2, hfail]
  | cons x xs ih =>
    obtain ⟨hx1, hx2⟩ := hpre x (List.mem_cons_self _ _)
    simp only [hooksSucceed] at hhooks
    cases hd : dispatch nfy x.Notify st with
    | mk st' err =>
      rw [hd] at hhooks
      cases err with
      | some e' => simp at hhooks
      | none =>
        simp only at hhooks
        simp only [List.map_cons, List.cons_append, swrkLoop, hx1, hx2, hd]
        simp only [Bool.not_true, Bool.false_eq_true, if_false, ne_eq, not_true_eq_false]
        refine (ih (ackReq .NOTIFY) st' (sent ++ [req])
          (fun y hy => hpre y (List.mem_cons_of_mem _ hy)) hhooks).trans ?_
        simp [List.replicate_succ]

theorem swrkLoop_terminal {σ : Type} (nfy : Notify σ) (pre : List CriuResp) (t : CriuResp)
    (rest : List Exchange) (req : CriuReq) (st st1 : σ) (sent : List CriuReq)
    (hpre : ∀ x ∈ pre, x.Success = true ∧ x.Typ = .NOTIFY)
    (hhooks : hooksSucceed nfy pre st = some st1)
    (ht : t.Success = true ∧ t.Typ ≠ .NOTIFY) :
    swrkLoop (some nfy) (pre.map .response ++ .response t :: rest) req st sent =
      ⟨some t, none, sent ++ req :: List.replicate pre.length (ackReq .NOTIFY), st1, false⟩ := by
  induction pre generalizing req st sent with
  | nil =>
    simp only [hooksSucceed] at hhooks
    injection hhooks with hhooks
    subst hhooks
    simp [swrkLoop, ht.1, ht.2]
  | cons x xs ih =>
    obtain ⟨hx1, hx2⟩ := hpre x (List.mem_cons_self _ _)
    simp only [hooksSucceed] at hhooks
    cases hd : dispatch nfy x.Notify st with
    | mk st' err =>
      rw [hd] at hhooks
      cases err with
      | some e' => simp at hhooks
      | none =>
        simp only at hhooks
        simp only [List.map_cons, List.cons_append, swrkLoop, hx1, hx2, hd]
        simp only [Bool.not_true, Bool.false_eq_true, if_false, ne_eq, not_true_eq_false]
        refine (ih (ackReq .NOTIFY) st' (sent ++ [req])
          (fun y hy => hpre y (List.mem_cons_of_mem _ hy)) hhooks).trans ?_
        simp [List.replicate_succ]

/-- C9: in the loop of `doSwrkWithResp` with a handler, when the engine's responses are
successful notifications whose hooks succeed, followed by a notification whose hook returns
the error `e` (and anything after it), the loop stops at that notification: the requests
written are the original request and one acknowledgement for each earlier notification, none
for the failing one or later; `doSwrkWithResp` returns that notification with `e`, and
`doSwrk`, `Dump` and `Restore` return no response and exactly `e`. -/
theorem C9_hook_error_aborts_without_ack {σ : Type} (nfy : Notify σ) (st st1 st2 : σ)
    (reqType : CriuReqType) (opts : CriuOpts) (extraFiles : List Nat) (pre : List CriuResp)
    (r : CriuResp) (rest : List Exchange) (waitErr : Option Error) (e : Error)
    (hpre : ∀ x ∈ pre, x.Success = true ∧ x.Typ = .NOTIFY)
    (hhooks : hooksSucceed nfy pre st = some st1)
    (hr : r.Success = true ∧ r.Typ = .NOTIFY)
    (hfail : dispatch nfy r.Notify st1 = (st2, some e)) :
    Criu.doSwrkWithResp ⟨none, none, pre.map .response ++ .response r :: rest, waitErr⟩ st
        reqType (some opts) (some nfy) extraFiles none =
      .ret ⟨some r, some e,
        ⟨reqType, some { opts with NotifyScripts := some true }, none, none⟩ ::
          List.replicate pre.length (ackReq .NOTIFY), st2, false⟩ ∧
    Criu.doSwrk ⟨none, none, pre.map .response ++ .response r :: rest, waitErr⟩ st
        reqType (some opts) (some nfy) extraFiles =
      .ret ⟨none, some e,
        ⟨reqType, some { opts with NotifyScripts := some true }, none, none⟩ ::
          List.replicate pre.length (ackReq .NOTIFY), st2, false⟩ ∧
    Criu.Dump ⟨none, none, pre.map .response ++ .response r :: rest, waitErr⟩ st
        (some opts) (some nfy) =
      .ret ⟨none, some e,
        ⟨.DUMP, some { opts with NotifyScripts := some true }, none, none⟩ ::
          List.replicate pre.length (ackReq .NOTIFY), st2, false⟩ ∧
    Criu.Restore ⟨none, none, pre.map .response ++ .response r :: rest, waitErr⟩ st
        (some opts) (some nfy) extraFiles =
      .ret ⟨none, some e,
        ⟨.RESTORE, some { opts with NotifyScripts := some true }, none, none⟩ ::
          List.replicate pre.length (ackReq .NOTIFY), st2, false⟩ := by
  have hloop := fun req => swrkLoop_hook_error nfy pre r rest req st st1 st2 [] e hpre hhooks
    hr hfail
  refine ⟨?_, ?_, ?_, ?_⟩ <;>
    simp [Criu.Dump, Criu.Restore, Criu.doSwrk, Criu.doSwrkWithResp, hloop]

/-- C9 at scenario S4: a restore whose `pre-resume` hook fails because the GPU agent replied
`success = false`; the two earlier notifications are acknowledged, `pre-resume` is not, and
the terminal response of the engine is never read. -/
theorem C9_gpu_restore_failure_witness :
    Criu.Restore
        ⟨none, none,
          [.response (notifyResp "pre-restore" 0), .response (notifyResp "post-restore" 5151),
           .response (notifyResp "pre-resume" 0), .response (terminalResp .RESTORE 5151)],
          none⟩
        0 (some restoreOpts) (some (gpuFailingNotify "could not restore gpu")) [] =
      .ret ⟨none, some "could not restore gpu",
        [⟨.RESTORE, some { restoreOpts with NotifyScripts := some true }, none, none⟩,
         ackReq .NOTIFY, ackReq .NOTIFY], 3, false⟩ :=
  (C9_hook_error_aborts_without_ack (gpuFailingNotify "could not restore gpu") 0 2 3 .RESTORE
    restoreOpts [] [notifyResp "pre-restore" 0, notifyResp "post-restore" 5151]
    (notifyResp "pre-resume" 0) [.response (terminalResp .RESTORE 5151)] none
    "could not restore gpu" (by decide) (by decide) (by decide) (by decide)).2.2.2

/-- C10: for every request type `T`, when the engine's responses are `k` successful
notifications whose hooks succeed followed by one successful response of a type `R` other
than `NOTIFY`, and the child exits with status 0, `doSwrk` writes the original request once
and then exactly `k` acknowledgements with `notify_success = true`, and returns the terminal
response with a nil error if `R = T`, and no response with the error
`unexpected CRIU RPC response` if `R ≠ T`. -/
theorem C10_notifications_then_terminal {σ : Type} (nfy : Notify σ) (st st1 : σ)
    (T : CriuReqType) (opts : CriuOpts) (extraFiles : List Nat) (pre : List CriuResp)
    (t : CriuResp) (rest : List Exchange)
    (hpre : ∀ x ∈ pre, x.Success = true ∧ x.Typ = .NOTIFY)
    (hhooks : hooksSucceed nfy pre st = some st1)
    (ht : t.Success = true ∧ t.Typ ≠ .NOTIFY) :
    Criu.doSwrk ⟨none, none, pre.map .response ++ .response t :: rest, none⟩ st
        T (some opts) (some nfy) extraFiles =
      .ret ⟨if t.Typ = T then some t else none,
        if t.Typ = T then none else some "unexpected CRIU RPC response",
        ⟨T, some { opts with NotifyScripts := some true }, none, none⟩ ::
          List.replicate pre.length (ackReq .NOTIFY), st1, true⟩ := by
  have hloop := fun req => swrkLoop_terminal nfy pre t rest req st st1 [] hpre hhooks ht
  by_cases hT : t.Typ = T
  · simp [Criu.doSwrk, Criu.doSwrkWithResp, hloop, GetType, hT]
  · simp [Criu.doSwrk, Criu.doSwrkWithResp, hloop, GetType, hT]

/-- C10 at a dump with two notifications: the request, two acknowledgements, and the
terminal `DUMP` response returned with a nil error. -/
theorem C10_dump_witness :
    Criu.doSwrk
        ⟨none, none,
          [.response (notifyResp "pre-dump" 0), .response (notifyResp "post-dump" 0),
           .response (terminalResp .DUMP 0)],
          none⟩
        0 .DUMP (some restoreOpts) (some (gpuFailingNotify "could not restore gpu")) [] =
      .ret ⟨some (terminalResp .DUMP 0), none,
        [⟨.DUMP, some { restoreOpts with NotifyScripts := some true }, none, none⟩,
         ackReq .NOTIFY, ackReq .NOTIFY], 2, true⟩ :=
  C10_notifications_then_terminal (gpuFailingNotify "could not restore gpu") 0 2 .DUMP
    restoreOpts [] [notifyResp "pre-dump" 0, notifyResp "post-dump" 0] (terminalResp .DUMP 0) []
    (by decide) (by decide) (by decide)

/-! ## Every store the methods build is well-formed -/

theorem bytesLt_total (a b : Bytes) (hne : a ≠ b) (h : bytesLt a b = false) :
    bytesLt b a = true := by
  induction a generalizing b with
  | nil =>
    cases b with
    | nil => exact absurd rfl hne
    | cons y ys => simp [bytesLt] at h
  | cons x xs ih =>
    cases b with
    | nil => rfl
    | cons y ys =>
      simp only [bytesLt] at h ⊢
      by_cases hxy : x < y
      · simp [hxy] at h
      · by_cases hyx : y < x
        · simp [hyx]
        · have hxy' : x = y := by omega
          subst hxy'
          simp only [hxy, if_false] at h ⊢
          exact ih ys (fun e => hne (by rw [e])) h

theorem keysSorted_kvInsert {β : Type} (k : Bytes) (v : β) (l : List (Bytes × β))
    (h : keysSorted l) : keysSorted (kvInsert k v l) := by
  induction l with
  | nil => simp [kvInsert, keysSorted]
  | cons p rest ih =>
    obtain ⟨k', v'⟩ := p
    have hhead := (List.pairwise_cons.1 h).1
    have htail := (List.pairwise_cons.1 h).2
    unfold kvInsert
    by_cases hk : k = k'
    · subst hk
      rw [if_pos rfl]
      exact List.pairwise_cons.2 ⟨hhead, htail⟩
    · rw [if_neg hk]
      by_cases hlt : bytesLt k k' = true
      · rw [if_pos hlt]
        refine List.pairwise_cons.2 ⟨?_, h⟩
        intro x hx
        rcases List.mem_cons.1 hx with hx | hx
        · rw [hx]; exact hlt
        · exact bytesLt_trans _ _ _ hlt (hhead x hx)
      · rw [if_neg hlt]
        refine List.pairwise_cons.2 ⟨?_, ih htail⟩
        intro x hx
        rcases mem_kvInsert _ _ _ _ hx with hx | hx
        · rw [hx]
          exact bytesLt_total k k' hk (by simpa using hlt)
        · exact hhead x hx

theorem store_names (root : RootBucket) (id : Bytes) (job : JobBucket) :
    (root.store id job).map Prod.fst = root.map Prod.fst := by
  induction root with
  | nil => rfl
  | cons p rest ih =>
    obtain ⟨k', v'⟩ := p
    by_cases hk : k' = id
    · simp [RootBucket.store, hk]
    · simp [RootBucket.store, hk, ih]

theorem keysSorted_of_names {β γ : Type} (l : List (Bytes × β)) (l' : List (Bytes × γ))
    (hn : l'.map Prod.fst = l.map Prod.fst) (h : keysSorted l) : keysSorted l' := by
  have h1 : List.Pairwise (fun a b => bytesLt a b = true) (l.map Prod.fst) :=
    List.pairwise_map.2 h
  rw [← hn] at h1
  exact List.pairwise_map.1 h1

/-- Sub-bucket names ascending and keys ascending in every job bucket. -/
theorem WF_store (root : RootBucket) (id : Bytes) (job : JobBucket)
    (hroot : keysSorted root ∧ ∀ id' job', (id', job') ∈ root → keysSorted job')
    (hjob : keysSorted job) :
    keysSorted (root.store id job) ∧
      ∀ id' job', (id', job') ∈ root.store id job → keysSorted job' := by
  refine ⟨keysSorted_of_names root _ (store_names root id job) hroot.1, ?_⟩
  intro id' job' hmem
  rcases mem_store _ _ _ _ hmem with h | h
  · exact hroot.2 id' job' h
  · simp only at h
    rw [h]
    exact hjob

theorem createOrUpdate_WF (J : JSON) (db : Index) (id : Bytes) (state : ProcessState)
    (h : db.WF) : (CreateOrUpdateCedanaProcess J none db id state).1.WF := by
  by_cases herr : (CreateOrUpdateCedanaProcess J none db id state).2 ≠ none
  · rw [createOrUpdate_rollback J none db id state herr]
    exact h
  · have hok : (CreateOrUpdateCedanaProcess J none db id state).2 = none := by
      cases hc : (CreateOrUpdateCedanaProcess J none db id state).2 with
      | none => rfl
      | some e => exact absurd (by rw [hc]; simp) herr
    obtain ⟨hid, hp, v, hm⟩ := createOrUpdate_ok_inv J db id state hok
    have hwf := WF_getD db h
    rw [createOrUpdate_eq J db id state v hid hm]
    simp only [hp, if_false]
    cases hl : kvLookup id (db.root.getD []) with
    | some job =>
      intro root hr
      injection hr with hr
      subst hr
      exact WF_store _ _ _ hwf
        (keysSorted_kvInsert _ _ _ (hwf.2 id job (mem_of_kvLookup _ _ _ hl)))
    | none =>
      intro root hr
      injection hr with hr
      subst hr
      refine WF_store _ _ _ ⟨keysSorted_kvInsert _ _ _ hwf.1, ?_⟩
        (keysSorted_kvInsert _ _ _ List.Pairwise.nil)
      intro id' job' hmem
      rcases mem_kvInsert _ _ _ _ hmem with h1 | h1
      · injection h1 with _ h2
        rw [h2]
        exact List.Pairwise.nil
      · exact hwf.2 id' job' h1

theorem updateWithID_WF (J : JSON) (db : Index) (id : Bytes) (state : ProcessState)
    (h : db.WF) : (UpdateProcessStateWithID J none db id state).1.WF := by
  have hwf := WF_getD db h
  unfold UpdateProcessStateWithID Update
  simp only [Index.CreateBucketIfNotExists, bind, Except.bind, pure, Except.pure]
  cases hm : J.Marshal state with
  | error e => exact h
  | ok m =>
    simp only [RootBucket.Bucket]
    cases hl : kvLookup id (db.root.getD []) with
    | none => exact h
    | some job =>
      intro root hr
      injection hr with hr
      subst hr
      refine WF_store _ _ _ hwf ?_
      refine JobBucket.ForEach_induct _ keysSorted job job
        (hwf.2 id job (mem_of_kvLookup _ _ _ hl)) ?_
      intro k v cur _ hcur
      cases ha : Atoi k with
      | error e => exact hcur
      | ok pid =>
        simp only
        by_cases heq : pid = state.PID
        · by_cases hne : k = []
          · simpa [heq, JobBucket.Put, hne] using hcur
          · simp only [heq, if_true, JobBucket.Put, hne, if_false]
            exact keysSorted_kvInsert _ _ _ hcur
        · simpa [heq] using hcur

theorem updateWithPID_WF (J : JSON) (db : Index) (pid : Int) (state : ProcessState)
    (h : db.WF) : (UpdateProcessStateWithPID J none db pid state).1.WF := by
  unfold UpdateProcessStateWithPID Update
  cases hr : db.root with
  | none => simp only [hr]; exact h
  | some root0 =>
    simp only [hr]
    intro root hr'
    injection hr' with hr'
    subst hr'
    refine RootBucket.ForEachBucket_induct _
      (fun r : RootBucket => keysSorted r ∧ ∀ id' job', (id', job') ∈ r → keysSorted job')
      root0 root0 (h root0 hr) ?_
    intro name cur hcur
    simp only [RootBucket.Bucket]
    cases hl : kvLookup name cur with
    | none => exact hcur
    | some job =>
      refine WF_store _ _ _ hcur ?_
      refine JobBucket.ForEach_induct _ keysSorted job job
        (hcur.2 name job (mem_of_kvLookup _ _ _ hl)) ?_
      intro k v curJob _ hcurJob
      by_cases heq : k = Itoa pid
      · cases hm : J.Marshal state with
        | error e => simpa [heq, hm] using hcurJob
        | ok m =>
          simp only [heq, if_true, hm, JobBucket.Put, Itoa_ne_nil pid, if_false]
          exact keysSorted_kvInsert _ _ _ hcurJob
      · simpa [heq] using hcurJob

/-- Every store reached from a well-formed one by calls of the writing methods is
well-formed; in particular every store reached from the empty one. -/
theorem runCalls_WF (J : JSON) (calls : List DBCall) (db : Index) (h : db.WF) :
    (runCalls J db calls).WF := by
  induction calls generalizing db with
  | nil => exact h
  | cons c rest ih =>
    simp only [runCalls, List.foldl_cons]
    refine ih _ ?_
    cases c with
    | createOrUpdate id state => exact createOrUpdate_WF J db id state h
    | updateWithID id state => exact updateWithID_WF J db id state h
    | updateWithPID pid state => exact updateWithPID_WF J db pid state h

theorem empty_WF : Index.empty.WF := by
  intro root hr
  simp [Index.empty] at hr

/-! ## C11: the dispatcher -/

theorem lookup_cons_ne {β : Type} (a k : String) (b : β) (es : List (String × β)) (h : a ≠ k) :
    List.lookup a ((k, b) :: es) = List.lookup a es := by
  have hb : (a == k) = false := by simpa using h
  simp only [List.lookup, hb]

theorem expectedCall_unknown (s : String) (pid : Int)
    (h1 : s ≠ "pre-dump") (h2 : s ≠ "post-dump") (h3 : s ≠ "pre-restore")
    (h4 : s ≠ "post-restore") (h5 : s ≠ "network-lock") (h6 : s ≠ "network-unlock")
    (h7 : s ≠ "setup-namespaces") (h8 : s ≠ "post-setup-namespaces")
    (h9 : s ≠ "post-resume") (h10 : s ≠ "pre-resume") : expectedCall s pid = none := by
  unfold expectedCall hookTable
  rw [lookup_cons_ne _ _ _ _ h1, lookup_cons_ne _ _ _ _ h2, lookup_cons_ne _ _ _ _ h3,
    lookup_cons_ne _ _ _ _ h4, lookup_cons_ne _ _ _ _ h5, lookup_cons_ne _ _ _ _ h6,
    lookup_cons_ne _ _ _ _ h7, lookup_cons_ne _ _ _ _ h8, lookup_cons_ne _ _ _ _ h10,
    lookup_cons_ne _ _ _ _ h9]
  rfl

theorem dispatch_recording (result : HookCall → Option Error) (s : String) (pid : Int)
    (log : List HookCall) :
    dispatch (recordingNotify result) (some ⟨s, pid⟩) log =
      (match expectedCall s pid with
        | some call => (log ++ [call], result call)
        | none => (log, none)) := by
  by_cases h1 : s = "pre-dump"
  · subst h1; rfl
  by_cases h2 : s = "post-dump"
  · subst h2; rfl
  by_cases h3 : s = "pre-restore"
  · subst h3; rfl
  by_cases h4 : s = "post-restore"
  · subst h4; rfl
  by_cases h5 : s = "network-lock"
  · subst h5; rfl
  by_cases h6 : s = "network-unlock"
  · subst h6; rfl
  by_cases h7 : s = "setup-namespaces"
  · subst h7; rfl
  by_cases h8 : s = "post-setup-namespaces"
  · subst h8; rfl
  by_cases h9 : s = "post-resume"
  · subst h9; rfl
  by_cases h10 : s = "pre-resume"
  · subst h10; rfl
  rw [expectedCall_unknown s pid h1 h2 h3 h4 h5 h6 h7 h8 h9 h10]
  simp only [dispatch, GetScript, if_neg h1, if_neg h2, if_neg h3, if_neg h4, if_neg h5,
    if_neg h6, if_neg h7, if_neg h8, if_neg h9, if_neg h10]

theorem dispatch_unknown {σ : Type} (nfy : Notify σ) (notify : Option CriuNotify) (st : σ)
    (h : expectedCall (GetScript notify) (GetPid notify) = none) :
    dispatch nfy notify st = (st, none) := by
  have h1 : GetScript notify ≠ "pre-dump" := by intro e; rw [e] at h; cases h
  have h2 : GetScript notify ≠ "post-dump" := by intro e; rw [e] at h; cases h
  have h3 : GetScript notify ≠ "pre-restore" := by intro e; rw [e] at h; cases h
  have h4 : GetScript notify ≠ "post-restore" := by intro e; rw [e] at h; cases h
  have h5 : GetScript notify ≠ "network-lock" := by intro e; rw [e] at h; cases h
  have h6 : GetScript notify ≠ "network-unlock" := by intro e; rw [e] at h; cases h
  have h7 : GetScript notify ≠ "setup-namespaces" := by intro e; rw [e] at h; cases h
  have h8 : GetScript notify ≠ "post-setup-namespaces" := by intro e; rw [e] at h; cases h
  have h9 : GetScript notify ≠ "post-resume" := by intro e; rw [e] at h; cases h
  have h10 : GetScript notify ≠ "pre-resume" := by intro e; rw [e] at h; cases h
  simp only [dispatch, if_neg h1, if_neg h2, if_neg h3, if_neg h4, if_neg h5,
    if_neg h6, if_neg h7, if_neg h8, if_neg h9, if_neg h10]

/-- C11: at a notification the loop invokes exactly the hook that the table gives for the
callback name, once, with the notification's PID for `post-restore` and `setup-namespaces`,
and no other hook (the recording handler's log grows by that one call). For a name that is
not in the table no hook is invoked and the handler's state is unchanged, and the loop goes on
to the next round with the acknowledgement `notify_success = true` as the request to write. -/
theorem C11_dispatch_follows_table {σ : Type} (nfy : Notify σ) (st : σ)
    (result : HookCall → Option Error) (notify : CriuNotify) (log : List HookCall)
    (r : CriuResp) (rest : List Exchange) (req : CriuReq) (sent : List CriuReq) :
    dispatch (recordingNotify result) (some notify) log =
      (match expectedCall notify.Script notify.Pid with
        | some call => (log ++ [call], result call)
        | none => (log, none)) ∧
    (expectedCall (GetScript r.Notify) (GetPid r.Notify) = none →
      dispatch nfy r.Notify st = (st, none) ∧
      (r.Success = true → r.Typ = .NOTIFY →
        swrkLoop (some nfy) (.response r :: rest) req st sent =
          swrkLoop (some nfy) rest (ackReq .NOTIFY) st (sent ++ [req]) ∧
        (ackReq .NOTIFY).NotifySuccess = some true)) := by
  constructor
  · exact dispatch_recording result notify.Script notify.Pid log
  · intro h
    have hd := dispatch_unknown nfy r.Notify st h
    refine ⟨hd, fun hs ht => ⟨?_, rfl⟩⟩
    simp [swrkLoop, hs, ht, hd]

/-- C11 at a notification named `pre-checkpoint`, which the table does not hold: the handler
is left as it was and the loop goes on with the acknowledgement. -/
theorem C11_unknown_name_witness :
    swrkLoop (some (gpuFailingNotify "could not restore gpu"))
        (.response (notifyResp "pre-checkpoint" 7) :: [.response (terminalResp .DUMP 0)])
        ⟨.DUMP, none, none, none⟩ 0 [] =
      swrkLoop (some (gpuFailingNotify "could not restore gpu"))
        [.response (terminalResp .DUMP 0)] (ackReq .NOTIFY) 0
        ([] ++ [⟨.DUMP, none, none, none⟩]) ∧
    (ackReq .NOTIFY).NotifySuccess = some true :=
  ((C11_dispatch_follows_table (gpuFailingNotify "could not restore gpu") 0 (fun _ => none)
    ⟨"pre-checkpoint", 7⟩ [] (notifyResp "pre-checkpoint" 7) [.response (terminalResp .DUMP 0)]
    ⟨.DUMP, none, none, none⟩ []).2 (by decide)).2 rfl rfl

/-! ## C12: sending a file -/

/-- C12: `SendFile` returns the `filename too long` error without calling `SendRawFd` exactly
when the byte length of the file's name is at least `MaxNameLen = 4096`; for a name of at most
4095 bytes it calls `SendRawFd` once, with the name as the message and the file's descriptor,
and returns that call's result. -/
theorem C12_send_file_name_limit (sendmsg : Nat → Bytes → List Nat → Option Error)
    (socket file : File) :
    MaxNameLen = 4096 ∧
    ((SendFile sendmsg socket file =
        ⟨some ("sendfd: filename too long: " ++ bytesToString file.Name), []⟩) ↔
      4096 ≤ file.Name.length) ∧
    (file.Name.length ≤ 4095 →
      SendFile sendmsg socket file = SendRawFd sendmsg socket file.Name file.Fd ∧
      (SendFile sendmsg socket file).sendmsgCalls = [(socket.Fd, file.Name, [file.Fd])] ∧
      (SendFile sendmsg socket file).err = sendmsg socket.Fd file.Name [file.Fd]) := by
  refine ⟨rfl, ?_, ?_⟩
  · constructor
    · intro h
      by_cases hlen : 4096 ≤ file.Name.length
      · exact hlen
      · have hc := congrArg SendResult.sendmsgCalls h
        simp [SendFile, SendRawFd, MaxNameLen, hlen] at hc
    · intro hlen
      simp [SendFile, MaxNameLen, hlen]
  · intro hlen
    have hlt : ¬ 4096 ≤ file.Name.length := by omega
    simp [SendFile, SendRawFd, MaxNameLen, hlt]

/-- C12 at the file `/var/log/app.log` with descriptor 9, sent over the socket with
descriptor 3. -/
theorem C12_send_file_witness :
    SendFile (fun _ _ _ => none) ⟨ascii "criu-xprt-cln", 3⟩ ⟨ascii "/var/log/app.log", 9⟩ =
      SendRawFd (fun _ _ _ => none) ⟨ascii "criu-xprt-cln", 3⟩ (ascii "/var/log/app.log") 9 ∧
    (SendFile (fun _ _ _ => none) ⟨ascii "criu-xprt-cln", 3⟩
        ⟨ascii "/var/log/app.log", 9⟩).sendmsgCalls = [(3, ascii "/var/log/app.log", [9])] ∧
    (SendFile (fun _ _ _ => none) ⟨ascii "criu-xprt-cln", 3⟩ ⟨ascii "/var/log/app.log", 9⟩).err
      = none :=
  (C12_send_file_name_limit (fun _ _ _ => none) ⟨ascii "criu-xprt-cln", 3⟩
    ⟨ascii "/var/log/app.log", 9⟩).2.2 (by decide)

/-! ## C17: the gRPC handler of restore -/

/-- C17 on the code: whatever `client.Restore` returns in the two cases of the claim, the
handler panics. After a successful restore (`err == nil`, PID `p`) the response literal calls
`err.Error()` on a nil error; after a failed one (`pid == nil`, error `e`) it dereferences the
nil `pid`. It returns only when both the error and the PID are non-nil. -/
theorem C17_restore_handler_panics (p : Int) (e : Error) :
    service.Restore (some p) none =
      .panic "invalid memory address or nil pointer dereference" ∧
    service.Restore none (some e) =
      .panic "invalid memory address or nil pointer dereference" ∧
    service.Restore (some p) (some e) = .ret (some ⟨e, p⟩, some e) :=
  ⟨rfl, rfl, rfl⟩

/-! ## C18: the engine version number -/

theorem getCriuVersion_eq (v : CriuVersion) (rest : List Exchange) :
    Criu.GetCriuVersion ⟨none, none, .response (versionResp v) :: rest, none⟩ =
      .ret (match v.Gitid with
        | some _ =>
          (match v.Sublevel with
            | some sublevel => v.MajorNumber * 10000 + v.MinorNumber * 100 + sublevel
            | none => v.MajorNumber * 10000 + v.MinorNumber * 100) -
          (match v.Sublevel with
            | some sublevel => v.MajorNumber * 10000 + v.MinorNumber * 100 + sublevel
            | none => v.MajorNumber * 10000 + v.MinorNumber * 100).tmod 100 + 100
        | none =>
          match v.Sublevel with
          | some sublevel => v.MajorNumber * 10000 + v.MinorNumber * 100 + sublevel
          | none => v.MajorNumber * 10000 + v.MinorNumber * 100, none) := by
  simp [Criu.GetCriuVersion, Criu.doSwrkWithResp, swrkLoop, versionResp, GetType]

theorem tmod_hundred (major minor s : Int) (hmaj : 0 ≤ major) (hmin : 0 ≤ minor)
    (hs0 : 0 ≤ s) (hs : s < 100) : (major * 10000 + minor * 100 + s).tmod 100 = s := by
  have hnn : 0 ≤ major * 10000 + minor * 100 + s := by positivity
  rw [Int.tmod_eq_emod hnn (by norm_num)]
  omega

/-- C18, as stated, fails for a git release whose sublevel is 150: for version 3.17.150 with
a git id `GetCriuVersion` returns 31900, the minor number increased by two, and not
`3 * 10000 + (17 + 1) * 100 = 31800`. -/
theorem C18_counterexample_sublevel_150 :
    Criu.GetCriuVersion
        ⟨none, none, [.response (versionResp ⟨3, 17, some "3.17-150-gabc", some 150⟩)], none⟩ =
      .ret (31900, none) ∧
    (31900 : Int) ≠ 3 * 10000 + (17 + 1) * 100 :=
  ⟨rfl, by decide⟩

/-- C18 (amended): for every version record with non-negative major and minor numbers that
the engine returns in a successful `VERSION` response, `GetCriuVersion` returns
`major * 10000 + minor * 100 + sublevel` when no git id is present (sublevel counted as 0
when absent), and when a git id is present and the sublevel is absent or within 0..99 it
returns `major * 10000 + (minor + 1) * 100`; `IsCriuAtLeast(v)` returns true exactly when
that number is at least `v`. -/
theorem C18_version_number (v : CriuVersion) (rest : List Exchange) (version : Int)
    (hmaj : 0 ≤ v.MajorNumber) (hmin : 0 ≤ v.MinorNumber)
    (hsub : v.Gitid ≠ none → ∀ s, v.Sublevel = some s → 0 ≤ s ∧ s < 100) :
    Criu.GetCriuVersion ⟨none, none, .response (versionResp v) :: rest, none⟩ =
      .ret (match v.Gitid with
        | none => v.MajorNumber * 10000 + v.MinorNumber * 100 + v.Sublevel.getD 0
        | some _ => v.MajorNumber * 10000 + (v.MinorNumber + 1) * 100, none) ∧
    Criu.IsCriuAtLeast ⟨none, none, .response (versionResp v) :: rest, none⟩ version =
      .ret (decide ((match v.Gitid with
        | none => v.MajorNumber * 10000 + v.MinorNumber * 100 + v.Sublevel.getD 0
        | some _ => v.MajorNumber * 10000 + (v.MinorNumber + 1) * 100) ≥ version), none) := by
  have hv : Criu.GetCriuVersion ⟨none, none, .response (versionResp v) :: rest, none⟩ =
      .ret (match v.Gitid with
        | none => v.MajorNumber * 10000 + v.MinorNumber * 100 + v.Sublevel.getD 0
        | some _ => v.MajorNumber * 10000 + (v.MinorNumber + 1) * 100, none) := by
    rw [getCriuVersion_eq]
    cases hg : v.Gitid with
    | none => cases hsl : v.Sublevel <;> simp
    | some g =>
      cases hsl : v.Sublevel with
      | none =>
        have := tmod_hundred v.MajorNumber v.MinorNumber 0 hmaj hmin (le_refl 0) (by norm_num)
        simp only [add_zero] at this
        simp only [this]
        congr 2
        ring
      | some s =>
        obtain ⟨h0, h1⟩ := hsub (by rw [hg]; simp) s hsl
        simp only [tmod_hundred v.MajorNumber v.MinorNumber s hmaj hmin h0 h1]
        congr 2
        ring
  refine ⟨hv, ?_⟩
  simp only [Criu.IsCriuAtLeast, hv]
  split_ifs with h <;> simp [h]

/-- C18 at the git release 3.17.4: the number is 31800, which is at least 31600. -/
theorem C18_version_witness :
    Criu.GetCriuVersion
        ⟨none, none, [.response (versionResp ⟨3, 17, some "3.17-4-gabc", some 4⟩)], none⟩ =
      .ret (31800, none) ∧
    Criu.IsCriuAtLeast
        ⟨none, none, [.response (versionResp ⟨3, 17, some "3.17-4-gabc", some 4⟩)], none⟩
        31600 = .ret (true, none) :=
  C18_version_number ⟨3, 17, some "3.17-4-gabc", some 4⟩ [] 31600 (by decide) (by decide)
    (by intro _ s hs; cases hs; decide)

/-! ## Lemmas on the filesystem -/

theorem get_put (fs : FS) (q p : AbsPath) (n : FileNode) (hq : q ≠ []) :
    (fs.put q n).get p = if q = p then some n else fs.get p := by
  unfold FS.get FS.put
  by_cases hp : p = []
  · subst hp
    simp [hq]
  · simp only [hp, if_false, findEntry]

theorem get_put_ne (fs : FS) (q p : AbsPath) (n : FileNode) (h : q ≠ p) (hq : q ≠ []) :
    (fs.put q n).get p = fs.get p := by
  rw [get_put fs q p n hq, if_neg h]

theorem get_put_self (fs : FS) (q : AbsPath) (n : FileNode) (hq : q ≠ []) :
    (fs.put q n).get q = some n := by
  rw [get_put fs q q n hq, if_pos rfl]

theorem append_singleton_ne_nil (done : AbsPath) (c : Bytes) : done ++ [c] ≠ [] := by
  simp

/-- What `os.MkdirAll` changes: nothing that exists; a path that did not exist is still
missing or is a directory of the given mode. -/
theorem mkdirAllFrom_get (mode : Nat) (todo : List Bytes) (done : AbsPath) (fs fs' : FS)
    (h : mkdirAllFrom mode done todo fs = .ok fs') (p : AbsPath) :
    fs'.get p = fs.get p ∨ (fs.get p = none ∧ fs'.get p = some (.dir mode)) := by
  induction todo generalizing done fs with
  | nil =>
    simp only [mkdirAllFrom] at h
    injection h with h
    subst h
    exact Or.inl rfl
  | cons c rest ih =>
    simp only [mkdirAllFrom] at h
    split at h
    · exact ih _ _ h
    · cases h
    · rename_i hnone
      rcases ih _ _ h with h1 | ⟨h1, h2⟩
      · by_cases hp : done ++ [c] = p
        · subst hp
          rw [get_put_self _ _ _ (append_singleton_ne_nil done c)] at h1
          exact Or.inr ⟨hnone, h1⟩
        · rw [get_put_ne _ _ _ _ hp (append_singleton_ne_nil done c)] at h1
          exact Or.inl h1
      · by_cases hp : done ++ [c] = p
        · subst hp
          rw [get_put_self _ _ _ (append_singleton_ne_nil done c)] at h1
          cases h1
        · rw [get_put_ne _ _ _ _ hp (append_singleton_ne_nil done c)] at h1
          exact Or.inr ⟨h1, h2⟩

theorem mkdirAllFrom_isDir (mode : Nat) (todo : List Bytes) (done : AbsPath) (fs fs' : FS)
    (h : mkdirAllFrom mode done todo fs = .ok fs')
    (hdone : ∃ m, fs.get done = some (.dir m)) :
    ∃ m, fs'.get (done ++ todo) = some (.dir m) := by
  induction todo generalizing done fs with
  | nil =>
    simp only [mkdirAllFrom] at h
    injection h with h
    subst h
    simpa using hdone
  | cons c rest ih =>
    simp only [mkdirAllFrom] at h
    have happ : done ++ c :: rest = (done ++ [c]) ++ rest := by simp
    rw [happ]
    split at h
    · rename_i m hdir
      exact ih _ _ h ⟨m, hdir⟩
    · cases h
    · exact ih _ _ h ⟨mode, get_put_self _ _ _ (append_singleton_ne_nil done c)⟩

theorem get_root (fs : FS) : fs.get [] = some (.dir 0o755) := by
  simp [FS.get]

theorem MkdirAll_get (cwd : AbsPath) (path : Bytes) (mode : Nat) (fs fs' : FS)
    (h : MkdirAll cwd path mode fs = .ok fs') (p : AbsPath) :
    fs'.get p = fs.get p ∨ (fs.get p = none ∧ fs'.get p = some (.dir mode)) :=
  mkdirAllFrom_get mode _ _ fs fs' h p

theorem MkdirAll_isDir (cwd : AbsPath) (path : Bytes) (mode : Nat) (fs fs' : FS)
    (h : MkdirAll cwd path mode fs = .ok fs') :
    ∃ m, fs'.get (resolve cwd path) = some (.dir m) := by
  have := mkdirAllFrom_isDir mode (resolve cwd path) [] fs fs' h ⟨_, get_root fs⟩
  simpa using this

/-- What a successful `CopyFile` does. -/
theorem CopyFile_ok (cwd src : AbsPath) (dstFolder : Bytes) (fs fs' : FS)
    (h : CopyFile cwd src dstFolder fs = .ok fs') :
    ∃ content name, fs.get src = some (.file content) ∧ src.getLast? = some name ∧
      (∀ m, fs.get (resolve cwd dstFolder ++ [name]) ≠ some (.dir m)) ∧
      fs' = fs.put (resolve cwd dstFolder ++ [name]) (.file content) := by
  unfold CopyFile at h
  split at h
  · rename_i content name hsrc hname
    simp only at h
    split at h
    · split at h
      · cases h
      · rename_i hnd
        injection h with h
        exact ⟨content, name, hsrc, hname, fun m hm => hnd m hm, h.symm⟩
    · cases h
  · cases h
  · cases h

/-! ## C13: the shell-job flag -/

theorem Contains_iff (s sub : Bytes) : Contains s sub = true ↔ sub <:+: s := by
  induction s with
  | nil => simp [Contains, List.isEmpty_iff]
  | cons c cs ih =>
    simp only [Contains, Bool.or_eq_true, List.isPrefixOf_iff_prefix, ih, List.infix_cons_iff]

theorem isShellJob_iff (fds : List OpenFd) :
    isShellJob fds = true ↔ ∃ f ∈ fds, ascii "pts" <:+: f.Path := by
  induction fds with
  | nil => simp [isShellJob]
  | cons f rest ih =>
    simp only [isShellJob, List.mem_cons, exists_eq_or_imp, ← Contains_iff f.Path]
    by_cases h : Contains f.Path (ascii "pts") = true
    · simp [h]
    · simp [h, ih]

theorem prepareRestore_ret (J : JSON) (cwd : AbsPath)
    (untar : Bytes → Bytes → FS → FS × Option Error) (opts : CriuOpts)
    (checkpointPath : Bytes) (fs : FS) (r : PrepareResult)
    (h : Client.prepareRestore J cwd untar opts checkpointPath fs = .ret r) :
    (∃ err, Mkdir cwd (ascii "cedana_restore") 0o755 fs = .error err ∧
      r = ⟨none, none, some err, opts, fs⟩) ∨
    (∃ fs1 fs2 data state fs3,
      Mkdir cwd (ascii "cedana_restore") 0o755 fs = .ok fs1 ∧
      untar checkpointPath (ascii "cedana_restore") fs1 = (fs2, none) ∧
      fs2.get (resolve cwd (ascii "cedana_restore") ++ [ascii "checkpoint_state.json"]) =
        some (.file data) ∧
      J.Unmarshal data ProcessState.zero = (state, none) ∧
      Client.restoreFiles cwd state (ascii "cedana_restore") fs2 = .ret fs3 ∧
      r = ⟨some (ascii "cedana_restore"), some state, none,
        { opts with ShellJob := some (isShellJob state.ProcessInfo.OpenFds) },
        chmodRecursive cwd (ascii "cedana_restore") 0o755 fs3⟩) := by
  unfold Client.prepareRestore at h
  simp only at h
  split at h
  · rename_i err hmk
    injection h with h
    exact Or.inl ⟨err, hmk, h.symm⟩
  · rename_i fs1 hmk
    split at h
    · cases h
    · rename_i fs2 hun
      split at h
      · cases h
      · cases h
      · rename_i data hget
        split at h
        · cases h
        · rename_i state hum
          split at h
          · cases h
          · cases h
          · rename_i fs3 hrf
            injection h with h
            exact Or.inr ⟨fs1, fs2, data, state, fs3, hmk, hun, hget, hum, hrf, h.symm⟩

/-- C13: whenever `prepareRestore` returns a state, that state is what `json.Unmarshal`
decoded from `checkpoint_state.json`, and the options it wrote to have `ShellJob` set:
to true if and only if some entry of the state's `OpenFds` has a path that contains `pts`,
to false otherwise, so to false when `OpenFds` is empty; no other option is changed. The
options of `prepareRestoreOpts` have log level 4, log file `cedana-restore.log` and
`TcpEstablished` true, and leave `ShellJob` unset. -/
theorem C13_shell_job_from_open_fds (J : JSON) (cwd : AbsPath)
    (untar : Bytes → Bytes → FS → FS × Option Error) (opts : CriuOpts)
    (checkpointPath : Bytes) (fs : FS) (r : PrepareResult) (state : ProcessState)
    (hret : Client.prepareRestore J cwd untar opts checkpointPath fs = .ret r)
    (hstate : r.state = some state) :
    (∃ data, J.Unmarshal data ProcessState.zero = (state, none)) ∧
    (r.opts.ShellJob = some true ↔
      ∃ f ∈ state.ProcessInfo.OpenFds, ascii "pts" <:+: f.Path) ∧
    (r.opts.ShellJob = some false ↔
      ¬ ∃ f ∈ state.ProcessInfo.OpenFds, ascii "pts" <:+: f.Path) ∧
    (state.ProcessInfo.OpenFds = [] → r.opts.ShellJob = some false) ∧
    r.opts = { opts with ShellJob := r.opts.ShellJob } ∧
    Client.prepareRestoreOpts.LogLevel = some 4 ∧
    Client.prepareRestoreOpts.LogFile = some "cedana-restore.log" ∧
    Client.prepareRestoreOpts.TcpEstablished = some true ∧
    Client.prepareRestoreOpts.ShellJob = none := by
  rcases prepareRestore_ret J cwd untar opts checkpointPath fs r hret with
    ⟨err, _, hr⟩ | ⟨fs1, fs2, data, state', fs3, _, _, _, hum, _, hr⟩
  · subst hr
    cases hstate
  · subst hr
    injection hstate with hstate
    subst hstate
    refine ⟨⟨data, hum⟩, ?_, ?_, ?_, rfl, rfl, rfl, rfl, rfl⟩
    · simp only [Option.some.injEq]
      exact isShellJob_iff _
    · simp only [Option.some.injEq, ← isShellJob_iff]
      simp
    · intro he
      simp only [he, isShellJob]

/-- C13 at scenario S2: the archive of scenario S1, whose one open descriptor is
`/dev/pts/0`, unpacked by a process at `/srv`. -/
theorem C13_shell_job_witness :
    Client.prepareRestore refJSON exampleCwd (unpack exampleCwd exampleArchive)
        Client.prepareRestoreOpts (ascii "/tmp/dump.tar") exampleFS = .ret examplePrepared ∧
    examplePrepared.state = some exampleState ∧
    examplePrepared.opts.ShellJob = some true :=
  ⟨rfl, rfl,
    (C13_shell_job_from_open_fds refJSON exampleCwd (unpack exampleCwd exampleArchive)
      Client.prepareRestoreOpts (ascii "/tmp/dump.tar") exampleFS examplePrepared exampleState
      rfl rfl).2.1.2 ⟨⟨1, ascii "/dev/pts/0", ascii "rw"⟩, by decide, by decide⟩⟩

/-! ## C16: the staging directory after a restore -/

theorem resolve_staging (cwd : AbsPath) :
    resolve cwd (ascii "cedana_restore") = cwd ++ [ascii "cedana_restore"] := rfl

theorem findEntry_filter_none (p : AbsPath) (f : AbsPath × FileNode → Bool)
    (l : List (AbsPath × FileNode)) (h : ∀ e ∈ l, e.1 = p → f e = false) :
    findEntry p (l.filter f) = none := by
  induction l with
  | nil => rfl
  | cons e rest ih =>
    obtain ⟨q, n⟩ := e
    have ih := ih fun e he => h e (List.mem_cons_of_mem _ he)
    by_cases hf : f (q, n) = true
    · rw [List.filter_cons_of_pos hf]
      simp only [findEntry]
      by_cases hq : q = p
      · have := h (q, n) (List.mem_cons_self _ _) hq
        rw [this] at hf
        cases hf
      · rw [if_neg hq]
        exact ih
    · rw [List.filter_cons_of_neg hf]
      exact ih

theorem RemoveAll_get (cwd : AbsPath) (path : Bytes) (fs : FS) (p : AbsPath)
    (hp : resolve cwd path <+: p) (hne : p ≠ []) : (RemoveAll cwd path fs).get p = none := by
  unfold FS.get RemoveAll
  rw [if_neg hne]
  apply findEntry_filter_none
  intro e _ he
  subst he
  simp [List.isPrefixOf_iff_prefix, hp]

theorem criuRestore_fs {σ : Type} (eng : Engine) (st : σ) (cwd : AbsPath) (imagesDirFd : Int)
    (opts : CriuOpts) (nfy : Notify σ) (dir : Bytes) (fs : FS) (r : RestoreResult)
    (h : Client.criuRestore eng st cwd imagesDirFd opts nfy dir fs = .ret r) :
    r.fs = RemoveAll cwd dir fs := by
  unfold Client.criuRestore at h
  simp only at h
  split at h
  · cases h
  · split at h
    · cases h
    · split at h
      · injection h with h
        subst h
        rfl
      · split at h
        · cases h
        · injection h with h
          subst h
          rfl

theorem Restore_ret {σ : Type} (J : JSON) (eng : Engine) (st : σ) (cwd : AbsPath)
    (untar : Bytes → Bytes → FS → FS × Option Error) (imagesDirFd : Int) (nfy : Notify σ)
    (gpuRestore : σ → σ × Option Error) (checkpointPath : Bytes) (fs : FS) (r : RestoreResult)
    (h : Client.Restore J eng st cwd untar imagesDirFd nfy gpuRestore checkpointPath fs =
      .ret r) :
    (∃ err, Mkdir cwd (ascii "cedana_restore") 0o755 fs = .error err ∧
      r = ⟨none, some err, fs⟩) ∨
    (∃ fs1 fs2, Mkdir cwd (ascii "cedana_restore") 0o755 fs = .ok fs1 ∧
      r.fs = RemoveAll cwd (ascii "cedana_restore") fs2) := by
  unfold Client.Restore at h
  simp only at h
  split at h
  · cases h
  · cases h
  · rename_i prep hprep
    rcases prepareRestore_ret J cwd untar _ checkpointPath fs prep hprep with
      ⟨err, hmk, hr⟩ | ⟨fs1, fs2, data, state, fs3, hmk, _, _, _, _, hr⟩
    · subst hr
      simp only at h
      injection h with h
      exact Or.inl ⟨err, hmk, h.symm⟩
    · subst hr
      simp only at h
      split at h
      · cases h
      · cases h
      · rename_i r' hr'
        have hfs := criuRestore_fs _ _ _ _ _ _ _ _ _ hr'
        refine Or.inr ⟨fs1, chmodRecursive cwd (ascii "cedana_restore") 0o755 fs3, hmk, ?_⟩
        split at h
        · injection h with h
          subst h
          exact hfs
        · injection h with h
          subst h
          exact hfs

/-- C16, counterexample: when `cedana_restore` is already there, `os.Mkdir` fails,
`Client.Restore` returns its error, and the directory is still there afterwards. -/
theorem C16_counterexample_staging_exists :
    Client.Restore refJSON exampleEngine 0 exampleCwd (unpack exampleCwd exampleArchive) 3
        (gpuFailingNotify "could not restore gpu") (fun n => (n, none))
        (ascii "/tmp/dump.tar") staleFS = .ret ⟨none, some "file exists", staleFS⟩ ∧
    staleFS.get (resolve exampleCwd (ascii "cedana_restore")) = some (.dir 0o755) :=
  ⟨rfl, rfl⟩

/-- C16, amended: for every call of `Client.Restore` that returns, if `os.Mkdir` could not
create `cedana_restore` the call returns the error of `os.Mkdir` and leaves the filesystem
as it was; and if `os.Mkdir` created it, nothing exists at or below `cedana_restore`
afterwards, whether the call returns a PID or an error. -/
theorem C16_staging_absent_after_fresh_mkdir {σ : Type} (J : JSON) (eng : Engine) (st : σ)
    (cwd : AbsPath) (untar : Bytes → Bytes → FS → FS × Option Error) (imagesDirFd : Int)
    (nfy : Notify σ) (gpuRestore : σ → σ × Option Error) (checkpointPath : Bytes) (fs : FS)
    (r : RestoreResult)
    (hret : Client.Restore J eng st cwd untar imagesDirFd nfy gpuRestore checkpointPath fs =
      .ret r) :
    (∀ err, Mkdir cwd (ascii "cedana_restore") 0o755 fs = .error err →
      r = ⟨none, some err, fs⟩) ∧
    (∀ fs1, Mkdir cwd (ascii "cedana_restore") 0o755 fs = .ok fs1 →
      ∀ p, resolve cwd (ascii "cedana_restore") <+: p → r.fs.get p = none) := by
  rcases Restore_ret J eng st cwd untar imagesDirFd nfy gpuRestore checkpointPath fs r hret
    with ⟨err, hmk, hr⟩ | ⟨fs1, fs2, hmk, hr⟩
  · refine ⟨?_, ?_⟩
    · intro err' h
      rw [hmk] at h
      injection h with h
      subst h
      exact hr
    · intro fs1 h
      rw [hmk] at h
      cases h
  · refine ⟨?_, ?_⟩
    · intro err h
      rw [hmk] at h
      cases h
    · intro _ _ p hp
      rw [hr]
      refine RemoveAll_get cwd _ fs2 p hp ?_
      intro hnil
      subst hnil
      rw [resolve_staging] at hp
      have := List.prefix_nil.1 hp
      simp at this

/-- C16 at scenario S2: the archive of scenario S1 restored into PID 5151 by a process at
`/srv`; the staging directory `/srv/cedana_restore` is gone afterwards. -/
theorem C16_restore_witness :
    Client.Restore refJSON exampleEngine 0 exampleCwd (unpack exampleCwd exampleArchive) 3
        (gpuFailingNotify "could not restore gpu") (fun n => (n, none))
        (ascii "/tmp/dump.tar") exampleFS = .ret ⟨some 5151, none, exampleFS⟩ ∧
    Mkdir exampleCwd (ascii "cedana_restore") 0o755 exampleFS =
      .ok (exampleFS.put [ascii "srv", ascii "cedana_restore"] (.dir 0o755)) ∧
    exampleFS.get [ascii "srv", ascii "cedana_restore"] = none :=
  ⟨rfl, rfl,
    (C16_staging_absent_after_fresh_mkdir refJSON exampleEngine 0 exampleCwd
      (unpack exampleCwd exampleArchive) 3 (gpuFailingNotify "could not restore gpu")
      (fun n => (n, none)) (ascii "/tmp/dump.tar") exampleFS ⟨some 5151, none, exampleFS⟩
      rfl).2 _ rfl [ascii "srv", ascii "cedana_restore"] (List.prefix_refl _)⟩

/-! ## Lemmas on `restoreFiles` -/

theorem nodeStep_refl (a : Option FileNode) : nodeStep a a := Or.inl rfl

theorem nodeStep_trans (a b c : Option FileNode) (h1 : nodeStep a b) (h2 : nodeStep b c) :
    nodeStep a c := by
  rcases h1 with h1 | ⟨ha, hb⟩ | ⟨⟨x, hb⟩, ha⟩
  · subst h1
    exact h2
  · subst ha hb
    rcases h2 with h2 | ⟨h, _⟩ | ⟨_, h⟩
    · subst h2
      exact Or.inr (Or.inl ⟨rfl, rfl⟩)
    · cases h
    · exact absurd rfl (h _)
  · subst hb
    rcases h2 with h2 | ⟨h, _⟩ | ⟨hc, _⟩
    · subst h2
      exact Or.inr (Or.inr ⟨⟨x, rfl⟩, ha⟩)
    · cases h
    · exact Or.inr (Or.inr ⟨hc, ha⟩)

theorem nodeStep_dir (m : Nat) (b : Option FileNode) (h : nodeStep (some (.dir m)) b) :
    b = some (.dir m) := by
  rcases h with h | ⟨h, _⟩ | ⟨_, h⟩
  · exact h.symm
  · cases h
  · exact absurd rfl (h m)

theorem nodeStep_new_dir (a : Option FileNode) (m : Nat) (h : nodeStep a (some (.dir m)))
    (ha : a = none) : m = 0o755 := by
  subst ha
  rcases h with h | ⟨_, h⟩ | ⟨⟨c, h⟩, _⟩
  · cases h
  · injection h with h
    injection h with h
  · cases h

theorem MkdirAll_step (cwd : AbsPath) (path : Bytes) (fs fs' : FS)
    (h : MkdirAll cwd path 0o755 fs = .ok fs') (q : AbsPath) :
    nodeStep (fs.get q) (fs'.get q) := by
  rcases MkdirAll_get cwd path 0o755 fs fs' h q with h1 | ⟨h1, h2⟩
  · exact Or.inl h1.symm
  · exact Or.inr (Or.inl ⟨h1, h2⟩)

theorem CopyFile_step (cwd src : AbsPath) (dstFolder : Bytes) (fs fs' : FS)
    (h : CopyFile cwd src dstFolder fs = .ok fs') (q : AbsPath) :
    nodeStep (fs.get q) (fs'.get q) := by
  obtain ⟨content, name, _, _, hnd, hfs⟩ := CopyFile_ok cwd src dstFolder fs fs' h
  subst hfs
  by_cases hq : resolve cwd dstFolder ++ [name] = q
  · subst hq
    rw [get_put_self _ _ _ (append_singleton_ne_nil _ _)]
    exact Or.inr (Or.inr ⟨⟨content, rfl⟩, hnd⟩)
  · rw [get_put_ne _ _ _ _ hq (append_singleton_ne_nil _ _)]
    exact Or.inl rfl

theorem restoreFilesVisit_step (cwd src : AbsPath) (paths : List Bytes) (fs fs' : FS)
    (h : restoreFilesVisit cwd src paths fs = .ok fs') (q : AbsPath) :
    nodeStep (fs.get q) (fs'.get q) := by
  induction paths generalizing fs with
  | nil =>
    simp only [restoreFilesVisit] at h
    injection h with h
    subst h
    exact nodeStep_refl _
  | cons f rest ih =>
    simp only [restoreFilesVisit] at h
    split at h
    · split at h
      · cases h
      · rename_i fs1 hmk
        split at h
        · cases h
        · rename_i fs2 hcp
          exact nodeStep_trans _ _ _ (MkdirAll_step _ _ _ _ hmk q)
            (nodeStep_trans _ _ _ (CopyFile_step _ _ _ _ _ hcp q) (ih fs2 h))
    · exact ih fs h

theorem restoreFilesWalk_step (cwd : AbsPath) (paths : List Bytes) (srcs : List AbsPath)
    (fs fs' : FS) (h : restoreFilesWalk cwd paths srcs fs = .ok fs') (q : AbsPath) :
    nodeStep (fs.get q) (fs'.get q) := by
  induction srcs generalizing fs with
  | nil =>
    simp only [restoreFilesWalk] at h
    injection h with h
    subst h
    exact nodeStep_refl _
  | cons s rest ih =>
    simp only [restoreFilesWalk] at h
    split at h
    · cases h
    · rename_i fs1 hv
      exact nodeStep_trans _ _ _ (restoreFilesVisit_step _ _ _ _ _ hv q) (ih fs1 h)

/-- The directories `os.MkdirAll` leaves on the way to its target. -/
theorem mkdirAllFrom_prefix_isDir (mode : Nat) (todo : List Bytes) (done : AbsPath)
    (fs fs' : FS) (h : mkdirAllFrom mode done todo fs = .ok fs')
    (hdone : ∀ q, q <+: done → ∃ m, fs.get q = some (.dir m)) :
    ∀ q, q <+: done ++ todo → ∃ m, fs'.get q = some (.dir m) := by
  induction todo generalizing done fs with
  | nil =>
    simp only [mkdirAllFrom] at h
    injection h with h
    subst h
    simpa using hdone
  | cons c rest ih =>
    simp only [mkdirAllFrom] at h
    have happ : done ++ c :: rest = (done ++ [c]) ++ rest := by simp
    rw [happ]
    split at h
    · rename_i m hdir
      refine ih _ _ h ?_
      intro q hq
      rcases List.prefix_concat_iff.1 hq with hq | hq
      · subst hq
        exact ⟨m, hdir⟩
      · exact hdone q hq
    · cases h
    · refine ih _ _ h ?_
      intro q hq
      rcases List.prefix_concat_iff.1 hq with hq | hq
      · subst hq
        exact ⟨mode, get_put_self _ _ _ (append_singleton_ne_nil done c)⟩
      · obtain ⟨m, hm⟩ := hdone q hq
        refine ⟨m, ?_⟩
        rw [get_put_ne _ _ _ _ ?_ (append_singleton_ne_nil done c)]
        · exact hm
        · intro he
          have := hq.length_le
          rw [← he] at this
          simp at this

theorem MkdirAll_prefix_isDir (cwd : AbsPath) (path : Bytes) (mode : Nat) (fs fs' : FS)
    (h : MkdirAll cwd path mode fs = .ok fs') :
    ∀ q, q <+: resolve cwd path → ∃ m, fs'.get q = some (.dir m) := by
  have := mkdirAllFrom_prefix_isDir mode (resolve cwd path) [] fs fs' h (by
    intro q hq
    have := List.prefix_nil.1 hq
    subst this
    exact ⟨_, get_root fs⟩)
  simpa using this

/-- A path that is not the target of a recorded path with the visited name keeps its
node over one visit. -/
theorem restoreFilesVisit_frame (cwd src : AbsPath) (paths : List Bytes) (fs fs' : FS)
    (q : AbsPath) (n : FileNode)
    (hq : ∀ f ∈ paths, src.getLast? = some (filepathBase f) → restoreTarget cwd f ≠ q)
    (hex : fs.get q = some n)
    (h : restoreFilesVisit cwd src paths fs = .ok fs') : fs'.get q = some n := by
  induction paths generalizing fs with
  | nil =>
    simp only [restoreFilesVisit] at h
    injection h with h
    subst h
    exact hex
  | cons f rest ih =>
    have hq' : ∀ f ∈ rest, src.getLast? = some (filepathBase f) → restoreTarget cwd f ≠ q :=
      fun g hg => hq g (List.mem_cons_of_mem _ hg)
    simp only [restoreFilesVisit] at h
    split at h
    · rename_i hmatch
      split at h
      · cases h
      · rename_i fs1 hmk
        split at h
        · cases h
        · rename_i fs2 hcp
          refine ih fs2 hq' ?_ h
          obtain ⟨content, name, _, hname, _, hfs⟩ := CopyFile_ok _ _ _ _ _ hcp
          subst hfs
          rw [hmatch] at hname
          injection hname with hname
          subst hname
          have hfq : resolve cwd (filepathDir f) ++ [filepathBase f] ≠ q :=
            hq f (List.mem_cons_self _ _) hmatch
          rw [get_put_ne _ _ _ _ hfq (append_singleton_ne_nil _ _)]
          rcases MkdirAll_get _ _ _ _ _ hmk q with h1 | ⟨h1, _⟩
          · rw [h1, hex]
          · rw [hex] at h1
            cases h1
    · exact ih fs hq' hex h

theorem restoreFilesWalk_frame (cwd : AbsPath) (paths : List Bytes) (srcs : List AbsPath)
    (fs fs' : FS) (q : AbsPath) (n : FileNode)
    (hq : ∀ s ∈ srcs, ∀ f ∈ paths, s.getLast? = some (filepathBase f) →
      restoreTarget cwd f ≠ q)
    (hex : fs.get q = some n)
    (h : restoreFilesWalk cwd paths srcs fs = .ok fs') : fs'.get q = some n := by
  induction srcs generalizing fs with
  | nil =>
    simp only [restoreFilesWalk] at h
    injection h with h
    subst h
    exact hex
  | cons s rest ih =>
    simp only [restoreFilesWalk] at h
    split at h
    · cases h
    · rename_i fs1 hv
      exact ih fs1 (fun s' hs' => hq s' (List.mem_cons_of_mem _ hs'))
        (restoreFilesVisit_frame cwd s paths fs fs1 q n (hq s (List.mem_cons_self _ _)) hex hv) h

/-- One visit of a regular file writes its bytes at the target of every recorded path with
its name. -/
theorem restoreFilesVisit_writes (cwd src : AbsPath) (paths : List Bytes) (fs fs' : FS)
    (content : Bytes) (d : AbsPath)
    (hsrc : fs.get src = some (.file content))
    (hne : ∀ f ∈ paths, restoreTarget cwd f ≠ src)
    (h : restoreFilesVisit cwd src paths fs = .ok fs')
    (hd : (∃ f ∈ paths, src.getLast? = some (filepathBase f) ∧ restoreTarget cwd f = d) ∨
      fs.get d = some (.file content)) :
    fs'.get d = some (.file content) := by
  induction paths generalizing fs with
  | nil =>
    simp only [restoreFilesVisit] at h
    injection h with h
    subst h
    rcases hd with ⟨f, hf, _⟩ | hd
    · cases hf
    · exact hd
  | cons f rest ih =>
    have hne' : ∀ f ∈ rest, restoreTarget cwd f ≠ src :=
      fun g hg => hne g (List.mem_cons_of_mem _ hg)
    simp only [restoreFilesVisit] at h
    split at h
    · rename_i hmatch
      split at h
      · cases h
      · rename_i fs1 hmk
        split at h
        · cases h
        · rename_i fs2 hcp
          obtain ⟨content', name, hsrc1, hname, _, hfs⟩ := CopyFile_ok _ _ _ _ _ hcp
          rw [hmatch] at hname
          injection hname with hname
          subst hname
          have hsrc1' : fs1.get src = some (.file content) := by
            rcases MkdirAll_get _ _ _ _ _ hmk src with h1 | ⟨h1, _⟩
            · rw [h1, hsrc]
            · rw [hsrc] at h1
              cases h1
          rw [hsrc1'] at hsrc1
          injection hsrc1 with hsrc1
          injection hsrc1 with hsrc1
          subst hsrc1
          have hput : ∀ p, fs2.get p =
              if restoreTarget cwd f = p then some (.file content) else fs1.get p := by
            intro p
            rw [hfs]
            exact get_put fs1 _ p _ (append_singleton_ne_nil _ _)
          refine ih fs2 ?_ hne' h ?_
          · rw [hput, if_neg (hne f (List.mem_cons_self _ _))]
            exact hsrc1'
          · rcases hd with ⟨g, hg, hgm, hgd⟩ | hd
            · rcases List.mem_cons.1 hg with hg | hg
              · subst hg
                right
                rw [hput, if_pos hgd]
              · exact Or.inl ⟨g, hg, hgm, hgd⟩
            · right
              rw [hput]
              split
              · rfl
              · rcases MkdirAll_get _ _ _ _ _ hmk d with h1 | ⟨h1, _⟩
                · rw [h1, hd]
                · rw [hd] at h1
                  cases h1
    · rename_i hmatch
      refine ih fs hsrc hne' h ?_
      rcases hd with ⟨g, hg, hgm, hgd⟩ | hd
      · rcases List.mem_cons.1 hg with hg | hg
        · subst hg
          exact absurd hgm hmatch
        · exact Or.inl ⟨g, hg, hgm, hgd⟩
      · exact Or.inr hd

/-- One visit leaves the directory of every recorded path with the visited name, and the
directories above it, in place. -/
theorem restoreFilesVisit_dirs (cwd src : AbsPath) (paths : List Bytes) (fs fs' : FS)
    (f : Bytes) (hf : f ∈ paths) (hmatch : src.getLast? = some (filepathBase f))
    (h : restoreFilesVisit cwd src paths fs = .ok fs') :
    ∀ q, q <+: resolve cwd (filepathDir f) → ∃ m, fs'.get q = some (.dir m) := by
  induction paths generalizing fs with
  | nil => cases hf
  | cons g rest ih =>
    simp only [restoreFilesVisit] at h
    rcases List.mem_cons.1 hf with hfg | hfg
    · subst hfg
      rw [if_pos hmatch] at h
      split at h
      · cases h
      · rename_i fs1 hmk
        split at h
        · cases h
        · rename_i fs2 hcp
          intro q hq
          obtain ⟨m, hm⟩ := MkdirAll_prefix_isDir _ _ _ _ _ hmk q hq
          have h2 := CopyFile_step _ _ _ _ _ hcp q
          rw [hm] at h2
          have h3 := restoreFilesVisit_step _ _ _ _ _ h q
          rw [nodeStep_dir _ _ h2] at h3
          exact ⟨m, nodeStep_dir _ _ h3⟩
    · split at h
      · split at h
        · cases h
        · split at h
          · cases h
          · exact ih _ hfg h
      · exact ih _ hfg h

theorem restoreFilesWalk_append (cwd : AbsPath) (paths : List Bytes) (a b : List AbsPath)
    (fs fs' : FS) (h : restoreFilesWalk cwd paths (a ++ b) fs = .ok fs') :
    ∃ fs1, restoreFilesWalk cwd paths a fs = .ok fs1 ∧
      restoreFilesWalk cwd paths b fs1 = .ok fs' := by
  induction a generalizing fs with
  | nil => exact ⟨fs, rfl, h⟩
  | cons s rest ih =>
    simp only [List.cons_append, restoreFilesWalk] at h ⊢
    split at h
    · cases h
    · rename_i fs1 hv
      exact ih fs1 h

theorem restoreTarget_name (cwd : AbsPath) (f g : Bytes)
    (h : restoreTarget cwd f = restoreTarget cwd g) : filepathBase f = filepathBase g := by
  unfold restoreTarget at h
  have := List.append_inj_right' h rfl
  simpa using this

/-- The walk of `restoreFiles`: the last visited regular file with a name is the one whose
bytes are at the target of every recorded path with that name, and the directories on the
way to each such target are in place. -/
theorem restoreFilesWalk_last_wins (cwd : AbsPath) (paths : List Bytes)
    (pre post : List AbsPath) (src : AbsPath) (fs fs' : FS) (content : Bytes) (f : Bytes)
    (h : restoreFilesWalk cwd paths (pre ++ src :: post) fs = .ok fs')
    (hsrc : fs.get src = some (.file content))
    (hne : ∀ g ∈ paths, restoreTarget cwd g ≠ src)
    (hf : f ∈ paths) (hmatch : src.getLast? = some (filepathBase f))
    (hlast : ∀ s ∈ post, s.getLast? ≠ some (filepathBase f)) :
    fs'.get (restoreTarget cwd f) = some (.file content) ∧
    ∀ q, q <+: resolve cwd (filepathDir f) →
      ∃ m, fs'.get q = some (.dir m) ∧ (fs.get q = none → m = 0o755) := by
  have hall := restoreFilesWalk_step cwd paths _ fs fs' h
  obtain ⟨fs1, h1, h2⟩ := restoreFilesWalk_append cwd paths pre (src :: post) fs fs' h
  simp only [restoreFilesWalk] at h2
  split at h2
  · cases h2
  · rename_i fs2 hv
    have hsrc1 : fs1.get src = some (.file content) :=
      restoreFilesWalk_frame cwd paths pre fs fs1 src _ (fun _ _ g hg _ => hne g hg) hsrc h1
    have hw : fs2.get (restoreTarget cwd f) = some (.file content) :=
      restoreFilesVisit_writes cwd src paths fs1 fs2 content _ hsrc1 hne hv
        (Or.inl ⟨f, hf, hmatch, rfl⟩)
    refine ⟨?_, ?_⟩
    · refine restoreFilesWalk_frame cwd paths post fs2 fs' _ _ ?_ hw h2
      intro s hs g _ hsg hgf
      apply hlast s hs
      rw [hsg, restoreTarget_name cwd g f hgf]
    · intro q hq
      obtain ⟨m, hm⟩ := restoreFilesVisit_dirs cwd src paths fs1 fs2 f hf hmatch hv q hq
      have h3 := restoreFilesWalk_step cwd paths post fs2 fs' h2 q
      rw [hm] at h3
      have h4 := nodeStep_dir _ _ h3
      refine ⟨m, h4, ?_⟩
      intro hnone
      have h5 := hall q
      rw [h4] at h5
      exact nodeStep_new_dir _ _ h5 hnone

theorem restoreFilesWalk_nil_paths (cwd : AbsPath) (srcs : List AbsPath) (fs : FS) :
    restoreFilesWalk cwd [] srcs fs = .ok fs := by
  induction srcs with
  | nil => rfl
  | cons s rest ih => simp only [restoreFilesWalk, restoreFilesVisit, ih]

theorem mem_Walk (fs : FS) (root p : AbsPath) (h : p ∈ Walk fs root) : root <+: p := by
  unfold Walk at h
  have h := (List.perm_insertionSort _ _).mem_iff.1 h
  rw [List.mem_dedup, List.mem_filter] at h
  simpa [List.isPrefixOf_iff_prefix] using h.2

/-! ## C14: what `restoreFiles` leaves at a recorded path -/

theorem restoreFiles_ret (cwd : AbsPath) (ps : ProcessState) (dir : Bytes) (fs fs' : FS)
    (hret : Client.restoreFiles cwd ps dir fs = .ret fs')
    (hdir : fs.get (resolve cwd dir) ≠ none) :
    restoreFilesWalk cwd ps.ProcessInfo.OpenWriteOnlyFilePaths (Walk fs (resolve cwd dir)) fs =
      .ok fs' := by
  unfold Client.restoreFiles at hret
  split at hret
  · rename_i h
    exact absurd h hdir
  · split at hret
    · cases hret
    · rename_i fs2 h
      injection hret with hret
      subst hret
      exact h

theorem restoreFiles_last_wins (cwd : AbsPath) (ps : ProcessState) (dir : Bytes) (fs fs' : FS)
    (f : Bytes) (src : AbsPath) (pre post : List AbsPath) (content : Bytes)
    (hret : Client.restoreFiles cwd ps dir fs = .ret fs')
    (hdir : fs.get (resolve cwd dir) ≠ none)
    (hf : f ∈ ps.ProcessInfo.OpenWriteOnlyFilePaths)
    (hout : ∀ g ∈ ps.ProcessInfo.OpenWriteOnlyFilePaths,
      ¬ resolve cwd dir <+: restoreTarget cwd g)
    (hwalk : Walk fs (resolve cwd dir) = pre ++ src :: post)
    (hsrc : fs.get src = some (.file content))
    (hname : src.getLast? = some (filepathBase f))
    (hlast : ∀ s ∈ post, s.getLast? ≠ some (filepathBase f)) :
    fs'.get (restoreTarget cwd f) = some (.file content) ∧
    ∀ q, q <+: resolve cwd (filepathDir f) →
      ∃ m, fs'.get q = some (.dir m) ∧ (fs.get q = none → m = 0o755) := by
  have hw := restoreFiles_ret cwd ps dir fs fs' hret hdir
  rw [hwalk] at hw
  refine restoreFilesWalk_last_wins cwd _ pre post src fs fs' content f hw hsrc ?_ hf hname hlast
  intro g hg he
  apply hout g hg
  rw [he]
  apply mem_Walk fs
  rw [hwalk]
  simp

/-- C14, counterexample: a staging tree with two regular files named `x.log`, `a/x.log`
with the bytes `A` and `b/x.log` with the bytes `B`, and the recorded path `/out/x.log`. The
base name of `a/x.log` is that of the recorded path, and after `restoreFiles` the file at
`/out/x.log` has the bytes `B`, not those of `a/x.log`. -/
theorem C14_counterexample_two_staging_files :
    twoFilesFS.get [ascii "srv", ascii "cedana_restore", ascii "a", ascii "x.log"] =
      some (.file (ascii "A")) ∧
    [ascii "srv", ascii "cedana_restore", ascii "a", ascii "x.log"].getLast? =
      some (filepathBase (ascii "/out/x.log")) ∧
    ∃ fs', Client.restoreFiles exampleCwd (stateOfPaths [ascii "/out/x.log"])
        (ascii "cedana_restore") twoFilesFS = .ret fs' ∧
      fs'.get (resolve exampleCwd (ascii "/out/x.log")) = some (.file (ascii "B")) :=
  ⟨rfl, rfl, _, rfl, rfl⟩

/-- C14, amended: whenever `restoreFiles` returns on an existing staging directory (it ends
the process when a directory cannot be created or a copy fails), for every recorded path
`p` of `OpenWriteOnlyFilePaths`, if no recorded path has its target inside the staging
tree and `src` is the last regular file in the order of the walk whose name is the base
name of `p`, then afterwards the file named `Base(p)` in the directory `Dir(p)` has the
bytes of `src`, and `Dir(p)` and every directory above it exists, with mode 0755 where it
did not exist before. And when `OpenWriteOnlyFilePaths` is empty `restoreFiles` returns and
leaves the whole filesystem as it was. -/
theorem C14_restore_files_copies_back (cwd : AbsPath) (ps : ProcessState) (dir : Bytes)
    (fs fs' : FS) (p : Bytes) (src : AbsPath) (pre post : List AbsPath) (content : Bytes)
    (hret : Client.restoreFiles cwd ps dir fs = .ret fs')
    (hdir : fs.get (resolve cwd dir) ≠ none)
    (hp : p ∈ ps.ProcessInfo.OpenWriteOnlyFilePaths)
    (hout : ∀ g ∈ ps.ProcessInfo.OpenWriteOnlyFilePaths,
      ¬ resolve cwd dir <+: restoreTarget cwd g)
    (hwalk : Walk fs (resolve cwd dir) = pre ++ src :: post)
    (hsrc : fs.get src = some (.file content))
    (hname : src.getLast? = some (filepathBase p))
    (hlast : ∀ s ∈ post, s.getLast? ≠ some (filepathBase p)) :
    (fs'.get (restoreTarget cwd p) = some (.file content) ∧
      ∀ q, q <+: resolve cwd (filepathDir p) →
        ∃ m, fs'.get q = some (.dir m) ∧ (fs.get q = none → m = 0o755)) ∧
    (∀ (ps0 : ProcessState) (fs0 : FS), ps0.ProcessInfo.OpenWriteOnlyFilePaths = [] →
      Client.restoreFiles cwd ps0 dir fs0 = .ret fs0) := by
  refine ⟨restoreFiles_last_wins cwd ps dir fs fs' p src pre post content hret hdir hp hout
    hwalk hsrc hname hlast, ?_⟩
  intro ps0 fs0 h0
  unfold Client.restoreFiles
  rw [h0]
  split
  · rfl
  · rw [restoreFilesWalk_nil_paths]

/-- C14 at scenario S3: the staging tree holds `app.log` with the bytes `HELLO` and the
recorded path is `/var/log/app.log`; afterwards `/var/log/app.log` has the bytes `HELLO`
and `/var/log` is a directory of mode 0755. -/
theorem C14_restore_files_witness :
    (∃ fs', Client.restoreFiles exampleCwd writableState (ascii "cedana_restore") stagedFS =
        .ret fs' ∧
      fs'.get [ascii "var", ascii "log", ascii "app.log"] = some (.file (ascii "HELLO")) ∧
      fs'.get [ascii "var", ascii "log"] = some (.dir 0o755)) ∧
    Client.restoreFiles exampleCwd exampleState (ascii "cedana_restore") stagedFS =
      .ret stagedFS :=
  have h := C14_restore_files_copies_back exampleCwd writableState (ascii "cedana_restore")
    stagedFS _ (ascii "/var/log/app.log")
    [ascii "srv", ascii "cedana_restore", ascii "app.log"]
    [[ascii "srv", ascii "cedana_restore"]] [] (ascii "HELLO")
    rfl (by decide) (by decide) (by decide) rfl rfl rfl (by decide)
  ⟨⟨_, rfl, h.1.1, by
      obtain ⟨m, hm, hmode⟩ := h.1.2 [ascii "var", ascii "log"] (List.prefix_refl _)
      rw [hm, hmode rfl]⟩,
    h.2 exampleState stagedFS rfl⟩

/-! ## C15: recorded paths and staging files that share a base name -/

/-- C15, counterexample: a staging tree with `a/x.log` (bytes `A`) and `b/x.log` (bytes `B`)
and the recorded paths `/out1/x.log` and `/out2/x.log`, in this order. The walk meets
`a/x.log` first. After `restoreFiles` there is a file at the later recorded path
`/out2/x.log`, and the file at `/out1/x.log` has the bytes `B` of the file the walk met
last. -/
theorem C15_counterexample_duplicate_basenames :
    Walk twoFilesFS (resolve exampleCwd (ascii "cedana_restore")) =
      [[ascii "srv", ascii "cedana_restore"],
       [ascii "srv", ascii "cedana_restore", ascii "a"],
       [ascii "srv", ascii "cedana_restore", ascii "a", ascii "x.log"],
       [ascii "srv", ascii "cedana_restore", ascii "b"],
       [ascii "srv", ascii "cedana_restore", ascii "b", ascii "x.log"]] ∧
    ∃ fs', Client.restoreFiles exampleCwd
        (stateOfPaths [ascii "/out1/x.log", ascii "/out2/x.log"])
        (ascii "cedana_restore") twoFilesFS = .ret fs' ∧
      fs'.get (resolve exampleCwd (ascii "/out2/x.log")) = some (.file (ascii "B")) ∧
      fs'.get (resolve exampleCwd (ascii "/out1/x.log")) = some (.file (ascii "B")) ∧
      fs'.get (resolve exampleCwd (ascii "/out1/x.log")) ≠ some (.file (ascii "A")) :=
  ⟨by decide, _, rfl, rfl, rfl, by decide⟩

/-- C15, amended: whenever `restoreFiles` returns on an existing staging directory, with no
recorded path's target inside the staging tree, a staging file is copied to every recorded
path that has its base name, not only to the first: for any two recorded paths `f1` and
`f2` with the same base name, both targets hold a copy afterwards. And when several staging
files have that name, the copies hold the bytes of the one the walk meets last: `src` is
that file, and no file the walk met before it with other bytes is what the targets hold. -/
theorem C15_every_match_written_last_file_wins (cwd : AbsPath) (ps : ProcessState)
    (dir : Bytes) (fs fs' : FS) (f1 f2 : Bytes) (src : AbsPath) (pre post : List AbsPath)
    (content : Bytes)
    (hret : Client.restoreFiles cwd ps dir fs = .ret fs')
    (hdir : fs.get (resolve cwd dir) ≠ none)
    (hf1 : f1 ∈ ps.ProcessInfo.OpenWriteOnlyFilePaths)
    (hf2 : f2 ∈ ps.ProcessInfo.OpenWriteOnlyFilePaths)
    (hbase : filepathBase f2 = filepathBase f1)
    (hout : ∀ g ∈ ps.ProcessInfo.OpenWriteOnlyFilePaths,
      ¬ resolve cwd dir <+: restoreTarget cwd g)
    (hwalk : Walk fs (resolve cwd dir) = pre ++ src :: post)
    (hsrc : fs.get src = some (.file content))
    (hname : src.getLast? = some (filepathBase f1))
    (hlast : ∀ s ∈ post, s.getLast? ≠ some (filepathBase f1)) :
    fs'.get (restoreTarget cwd f1) = some (.file content) ∧
    fs'.get (restoreTarget cwd f2) = some (.file content) ∧
    ∀ s ∈ pre, ∀ c, fs.get s = some (.file c) → c ≠ content →
      fs'.get (restoreTarget cwd f1) ≠ some (.file c) ∧
      fs'.get (restoreTarget cwd f2) ≠ some (.file c) := by
  have h1 := (restoreFiles_last_wins cwd ps dir fs fs' f1 src pre post content hret hdir hf1
    hout hwalk hsrc hname hlast).1
  have h2 := (restoreFiles_last_wins cwd ps dir fs fs' f2 src pre post content hret hdir hf2
    hout hwalk hsrc (hbase ▸ hname) (hbase ▸ hlast)).1
  refine ⟨h1, h2, ?_⟩
  intro s _ c _ hc
  rw [h1, h2]
  constructor <;>
  · intro he
    injection he with he
    injection he with he
    exact hc he.symm

/-- C15 on the staging tree with `a/x.log` and `b/x.log` and the recorded paths
`/out1/x.log` and `/out2/x.log`: both hold the bytes `B` of `b/x.log`, the file the walk
meets last. -/
theorem C15_duplicate_basenames_witness :
    ∃ fs', Client.restoreFiles exampleCwd
        (stateOfPaths [ascii "/out1/x.log", ascii "/out2/x.log"])
        (ascii "cedana_restore") twoFilesFS = .ret fs' ∧
      fs'.get [ascii "out1", ascii "x.log"] = some (.file (ascii "B")) ∧
      fs'.get [ascii "out2", ascii "x.log"] = some (.file (ascii "B")) :=
  have h := C15_every_match_written_last_file_wins exampleCwd
    (stateOfPaths [ascii "/out1/x.log", ascii "/out2/x.log"]) (ascii "cedana_restore")
    twoFilesFS _ (ascii "/out1/x.log") (ascii "/out2/x.log")
    [ascii "srv", ascii "cedana_restore", ascii "b", ascii "x.log"]
    [[ascii "srv", ascii "cedana_restore"],
     [ascii "srv", ascii "cedana_restore", ascii "a"],
     [ascii "srv", ascii "cedana_restore", ascii "a", ascii "x.log"],
     [ascii "srv", ascii "cedana_restore", ascii "b"]] [] (ascii "B")
    rfl (by decide) (by decide) (by decide) (by decide) (by decide) (by decide) rfl rfl
    (by decide)
  ⟨_, rfl, h.1, h.2.1⟩

end Cedana
